import Mathlib

/-!
# Session tickets of psiphon-tls (`ticket.go`)

A shallow embedding of the session-state codec (`sessionState.Bytes`,
`ParseSessionState`), of the ticket cipher (`encryptTicket`, `decryptTicket`,
`DecryptTicket`) and of `NewObfuscatedClientSessionState`; and of the method
`NonblockingIO.Write` of `psiphon/common/tun/nonblock_windows.go`, which
stands in a namespace of its own.

Conventions.
* A byte string (`[]byte`, `cryptobyte.String`) is a `List Nat`; the integers
  written by the builder are reduced modulo their width, the readers combine
  the bytes big-endian.
* A function that returns `(value, error)` returns `Except String value`;
  a function that returns a possibly nil slice returns an `Option`.
* The package variable `obfuscateSessionTickets` and every random draw are
  explicit arguments.
-/

set_option linter.dupNamespace false

namespace tls

/-! ## golang.org/x/crypto/cryptobyte

The builder and the string reader of the library, as far as ticket.go uses
them. A builder is the byte string written so far, or the first error met; a
reader takes the string that is left and returns what it read with the rest,
or nothing when the string is too short. -/

namespace cryptobyte

/-- The `n` low-order bytes of `v`, most significant first. -/
def bigEndian : Nat → Nat → List Nat
  | 0, _ => []
  | n + 1, v => (v / 256 ^ n) % 256 :: bigEndian n v

/-- The big-endian value of a byte string. -/
def beValue (bs : List Nat) : Nat :=
  bs.foldl (fun acc b => acc * 256 + b) 0

/-- Builder.AddUint8. -/
def AddUint8 (v : Nat) : List Nat := bigEndian 1 v

/-- Builder.AddUint16. -/
def AddUint16 (v : Nat) : List Nat := bigEndian 2 v

/-- Builder.AddUint32. -/
def AddUint32 (v : Nat) : List Nat := bigEndian 4 v

/-- Builder.AddUint64. -/
def AddUint64 (v : Nat) : List Nat := bigEndian 8 v

/-- Builder.addLengthPrefixed: the child is built, then its length is written in
`lenLen` bytes in front of it; a child that already failed, or one
too long for the length field, makes the builder fail. -/
def addLengthPrefixed (lenLen : Nat) (child : Except String (List Nat)) :
    Except String (List Nat) :=
  match child with
  | .error e => .error e
  | .ok c =>
    if c.length < 256 ^ lenLen then .ok (bigEndian lenLen c.length ++ c)
    else
      .error ("cryptobyte: pending child length " ++ toString c.length ++ " exceeds " ++
        toString lenLen ++ "-byte length prefix")

/-- Builder.AddUint8LengthPrefixed. -/
def AddUint8LengthPrefixed (child : Except String (List Nat)) : Except String (List Nat) :=
  addLengthPrefixed 1 child

/-- Builder.AddUint16LengthPrefixed. -/
def AddUint16LengthPrefixed (child : Except String (List Nat)) : Except String (List Nat) :=
  addLengthPrefixed 2 child

/-- Builder.AddUint24LengthPrefixed. -/
def AddUint24LengthPrefixed (child : Except String (List Nat)) : Except String (List Nat) :=
  addLengthPrefixed 3 child

/-- String.read: the next `n` bytes and the rest, or nothing when fewer remain. -/
def read (n : Nat) (s : List Nat) : Option (List Nat × List Nat) :=
  if n ≤ s.length then some (s.take n, s.drop n) else none

/-- String.readUnsigned. -/
def readUnsigned (n : Nat) (s : List Nat) : Option (Nat × List Nat) :=
  match read n s with
  | none => none
  | some (v, rest) => some (beValue v, rest)

/-- String.ReadUint8. -/
def ReadUint8 (s : List Nat) : Option (Nat × List Nat) := readUnsigned 1 s

/-- String.ReadUint16. -/
def ReadUint16 (s : List Nat) : Option (Nat × List Nat) := readUnsigned 2 s

/-- String.ReadUint32. -/
def ReadUint32 (s : List Nat) : Option (Nat × List Nat) := readUnsigned 4 s

/-- String.ReadUint64. -/
def ReadUint64 (s : List Nat) : Option (Nat × List Nat) := readUnsigned 8 s

/-- String.readLengthPrefixed. -/
def readLengthPrefixed (lenLen : Nat) (s : List Nat) : Option (List Nat × List Nat) :=
  match readUnsigned lenLen s with
  | none => none
  | some (len, rest) => read len rest

/-- String.ReadUint8LengthPrefixed. -/
def ReadUint8LengthPrefixed (s : List Nat) : Option (List Nat × List Nat) :=
  readLengthPrefixed 1 s

/-- String.ReadUint16LengthPrefixed. -/
def ReadUint16LengthPrefixed (s : List Nat) : Option (List Nat × List Nat) :=
  readLengthPrefixed 2 s

/-- String.ReadUint24LengthPrefixed. -/
def ReadUint24LengthPrefixed (s : List Nat) : Option (List Nat × List Nat) :=
  readLengthPrefixed 3 s

/-- String.Empty. -/
def Empty (s : List Nat) : Bool := s.isEmpty

end cryptobyte

open cryptobyte

/-! ## Constants and helpers declared in the package's other files -/

/-- Modelled from the spec: VersionTLS12, declared outside ticket.go; the
spec's "TLS-1.2", whose protocol number is 0x0303. -/
def VersionTLS12 : Nat := 0x0303

/-- Modelled from the spec: VersionTLS13, declared outside ticket.go; the
spec's "TLS-1.3", whose protocol number is 0x0304. -/
def VersionTLS13 : Nat := 0x0304

/-- Modelled from the spec: the cipher suite identifier
TLS_ECDHE_RSA_WITH_AES_128_GCM_SHA256, declared outside ticket.go; its
registered value is 0xc02f. -/
def TLS_ECDHE_RSA_WITH_AES_128_GCM_SHA256 : Nat := 0xc02f

/-- Modelled from the spec: masterSecretLength, declared outside ticket.go;
the spec's "random 48-byte value acting as the forged master secret". -/
def masterSecretLength : Nat := 48

/-- Modelled from the spec: extensionStatusRequest, the extension number
under which the leaf carries its OCSP staple. -/
def extensionStatusRequest : Nat := 5

/-- Modelled from the spec: extensionSCT, the extension number under which
the leaf carries its signed certificate timestamps. -/
def extensionSCT : Nat := 18

/-- Modelled from the spec: statusTypeOCSP. -/
def statusTypeOCSP : Nat := 1

/-- Modelled from the spec: addUint64, declared outside ticket.go: an
"8-byte integer". -/
def addUint64 (v : Nat) : List Nat := AddUint64 v

/-- Modelled from the spec: readUint64, declared outside ticket.go: an
"8-byte integer", read as two 32-bit halves. -/
def readUint64 (s : List Nat) : Option (Nat × List Nat) :=
  match ReadUint32 s with
  | none => none
  | some (hi, s1) =>
    match ReadUint32 s1 with
    | none => none
    | some (lo, s2) => some (hi * 2 ^ 32 + lo, s2)

/-- Modelled from the spec: readUint8LengthPrefixed, declared outside
ticket.go: "1-byte length prefix + bytes". -/
def readUint8LengthPrefixed (s : List Nat) : Option (List Nat × List Nat) :=
  ReadUint8LengthPrefixed s

/-- Modelled from the spec: readUint16LengthPrefixed, declared outside
ticket.go. -/
def readUint16LengthPrefixed (s : List Nat) : Option (List Nat × List Nat) :=
  ReadUint16LengthPrefixed s

/-- Modelled from the spec: readUint24LengthPrefixed, declared outside
ticket.go: a "3-byte-length-prefixed" block. -/
def readUint24LengthPrefixed (s : List Nat) : Option (List Nat × List Nat) :=
  ReadUint24LengthPrefixed s

/-! ## Data model -/

namespace x509

/-- The certificate type x509.Certificate; ticket.go reads only its Raw field. -/
structure Certificate where
  Raw : List Nat
deriving DecidableEq, Repr

end x509

/-- The type tls.Certificate, with the three fields ticket.go fills in. A nil
slice is `none`. -/
structure Certificate where
  Certificate : List (List Nat)
  OCSPStaple : Option (List Nat)
  SignedCertificateTimestamps : Option (List (List Nat))
deriving DecidableEq, Repr

/-- A sessionState is a resumable session (ticket.go, lines 29-107). An
activeCert handle is represented by the certificate it holds; alpnProtocol is
the byte string of the Go string. -/
structure sessionState where
  Extra : List (List Nat)
  EarlyData : Bool
  version : Nat
  isClient : Bool
  cipherSuite : Nat
  createdAt : Nat
  secret : List Nat
  extMasterSecret : Bool
  peerCertificates : List x509.Certificate
  activeCertHandles : List x509.Certificate
  ocspResponse : Option (List Nat)
  scts : Option (List (List Nat))
  verifiedChains : List (List x509.Certificate)
  alpnProtocol : List Nat
  useBy : Nat
  ageAdd : Nat
deriving DecidableEq, Repr

/-- The zero value of sessionState. -/
def sessionState.zero : sessionState :=
  { Extra := [], EarlyData := false, version := 0, isClient := false, cipherSuite := 0,
    createdAt := 0, secret := [], extMasterSecret := false, peerCertificates := [],
    activeCertHandles := [], ocspResponse := none, scts := none, verifiedChains := [],
    alpnProtocol := [], useBy := 0, ageAdd := 0 }

/-! ## Encoding -/

/-- Two consecutive pieces of builder output: the first error met is kept. -/
def andThen (a b : Except String (List Nat)) : Except String (List Nat) :=
  match a with
  | .error e => .error e
  | .ok x =>
    match b with
    | .error e => .error e
    | .ok y => .ok (x ++ y)

/-- The loop `for _, sct := range certificate.SignedCertificateTimestamps`. -/
def marshalSCTs : List (List Nat) → Except String (List Nat)
  | [] => .ok []
  | sct :: rest => andThen (AddUint16LengthPrefixed (.ok sct)) (marshalSCTs rest)

/-- The extension block of entry `i` of the certificate block: only the leaf
(`i = 0`) carries the OCSP staple and the SCT list. -/
def marshalCertificateExtensions (certificate : Certificate) (i : Nat) :
    Except String (List Nat) :=
  if i > 0 then .ok []
  else
    andThen
      (match certificate.OCSPStaple with
       | none => .ok []
       | some staple =>
         andThen (.ok (AddUint16 extensionStatusRequest))
           (AddUint16LengthPrefixed
             (andThen (.ok (AddUint8 statusTypeOCSP)) (AddUint24LengthPrefixed (.ok staple)))))
      (match certificate.SignedCertificateTimestamps with
       | none => .ok []
       | some scts =>
         andThen (.ok (AddUint16 extensionSCT))
           (AddUint16LengthPrefixed (AddUint16LengthPrefixed (marshalSCTs scts))))

/-- The loop `for i, cert := range certificate.Certificate`. -/
def marshalCertificateEntries (certificate : Certificate) :
    Nat → List (List Nat) → Except String (List Nat)
  | _, [] => .ok []
  | i, cert :: rest =>
    andThen (AddUint24LengthPrefixed (.ok cert))
      (andThen (AddUint16LengthPrefixed (marshalCertificateExtensions certificate i))
        (marshalCertificateEntries certificate (i + 1) rest))

/-- Modelled from the spec: marshalCertificate, declared outside ticket.go. The
"certificate block" holds the certificates, each behind a 3-byte length, the
leaf followed by its "OCSP staple (length-prefixed)" and its "SCT list
(length-prefixed blocks)", laid out as the extensions of a TLS 1.3
certificate entry. -/
def marshalCertificate (certificate : Certificate) : Except String (List Nat) :=
  AddUint24LengthPrefixed (marshalCertificateEntries certificate 0 certificate.Certificate)

/-- The function certificatesToBytesSlice. -/
def certificatesToBytesSlice (certs : List x509.Certificate) : List (List Nat) :=
  certs.map (fun c => c.Raw)

/-- The loop `for _, extra := range s.Extra`. -/
def marshalExtra : List (List Nat) → Except String (List Nat)
  | [] => .ok []
  | extra :: rest => andThen (AddUint24LengthPrefixed (.ok extra)) (marshalExtra rest)

/-- The loop `for _, cert := range chain[1:]`. -/
def marshalChainCerts : List x509.Certificate → Except String (List Nat)
  | [] => .ok []
  | cert :: rest => andThen (AddUint24LengthPrefixed (.ok cert.Raw)) (marshalChainCerts rest)

/-- One verified chain: the first certificate is elided, an empty chain is
an error. -/
def marshalChain (chain : List x509.Certificate) : Except String (List Nat) :=
  AddUint24LengthPrefixed
    (match chain with
     | [] => .error "tls: internal error: empty verified chain"
     | _ :: tail => marshalChainCerts tail)

/-- The loop `for _, chain := range s.verifiedChains`. -/
def marshalChains : List (List x509.Certificate) → Except String (List Nat)
  | [] => .ok []
  | chain :: rest => andThen (marshalChain chain) (marshalChains rest)

/-- The builder `b` of sessionState.Bytes and its result `b.Bytes()`
(ticket.go, lines 116-182): the encoding before any padding. -/
def sessionState.builder (s : sessionState) : Except String (List Nat) :=
  andThen (.ok (AddUint16 s.version))
  (andThen (.ok (if s.isClient then AddUint8 2 else AddUint8 1))
  (andThen (.ok (AddUint16 s.cipherSuite))
  (andThen (.ok (addUint64 s.createdAt))
  (andThen (AddUint8LengthPrefixed (.ok s.secret))
  (andThen (AddUint24LengthPrefixed (marshalExtra s.Extra))
  (andThen (.ok (if s.extMasterSecret then AddUint8 1 else AddUint8 0))
  (andThen (.ok (if s.EarlyData then AddUint8 1 else AddUint8 0))
  (andThen (marshalCertificate
      { Certificate := certificatesToBytesSlice s.peerCertificates,
        OCSPStaple := s.ocspResponse,
        SignedCertificateTimestamps := s.scts })
  (andThen (AddUint24LengthPrefixed (marshalChains s.verifiedChains))
  (andThen (if s.EarlyData then AddUint8LengthPrefixed (.ok s.alpnProtocol) else .ok [])
    (if s.isClient then
      (if s.version ≥ VersionTLS13 then .ok (addUint64 s.useBy ++ AddUint32 s.ageAdd)
       else .ok [])
     else .ok [])))))))))))

/-- The menu `paddedSizes` of sessionState.Bytes. -/
def paddedSizes : List Nat := [160, 176, 192, 208, 218, 224, 240, 255]

/-- The local `initialSize` of sessionState.Bytes. -/
def initialSize : Nat := 120

/-- The outcome of the random draws of one call of sessionState.Bytes:
`rand.Int(rand.Reader, len(paddedSizes))`, which is `none` when it returns an
error, and `math_rand.Intn(len(paddedSizes))`. -/
structure PaddingDraw where
  randInt : Option (Fin paddedSizes.length)
  mathRandIntn : Fin paddedSizes.length

/-- The index chosen by sessionState.Bytes. -/
def PaddingDraw.index (draw : PaddingDraw) : Fin paddedSizes.length :=
  match draw.randInt with
  | some randomInt => randomInt
  | none => draw.mathRandIntn

/-- The method sessionState.Bytes (ticket.go, lines 115-204). -/
def sessionState.Bytes (s : sessionState) (obfuscateSessionTickets : Bool)
    (draw : PaddingDraw) : Except String (List Nat) :=
  match s.builder with
  | .error err => .error err
  | .ok bytes =>
    if obfuscateSessionTickets then
      let paddingSize := paddedSizes.get draw.index - initialSize
      .ok (bytes ++ List.replicate paddingSize 0)
    else .ok bytes

/-! ## Decoding

A loop `for !s.Empty()` over a cryptobyte.String runs on a counter that
starts above the length of the string: every round that goes on removes at
least two bytes, so the counter never runs out before the string does. -/

/-- The loop `for !sctList.Empty()` of unmarshalCertificate. -/
def sctListLoop : Nat → List Nat → Certificate → Option Certificate
  | 0, _, _ => none
  | fuel + 1, sctList, certificate =>
    if Empty sctList then some certificate
    else
      match readUint16LengthPrefixed sctList with
      | none => none
      | some (sct, sctList) =>
        if sct.length = 0 then none
        else
          sctListLoop fuel sctList
            { certificate with
              SignedCertificateTimestamps :=
                some (certificate.SignedCertificateTimestamps.getD [] ++ [sct]) }

/-- The loop `for !extensions.Empty()` of unmarshalCertificate. -/
def extensionsLoop : Nat → List Nat → Certificate → Option Certificate
  | 0, _, _ => none
  | fuel + 1, extensions, certificate =>
    if Empty extensions then some certificate
    else if certificate.Certificate.length > 1 then none
    else
      match ReadUint16 extensions with
      | none => none
      | some (extension, extensions) =>
        match ReadUint16LengthPrefixed extensions with
        | none => none
        | some (extData, extensions) =>
          if extension = extensionStatusRequest then
            match ReadUint8 extData with
            | none => none
            | some (statusType, extData) =>
              if statusType ≠ statusTypeOCSP then none
              else
                match readUint24LengthPrefixed extData with
                | none => none
                | some (staple, extData) =>
                  if staple.length = 0 then none
                  else if !Empty extData then none
                  else extensionsLoop fuel extensions { certificate with OCSPStaple := some staple }
          else if extension = extensionSCT then
            match ReadUint16LengthPrefixed extData with
            | none => none
            | some (sctList, extData) =>
              if Empty sctList then none
              else
                match sctListLoop (sctList.length + 1) sctList certificate with
                | none => none
                | some certificate =>
                  if !Empty extData then none
                  else extensionsLoop fuel extensions certificate
          else extensionsLoop fuel extensions certificate

/-- The loop `for !certList.Empty()` of unmarshalCertificate. -/
def certListLoop : Nat → List Nat → Certificate → Option Certificate
  | 0, _, _ => none
  | fuel + 1, certList, certificate =>
    if Empty certList then some certificate
    else
      match readUint24LengthPrefixed certList with
      | none => none
      | some (cert, certList) =>
        match ReadUint16LengthPrefixed certList with
        | none => none
        | some (extensions, certList) =>
          match extensionsLoop (extensions.length + 1) extensions
              { certificate with Certificate := certificate.Certificate ++ [cert] } with
          | none => none
          | some certificate => certListLoop fuel certList certificate

/-- Modelled from the spec: unmarshalCertificate, declared outside ticket.go;
it reads back the "certificate block" written by marshalCertificate and
returns the certificate with the rest of the string, or nothing when it
reports failure. -/
def unmarshalCertificate (s : List Nat) : Option (Certificate × List Nat) :=
  match ReadUint24LengthPrefixed s with
  | none => none
  | some (certList, s) =>
    match certListLoop (certList.length + 1) certList
        { Certificate := [], OCSPStaple := none, SignedCertificateTimestamps := none } with
    | none => none
    | some certificate => some (certificate, s)

/-- The function allZeros (ticket.go, lines 565-573). -/
def allZeros : List Nat → Bool
  | [] => true
  | v :: b => if v ≠ 0 then false else allZeros b

/-- The error of ParseSessionState for a malformed encoding. -/
def invalidSessionEncoding : String := "tls: invalid session encoding"

/-- The loop `for !extra.Empty()` of ParseSessionState (lines 234-240). -/
def extraLoop : Nat → List Nat → List (List Nat) → Except String (List (List Nat))
  | 0, _, _ => .error invalidSessionEncoding
  | fuel + 1, extra, acc =>
    if Empty extra then .ok acc
    else
      match readUint24LengthPrefixed extra with
      | none => .error invalidSessionEncoding
      | some (e, extra) => extraLoop fuel extra (acc ++ [e])

/-- The loop `for _, cert := range cert.Certificate` of ParseSessionState
(lines 257-264); on success the certificates of the handles made, in order. -/
def peerCertificatesLoop (newCert : List Nat → Except String x509.Certificate) :
    List (List Nat) → List x509.Certificate → Except String (List x509.Certificate)
  | [], acc => .ok acc
  | cert :: rest, acc =>
    match newCert cert with
    | .error err => .error err
    | .ok c => peerCertificatesLoop newCert rest (acc ++ [c])

/-- The loop `for !certList.Empty()` inside the chain loop of
ParseSessionState (lines 281-292): the chain and the handles, extended. -/
def chainCertLoop (newCert : List Nat → Except String x509.Certificate) :
    Nat → List Nat → List x509.Certificate → List x509.Certificate →
      Except String (List x509.Certificate × List x509.Certificate)
  | 0, _, _, _ => .error invalidSessionEncoding
  | fuel + 1, certList, chain, handles =>
    if Empty certList then .ok (chain, handles)
    else
      match readUint24LengthPrefixed certList with
      | none => .error invalidSessionEncoding
      | some (cert, certList) =>
        match newCert cert with
        | .error err => .error err
        | .ok c => chainCertLoop newCert fuel certList (chain ++ [c]) (handles ++ [c])

/-- The loop `for !chainList.Empty()` of ParseSessionState (lines 271-294):
the verified chains and the handles, extended. -/
def chainListLoop (newCert : List Nat → Except String x509.Certificate)
    (peerCertificates : List x509.Certificate) :
    Nat → List Nat → List (List x509.Certificate) → List x509.Certificate →
      Except String (List (List x509.Certificate) × List x509.Certificate)
  | 0, _, _, _ => .error invalidSessionEncoding
  | fuel + 1, chainList, verifiedChains, handles =>
    if Empty chainList then .ok (verifiedChains, handles)
    else
      match ReadUint24LengthPrefixed chainList with
      | none => .error invalidSessionEncoding
      | some (certList, chainList) =>
        match peerCertificates with
        | [] => .error invalidSessionEncoding
        | leaf :: _ =>
          match chainCertLoop newCert (certList.length + 1) certList [leaf] handles with
          | .error err => .error err
          | .ok (chain, handles) =>
            chainListLoop newCert peerCertificates fuel chainList
              (verifiedChains ++ [chain]) handles

/-- The function ParseSessionState (ticket.go, lines 215-324). The argument
`newCert` is `globalCertCache.newCert`, which parses a certificate and
returns it, or an error. -/
def ParseSessionState (newCert : List Nat → Except String x509.Certificate)
    (data : List Nat) : Except String sessionState :=
  match ReadUint16 data with
  | none => .error invalidSessionEncoding
  | some (version, s) =>
  match ReadUint8 s with
  | none => .error invalidSessionEncoding
  | some (typ, s) =>
  if typ ≠ 1 ∧ typ ≠ 2 then .error invalidSessionEncoding
  else
  match ReadUint16 s with
  | none => .error invalidSessionEncoding
  | some (cipherSuite, s) =>
  match readUint64 s with
  | none => .error invalidSessionEncoding
  | some (createdAt, s) =>
  match readUint8LengthPrefixed s with
  | none => .error invalidSessionEncoding
  | some (secret, s) =>
  match ReadUint24LengthPrefixed s with
  | none => .error invalidSessionEncoding
  | some (extra, s) =>
  match ReadUint8 s with
  | none => .error invalidSessionEncoding
  | some (extMasterSecret, s) =>
  match ReadUint8 s with
  | none => .error invalidSessionEncoding
  | some (earlyData, s) =>
  if secret.length = 0 then .error invalidSessionEncoding
  else
  match unmarshalCertificate s with
  | none => .error invalidSessionEncoding
  | some (cert, s) =>
  match extraLoop (extra.length + 1) extra [] with
  | .error err => .error err
  | .ok Extra =>
  if extMasterSecret ≠ 0 ∧ extMasterSecret ≠ 1 then .error invalidSessionEncoding
  else
  if earlyData ≠ 0 ∧ earlyData ≠ 1 then .error invalidSessionEncoding
  else
  match peerCertificatesLoop newCert cert.Certificate [] with
  | .error err => .error err
  | .ok peerCertificates =>
  match ReadUint24LengthPrefixed s with
  | none => .error invalidSessionEncoding
  | some (chainList, s) =>
  match chainListLoop newCert peerCertificates (chainList.length + 1) chainList []
      peerCertificates with
  | .error err => .error err
  | .ok (verifiedChains, activeCertHandles) =>
  match (if earlyData = 1 then readUint8LengthPrefixed s else some ([], s)) with
  | none => .error invalidSessionEncoding
  | some (alpn, s) =>
  let ss : sessionState :=
    { Extra := Extra, EarlyData := decide (earlyData = 1), version := version,
      isClient := false, cipherSuite := cipherSuite, createdAt := createdAt,
      secret := secret, extMasterSecret := decide (extMasterSecret = 1),
      peerCertificates := peerCertificates, activeCertHandles := activeCertHandles,
      ocspResponse := cert.OCSPStaple, scts := cert.SignedCertificateTimestamps,
      verifiedChains := verifiedChains, alpnProtocol := alpn, useBy := 0, ageAdd := 0 }
  if typ ≠ 2 then
    if !Empty s && !allZeros s then .error invalidSessionEncoding
    else .ok ss
  else
  if peerCertificates.length = 0 then .error "tls: no server certificates in client session"
  else
  if version < VersionTLS13 then
    if !Empty s then .error invalidSessionEncoding
    else .ok { ss with isClient := true }
  else
  match ReadUint64 s with
  | none => .error invalidSessionEncoding
  | some (useBy, s) =>
  match ReadUint32 s with
  | none => .error invalidSessionEncoding
  | some (ageAdd, s) =>
  if !Empty s then .error invalidSessionEncoding
  else .ok { ss with isClient := true, useBy := useBy, ageAdd := ageAdd }

/-! ## The ticket cipher -/

/-- The type ticketKey: an AES-128 key and an HMAC-SHA256 key (both `[16]byte`
in the source). -/
structure ticketKey where
  aesKey : List Nat
  hmacKey : List Nat
deriving DecidableEq, Repr

/-- The primitives of the Go standard library that the ticket cipher calls,
and the key derivation of the package. -/
structure Primitives where
  /-- The tag `hmac.New(sha256.New, key)` gives to a message. -/
  hmacSha256 : List Nat → List Nat → List Nat
  /-- An HMAC-SHA256 tag has sha256.Size bytes. -/
  hmacSha256_size : ∀ key msg, (hmacSha256 key msg).length = 32
  /-- Byte `i` of the keystream of `cipher.NewCTR(block, iv)` for the AES
  block cipher of a key. -/
  aesCtrKeyStream : List Nat → List Nat → Nat → Nat
  /-- The method ticketKeyFromBytes, declared outside ticket.go: the ticket
  key derived from 32 bytes. -/
  ticketKeyFromBytes : List Nat → ticketKey
  /-- The derived AES key fills a `[16]byte`. -/
  ticketKeyFromBytes_aesKey : ∀ b, (ticketKeyFromBytes b).aesKey.length = 16

/-- The constant aes.BlockSize. -/
def aesBlockSize : Nat := 16

/-- The constant sha256.Size. -/
def sha256Size : Nat := 32

/-- The function aes.NewCipher: it accepts keys of 16, 24 or 32 bytes. -/
def aesNewCipher (key : List Nat) : Except String (List Nat) :=
  if key.length = 16 ∨ key.length = 24 ∨ key.length = 32 then .ok key
  else .error "crypto/aes: invalid key size"

/-- XOR of a byte string with a keystream, from position `i` on. -/
def xorKeyStreamFrom (keyStream : Nat → Nat) : Nat → List Nat → List Nat
  | _, [] => []
  | i, b :: rest => (b ^^^ keyStream i) :: xorKeyStreamFrom keyStream (i + 1) rest

/-- The call `cipher.NewCTR(block, iv).XORKeyStream(dst, src)`: the value of
`dst`. -/
def XORKeyStream (P : Primitives) (block iv src : List Nat) : List Nat :=
  xorKeyStreamFrom (P.aesCtrKeyStream block iv) 0 src

/-- The function subtle.ConstantTimeCompare. -/
def ConstantTimeCompare (x y : List Nat) : Nat :=
  if x = y then 1 else 0

/-- The function io.ReadFull on a reader that still delivers the bytes `rand`
and then ends: the bytes read, or the error, and the reader afterwards. The
error is io.EOF when no byte was read and io.ErrUnexpectedEOF after a short
read. -/
def ioReadFull (rand : List Nat) (n : Nat) : Except String (List Nat) × List Nat :=
  if n ≤ rand.length then (.ok (rand.take n), rand.drop n)
  else if rand.isEmpty then (.error "EOF", [])
  else (.error "unexpected EOF", [])

/-- The method config.encryptTicket (ticket.go, lines 355-381). The reader
`c.rand()` is the argument `rand`; the result comes with the reader as the
call leaves it. -/
def encryptTicket (P : Primitives) (state : List Nat) (ticketKeys : List ticketKey)
    (rand : List Nat) : Except String (List Nat) × List Nat :=
  match ticketKeys with
  | [] => (.error "tls: internal error: session ticket keys unavailable", rand)
  | key :: _ =>
    match ioReadFull rand aesBlockSize with
    | (.error err, rand) => (.error err, rand)
    | (.ok iv, rand) =>
      match aesNewCipher key.aesKey with
      | .error err =>
        (.error ("tls: failed to create cipher while encrypting ticket: " ++ err), rand)
      | .ok block =>
        let ciphertext := XORKeyStream P block iv state
        let authenticated := iv ++ ciphertext
        let macBytes := P.hmacSha256 key.hmacKey authenticated
        (.ok (authenticated ++ macBytes), rand)

/-- The loop `for _, key := range ticketKeys` of decryptTicket (lines
410-429): the plaintext or nil, and the HMAC evaluations made, each as the
pair of its key and its message, in order. -/
def decryptTicketKeys (P : Primitives) (iv ciphertext authenticated macBytes : List Nat) :
    List ticketKey → Option (List Nat) × List (List Nat × List Nat)
  | [] => (none, [])
  | key :: rest =>
    let expected := P.hmacSha256 key.hmacKey authenticated
    if ConstantTimeCompare macBytes expected ≠ 1 then
      let r := decryptTicketKeys P iv ciphertext authenticated macBytes rest
      (r.1, (key.hmacKey, authenticated) :: r.2)
    else
      match aesNewCipher key.aesKey with
      | .error _ => (none, [(key.hmacKey, authenticated)])
      | .ok block => (some (XORKeyStream P block iv ciphertext), [(key.hmacKey, authenticated)])

/-- The method config.decryptTicket (ticket.go, lines 400-430), together with
the list of the HMAC evaluations it makes. -/
def decryptTicketTraced (P : Primitives) (encrypted : List Nat) (ticketKeys : List ticketKey) :
    Option (List Nat) × List (List Nat × List Nat) :=
  if encrypted.length < aesBlockSize + sha256Size then (none, [])
  else
    let iv := encrypted.take aesBlockSize
    let ciphertext := (encrypted.take (encrypted.length - sha256Size)).drop aesBlockSize
    let authenticated := encrypted.take (encrypted.length - sha256Size)
    let macBytes := encrypted.drop (encrypted.length - sha256Size)
    decryptTicketKeys P iv ciphertext authenticated macBytes ticketKeys

/-- The method config.decryptTicket: the plaintext, or `none` for nil. -/
def decryptTicket (P : Primitives) (encrypted : List Nat) (ticketKeys : List ticketKey) :
    Option (List Nat) :=
  (decryptTicketTraced P encrypted ticketKeys).1

/-- The method config.EncryptTicket (ticket.go, lines 346-353); `ticketKeys`
is the value of `c.ticketKeys(nil)`. -/
def EncryptTicket (P : Primitives) (ticketKeys : List ticketKey) (ss : sessionState)
    (obfuscateSessionTickets : Bool) (draw : PaddingDraw) (rand : List Nat) :
    Except String (List Nat) × List Nat :=
  match ss.Bytes obfuscateSessionTickets draw with
  | .error err => (.error err, rand)
  | .ok stateBytes => encryptTicket P stateBytes ticketKeys rand

/-- The method config.DecryptTicket (ticket.go, lines 387-398); `ticketKeys`
is the value of `c.ticketKeys(nil)`. The result is the pair `(state, error)`
of the source, a nil state being `none`. -/
def DecryptTicket (P : Primitives) (newCert : List Nat → Except String x509.Certificate)
    (ticketKeys : List ticketKey) (identity : List Nat) : Except String (Option sessionState) :=
  match decryptTicket P identity ticketKeys with
  | none => .ok none
  | some stateBytes =>
    match ParseSessionState newCert stateBytes with
    | .error _ => .ok none
    | .ok s => .ok (some s)

/-! ## Obfuscated session tickets -/

/-- The type ObfuscatedClientSessionState (ticket.go, lines 463-471). -/
structure ObfuscatedClientSessionState where
  SessionTicket : List Nat
  Vers : Nat
  CipherSuite : Nat
  MasterSecret : List Nat
  ServerCertificates : List x509.Certificate
  VerifiedChains : List (List x509.Certificate)
  UseEMS : Bool
deriving DecidableEq, Repr

/-- The variable obfuscatedSessionTicketCipherSuite. -/
def obfuscatedSessionTicketCipherSuite : Nat := TLS_ECDHE_RSA_WITH_AES_128_GCM_SHA256

/-- The session state that NewObfuscatedClientSessionState puts in its
ticket (lines 523-528). -/
def obfuscatedServerState (masterSecret : List Nat) : sessionState :=
  { sessionState.zero with
    version := VersionTLS12
    cipherSuite := obfuscatedSessionTicketCipherSuite
    secret := masterSecret
    peerCertificates := [] }

/-- The function NewObfuscatedClientSessionState (ticket.go, lines 512-553).
The reader crypto/rand.Reader, from which the master secret and then the IV
are read, is the argument `rand`. -/
def NewObfuscatedClientSessionState (P : Primitives) (sharedSecret : List Nat)
    (obfuscateSessionTickets : Bool) (draw : PaddingDraw) (rand : List Nat) :
    Except String ObfuscatedClientSessionState :=
  let vers := VersionTLS12
  let cipherSuite := obfuscatedSessionTicketCipherSuite
  match ioReadFull rand masterSecretLength with
  | (.error err, _) => .error err
  | (.ok masterSecret, rand) =>
    let serverState := obfuscatedServerState masterSecret
    let sessionTicketKeys := [P.ticketKeyFromBytes sharedSecret]
    match serverState.Bytes obfuscateSessionTickets draw with
    | .error err => .error err
    | .ok ssBytes =>
      match (encryptTicket P ssBytes sessionTicketKeys rand).1 with
      | .error err => .error err
      | .ok sessionTicket =>
        .ok { SessionTicket := sessionTicket, Vers := vers, CipherSuite := cipherSuite,
              MasterSecret := masterSecret, ServerCertificates := [], VerifiedChains := [],
              UseEMS := false }

/-! ## Concrete instances used to exercise the definitions -/

/-- A stand-in for the primitives, simple enough to evaluate: the tag repeats
a checksum of key and message, the keystream counts up from a checksum of key
and IV, and the 32 bytes are split into the two keys. -/
def toyPrimitives : Primitives where
  hmacSha256 := fun key msg => List.replicate 32 ((key.sum + 3 * msg.sum + msg.length) % 256)
  hmacSha256_size := fun _ _ => List.length_replicate _ _
  aesCtrKeyStream := fun key iv i => (key.sum + iv.sum + i) % 256
  ticketKeyFromBytes := fun b =>
    { aesKey := (b ++ List.replicate 16 0).take 16, hmacKey := b.drop 16 }
  ticketKeyFromBytes_aesKey := fun b => by simp

/-- A stand-in for globalCertCache.newCert: it accepts the byte strings
that start with the DER sequence tag 0x30. -/
def toyNewCert (der : List Nat) : Except String x509.Certificate :=
  if der.head? = some 48 then .ok { Raw := der } else .error "x509: malformed certificate"

/-- A stand-in for a ticket key. -/
def toyKey1 : ticketKey := { aesKey := List.replicate 16 1, hmacKey := List.replicate 16 2 }

/-- A second stand-in for a ticket key, with another HMAC key. -/
def toyKey2 : ticketKey := { aesKey := List.replicate 16 3, hmacKey := List.replicate 16 4 }

/-- A padding draw in which the secure source answers 3. -/
def toyDraw : PaddingDraw := { randInt := some ⟨3, by decide⟩, mathRandIntn := ⟨0, by decide⟩ }

/-- A padding draw in which the secure source fails and the fallback answers 7. -/
def toyFallbackDraw : PaddingDraw := { randInt := none, mathRandIntn := ⟨7, by decide⟩ }

/-- A server-role TLS 1.3 session with two peer certificates, an OCSP staple,
two SCTs, two verified chains, two Extra blocks and early data. -/
def toyServerState : sessionState :=
  { Extra := [[1, 2], [3]], EarlyData := true, version := 0x0304, isClient := false,
    cipherSuite := 0x1301, createdAt := 1700000000, secret := [1, 2, 3],
    extMasterSecret := true,
    peerCertificates := [{ Raw := [48, 1, 2] }, { Raw := [48, 9] }],
    activeCertHandles := [],
    ocspResponse := some [5, 5], scts := some [[1], [2, 3]],
    verifiedChains :=
      [[{ Raw := [48, 1, 2] }, { Raw := [48, 9] }, { Raw := [48, 11] }], [{ Raw := [48, 1, 2] }]],
    alpnProtocol := [104, 50], useBy := 0, ageAdd := 0 }

/-- A client-role TLS 1.3 session with a peer certificate, a verified chain,
a use-by time and an age-add value. -/
def toyClientState : sessionState :=
  { Extra := [], EarlyData := false, version := 0x0304, isClient := true,
    cipherSuite := 0x1301, createdAt := 1700000000, secret := [9, 8, 7, 6],
    extMasterSecret := false,
    peerCertificates := [{ Raw := [48, 1, 2] }],
    activeCertHandles := [],
    ocspResponse := none, scts := none,
    verifiedChains := [[{ Raw := [48, 1, 2] }, { Raw := [48, 11] }]],
    alpnProtocol := [], useBy := 1700001000, ageAdd := 123456789 }

/-- A client-role TLS 1.2 session without peer certificates. -/
def toyClientNoCertState : sessionState :=
  { sessionState.zero with
    version := 0x0303
    isClient := true
    cipherSuite := 0xc02f
    createdAt := 1700000000
    secret := [7, 7, 7, 7] }

/-- The ticket forged from the shared secret 0, 1, ..., 31 when crypto/rand
delivers the bytes 0, 1, ..., 63. -/
def toyForgedTicket : List Nat :=
  match NewObfuscatedClientSessionState toyPrimitives (List.range 32) true toyDraw
      (List.range 64) with
  | .ok cs => cs.SessionTicket
  | .error _ => []

/-- A ticket under the first example key whose plaintext is no session state. -/
def toyUnparsableTicket : List Nat :=
  match (encryptTicket toyPrimitives [1, 2, 3] [toyKey1] (List.range 16)).1 with
  | .ok t => t
  | .error _ => []

/-! ## Predicates used by the statements -/

deriving instance DecidableEq for Except

/-- The byte string `t` with bit `bit` of its byte `i` flipped. -/
def flipBit (t : List Nat) (i bit : Nat) : List Nat :=
  t.set i (t.getD i 0 ^^^ 2 ^ bit)

/-- The bytes that encryptTicket authenticates under `key` for the IV `iv`
and the plaintext `state`: the IV followed by the ciphertext. -/
def authenticatedBytes (P : Primitives) (key : ticketKey) (iv state : List Nat) : List Nat :=
  iv ++ XORKeyStream P key.aesKey iv state

/-- What unmarshalCertificate needs of a certificate to give it back: a
staple or an SCT that is present is not empty, and neither is present
without a leaf to carry it. -/
structure Certificate.Readable (c : tls.Certificate) : Prop where
  ocsp_nonempty : ∀ o, c.OCSPStaple = some o → o ≠ []
  scts_nonempty : ∀ l, c.SignedCertificateTimestamps = some l → l ≠ [] ∧ ∀ x ∈ l, x ≠ []
  leaf_present : c.Certificate = [] →
    c.OCSPStaple = none ∧ c.SignedCertificateTimestamps = none

/-- A valid session state: the integers fit their Go types, the secret has 1
to 255 bytes, every certificate is one the certificate cache returns for its
own Raw bytes, every verified chain starts with the peer leaf, an OCSP
staple or SCT list that is present is non-empty and comes with a peer
certificate, the ALPN protocol is set only with EarlyData, and useBy and
ageAdd are set only for a client-role TLS 1.3 session. -/
structure sessionState.Valid (newCert : List Nat → Except String x509.Certificate)
    (s : sessionState) : Prop where
  version_lt : s.version < 2 ^ 16
  cipherSuite_lt : s.cipherSuite < 2 ^ 16
  createdAt_lt : s.createdAt < 2 ^ 64
  useBy_lt : s.useBy < 2 ^ 64
  ageAdd_lt : s.ageAdd < 2 ^ 32
  secret_length : 1 ≤ s.secret.length ∧ s.secret.length ≤ 255
  peer_known : ∀ c ∈ s.peerCertificates, newCert c.Raw = .ok c
  chains_leaf : ∀ chain ∈ s.verifiedChains, ∃ leaf tail,
    s.peerCertificates.head? = some leaf ∧ chain = leaf :: tail ∧
      ∀ c ∈ tail, newCert c.Raw = .ok c
  ocsp_nonempty : ∀ o, s.ocspResponse = some o → o ≠ [] ∧ s.peerCertificates ≠ []
  scts_nonempty : ∀ l, s.scts = some l → l ≠ [] ∧ (∀ x ∈ l, x ≠ []) ∧ s.peerCertificates ≠ []
  alpn_earlyData : s.EarlyData = false → s.alpnProtocol = []
  tls13_client : ¬ (s.isClient = true ∧ VersionTLS13 ≤ s.version) → s.useBy = 0 ∧ s.ageAdd = 0

/-- The handles ParseSessionState collects for a state: one for each peer
certificate, then one for each certificate of each verified chain after its
leaf. -/
def sessionState.parsedHandles (s : sessionState) : List x509.Certificate :=
  s.peerCertificates ++ (s.verifiedChains.map List.tail).flatten

/-! ## ParseSessionState in three stages

The reads that open the record, the body up to the ALPN protocol, and the end
of the record by role; a theorem below shows that ParseSessionState is their
sequence. -/

/-- The fields ParseSessionState reads before the certificate block (ticket.go,
lines 221-229), as the readers return them. -/
structure wireHeader where
  version : Nat
  typ : Nat
  cipherSuite : Nat
  createdAt : Nat
  secret : List Nat
  extra : List Nat
  extMasterSecret : Nat
  earlyData : Nat
deriving DecidableEq, Repr

/-- The eight reads that open ParseSessionState, without its checks on the role
byte and on the secret. -/
def readHeader (data : List Nat) : Option (wireHeader × List Nat) :=
  match ReadUint16 data with
  | none => none
  | some (version, s) =>
  match ReadUint8 s with
  | none => none
  | some (typ, s) =>
  match ReadUint16 s with
  | none => none
  | some (cipherSuite, s) =>
  match readUint64 s with
  | none => none
  | some (createdAt, s) =>
  match readUint8LengthPrefixed s with
  | none => none
  | some (secret, s) =>
  match ReadUint24LengthPrefixed s with
  | none => none
  | some (extra, s) =>
  match ReadUint8 s with
  | none => none
  | some (extMasterSecret, s) =>
  match ReadUint8 s with
  | none => none
  | some (earlyData, s) =>
    some ({ version := version, typ := typ, cipherSuite := cipherSuite, createdAt := createdAt,
            secret := secret, extra := extra, extMasterSecret := extMasterSecret,
            earlyData := earlyData }, s)

/-- ParseSessionState from its checks on the role byte and on the secret to the
ALPN protocol (ticket.go, lines 223-301): the state decoded so far, still
server-role, and the string that is left. -/
def parseBody (newCert : List Nat → Except String x509.Certificate) (h : wireHeader)
    (s : List Nat) : Except String (sessionState × List Nat) :=
  if h.typ ≠ 1 ∧ h.typ ≠ 2 then .error invalidSessionEncoding
  else
  if h.secret.length = 0 then .error invalidSessionEncoding
  else
  match unmarshalCertificate s with
  | none => .error invalidSessionEncoding
  | some (cert, s) =>
  match extraLoop (h.extra.length + 1) h.extra [] with
  | .error err => .error err
  | .ok Extra =>
  if h.extMasterSecret ≠ 0 ∧ h.extMasterSecret ≠ 1 then .error invalidSessionEncoding
  else
  if h.earlyData ≠ 0 ∧ h.earlyData ≠ 1 then .error invalidSessionEncoding
  else
  match peerCertificatesLoop newCert cert.Certificate [] with
  | .error err => .error err
  | .ok peerCertificates =>
  match ReadUint24LengthPrefixed s with
  | none => .error invalidSessionEncoding
  | some (chainList, s) =>
  match chainListLoop newCert peerCertificates (chainList.length + 1) chainList []
      peerCertificates with
  | .error err => .error err
  | .ok (verifiedChains, activeCertHandles) =>
  match (if h.earlyData = 1 then readUint8LengthPrefixed s else some ([], s)) with
  | none => .error invalidSessionEncoding
  | some (alpn, s) =>
    .ok ({ Extra := Extra, EarlyData := decide (h.earlyData = 1), version := h.version,
           isClient := false, cipherSuite := h.cipherSuite, createdAt := h.createdAt,
           secret := h.secret, extMasterSecret := decide (h.extMasterSecret = 1),
           peerCertificates := peerCertificates, activeCertHandles := activeCertHandles,
           ocspResponse := cert.OCSPStaple, scts := cert.SignedCertificateTimestamps,
           verifiedChains := verifiedChains, alpnProtocol := alpn, useBy := 0, ageAdd := 0 }, s)

/-- The end of ParseSessionState (ticket.go, lines 302-323): what it does, by
role and version, with the string left after the ALPN protocol. -/
def parseTail (typ : Nat) (ss : sessionState) (s : List Nat) : Except String sessionState :=
  if typ ≠ 2 then
    if !Empty s && !allZeros s then .error invalidSessionEncoding
    else .ok ss
  else
  if ss.peerCertificates.length = 0 then .error "tls: no server certificates in client session"
  else
  if ss.version < VersionTLS13 then
    if !Empty s then .error invalidSessionEncoding
    else .ok { ss with isClient := true }
  else
  match ReadUint64 s with
  | none => .error invalidSessionEncoding
  | some (useBy, s) =>
  match ReadUint32 s with
  | none => .error invalidSessionEncoding
  | some (ageAdd, s) =>
  if !Empty s then .error invalidSessionEncoding
  else .ok { ss with isClient := true, useBy := useBy, ageAdd := ageAdd }

/-- The three stages of ParseSessionState in sequence. -/
def parseStaged (newCert : List Nat → Except String x509.Certificate)
    (data : List Nat) : Except String sessionState :=
  match readHeader data with
  | none => .error invalidSessionEncoding
  | some (h, s) =>
    match parseBody newCert h s with
    | .error err => .error err
    | .ok (ss, s) => parseTail h.typ ss s

/-! ## The wire layout in the words of the spec -/

/-- Follows the spec: the Extra field as "a sequence of 3-byte-length-prefixed
opaque blocks". -/
def extraBlocks (extra : List (List Nat)) : List Nat :=
  (extra.map (fun block => bigEndian 3 block.length ++ block)).flatten

/-- Follows the spec: the first fields of the wire layout, in order: version
(2-byte integer), role tag (1 byte: 1=server, 2=client), cipher suite
(2-byte integer), created-at (8-byte integer), secret (1-byte length prefix
+ bytes), extra (3-byte length prefix wrapping the blocks), ext-master-
secret flag and early-data flag (1 byte each, 0/1). -/
def wireLayoutHead (s : sessionState) : List Nat :=
  [s.version / 256 % 256, s.version % 256] ++
  [if s.isClient then 2 else 1] ++
  [s.cipherSuite / 256 % 256, s.cipherSuite % 256] ++
  bigEndian 8 s.createdAt ++
  [s.secret.length] ++ s.secret ++
  bigEndian 3 (extraBlocks s.Extra).length ++ extraBlocks s.Extra ++
  [if s.extMasterSecret then 1 else 0] ++
  [if s.EarlyData then 1 else 0]

/-! ## Concrete encodings used to exercise the statements -/

/-- The encoding of the server-role example session, without padding. -/
def toyServerEncoding : List Nat :=
  [3, 4, 1, 19, 1, 0, 0, 0, 0, 101, 83, 241, 0, 3, 1, 2, 3, 0, 0, 9, 0, 0, 2, 1, 2, 0, 0, 1, 3,
    1, 1, 0, 0, 38, 0, 0, 3, 48, 1, 2, 0, 23, 0, 5, 0, 6, 1, 0, 0, 2, 5, 5, 0, 18, 0, 9, 0, 7,
    0, 1, 1, 0, 2, 2, 3, 0, 0, 2, 48, 9, 0, 0, 0, 0, 16, 0, 0, 10, 0, 0, 2, 48, 9, 0, 0, 2, 48,
    11, 0, 0, 0, 2, 104, 50]

/-- The encoding of the client-role example session, without padding. -/
def toyClientEncoding : List Nat :=
  [3, 4, 2, 19, 1, 0, 0, 0, 0, 101, 83, 241, 0, 4, 9, 8, 7, 6, 0, 0, 0, 0, 0, 0, 0, 8, 0, 0, 3,
    48, 1, 2, 0, 0, 0, 0, 8, 0, 0, 5, 0, 0, 2, 48, 11, 0, 0, 0, 0, 101, 83, 244, 232, 7, 91,
    205, 21]

/-- The opening fields of the encoding of the server-role example session. -/
def toyServerHeader : wireHeader :=
  { version := 772, typ := 1, cipherSuite := 4865, createdAt := 1700000000,
    secret := [1, 2, 3], extra := [0, 0, 2, 1, 2, 0, 0, 1, 3], extMasterSecret := 1,
    earlyData := 1 }

/-- The server-role example session as ParseSessionState returns it. -/
def toyServerParsed : sessionState :=
  { toyServerState with activeCertHandles := toyServerState.parsedHandles }

/-- The client-role example session as ParseSessionState returns it. -/
def toyClientParsed : sessionState :=
  { toyClientState with activeCertHandles := toyClientState.parsedHandles }

/-- The opening fields of the encoding of the client-role example session. -/
def toyClientHeader : wireHeader :=
  { version := 772, typ := 2, cipherSuite := 4865, createdAt := 1700000000,
    secret := [9, 8, 7, 6], extra := [], extMasterSecret := 0, earlyData := 0 }

/-- The client-role example session as the body of ParseSessionState decodes it,
before the role and the last twelve bytes are looked at. -/
def toyClientBody : sessionState :=
  { toyClientParsed with isClient := false, useBy := 0, ageAdd := 0 }

/-- The encoding of the client-role TLS 1.2 example session without peer
certificates. -/
def toyClientNoCertEncoding : List Nat :=
  [3, 3, 2, 192, 47, 0, 0, 0, 0, 101, 83, 241, 0, 4, 7, 7, 7, 7, 0, 0, 0, 0, 0, 0, 0, 0, 0, 0,
    0]

/-- The opening fields of the encoding of the client-role TLS 1.2 example
session without peer certificates. -/
def toyClientNoCertHeader : wireHeader :=
  { version := 771, typ := 2, cipherSuite := 49199, createdAt := 1700000000,
    secret := [7, 7, 7, 7], extra := [], extMasterSecret := 0, earlyData := 0 }

/-- A state with an empty verified chain: the server-role example session with a
third chain that holds no certificate. -/
def toyEmptyChainState : sessionState :=
  { toyServerState with
    verifiedChains := toyServerState.verifiedChains ++ [[]] }

/-- A third stand-in for a ticket key: the HMAC key of the first, with another
AES key. -/
def toyKey3 : ticketKey := { aesKey := List.replicate 16 5, hmacKey := List.replicate 16 2 }

/-- A key with the HMAC key of the key derived from the shared secret
0, 1, ..., 31 and another AES key. -/
def toyForgedBadKey : ticketKey :=
  { aesKey := List.replicate 16 9,
    hmacKey := (toyPrimitives.ticketKeyFromBytes (List.range 32)).hmacKey }

/-! ## The verified chains on the wire, in the words of the spec -/

/-- Follows the spec: the string `s` is a sequence of length-prefixed blocks,
each block behind the `lenLen` bytes of its length, as in "a sequence of
3-byte-length-prefixed opaque blocks". -/
def lengthPrefixedBlocks (lenLen : Nat) : List (List Nat) → List Nat → Prop
  | [], s => s = []
  | block :: blocks, s =>
    ∃ pre rest, pre.length = lenLen ∧ beValue pre = block.length ∧
      s = pre ++ (block ++ rest) ∧ lengthPrefixedBlocks lenLen blocks rest

/-- Follows the spec: the verified chains on the wire, "chains; each chain is a
3-byte-length-prefixed list of certificates excluding the shared leaf": the
string `chainList` holds one block for each chain, and the block of a chain
holds the certificates of `wire` for that chain, each behind its 3-byte
length. -/
def chainsOnWire (chainList : List Nat) (wire : List (List (List Nat))) : Prop :=
  ∃ blocks, lengthPrefixedBlocks 3 blocks chainList ∧
    List.Forall₂ (fun block certs => lengthPrefixedBlocks 3 certs block) blocks wire

/-- The certificates `certs` are what the certificate cache returns for the
byte strings `raws`, one for one and in order. -/
def decodedFrom (newCert : List Nat → Except String x509.Certificate)
    (raws : List (List Nat)) (certs : List x509.Certificate) : Prop :=
  List.Forall₂ (fun raw c => newCert raw = .ok c) raws certs

end tls

/-! ## psiphon/common/tun: the write half of NonblockingIO

`NonblockingIO.Write` (nonblock_windows.go, lines 185-243) runs a loop of
overlapped writes. The calls it makes to the system, `windows.WriteFile`,
`windows.WaitForMultipleObjects` and `windows.GetOverlappedResult`, are given
by their results, one entry for each round of the loop. The entries are used
in order; when they run out while the loop still goes on, the call has not
returned. -/

namespace tun

/-- The constant windows.ERROR_IO_PENDING. -/
def ERROR_IO_PENDING : Nat := 997

/-- The constant windows.WAIT_OBJECT_0. -/
def WAIT_OBJECT_0 : Nat := 0

/-- An error made by `errors.Trace(err)` from the error number a system call
returned, or by `errors.TraceNew(message)`. -/
inductive TracedError where
  | Trace (err : Nat)
  | TraceNew (message : String)
deriving DecidableEq, Repr

/-- The type windows.Overlapped, with the field Write updates. -/
structure Overlapped where
  Offset : Nat
deriving DecidableEq, Repr

/-- The fields of NonblockingIO that Write reads or updates. -/
structure NonblockingIO where
  closed : Nat
  writeOverlapped : Overlapped
deriving DecidableEq, Repr

/-- What the system calls of one round of the loop of Write return: the error
(`none` for nil) and the count `done` of WriteFile, the error and the event
index of WaitForMultipleObjects, the error and the count `done` of
GetOverlappedResult. The counts are uint32 values. A call the round does not
reach is not looked at. -/
structure SystemCalls where
  writeFileErr : Option Nat
  writeFileDone : Nat
  waitErr : Option Nat
  signalledEventIndex : Nat
  overlappedErr : Option Nat
  overlappedDone : Nat
deriving DecidableEq, Repr

/-- The loop `for n < t` of Write (lines 193-241), from the values of `n`, `p`
and `nio` at the start of a round; the result is the pair `(n, err)` that
Write returns, with `nio` as the call leaves it, or nothing when the rounds
run out before Write returns. -/
def writeLoop (t : Nat) :
    List SystemCalls → Nat → List Nat → NonblockingIO →
      Option ((Nat × Option TracedError) × NonblockingIO)
  | rounds, n, p, nio =>
    if n < t then
      match rounds with
      | [] => none
      | calls :: rounds =>
        match calls.writeFileErr with
        | none =>
          let n := n + calls.writeFileDone
          if n < t then writeLoop t rounds n (p.drop calls.writeFileDone) nio
          else some ((n, some (.TraceNew "unexpected synchronous ReadFile result")), nio)
        | some err =>
          if err ≠ ERROR_IO_PENDING then some ((n, some (.Trace err)), nio)
          else
            match calls.waitErr with
            | some err => some ((n, some (.Trace err)), nio)
            | none =>
              let i := (calls.signalledEventIndex + 2 ^ 32 - WAIT_OBJECT_0) % 2 ^ 32
              if i = 0 then some ((0, some (.TraceNew "file has closed")), nio)
              else
                match calls.overlappedErr with
                | some err =>
                  if err = ERROR_IO_PENDING then writeLoop t rounds n p nio
                  else some ((n, some (.Trace err)), nio)
                | none =>
                  let nio := { nio with
                    writeOverlapped :=
                      { Offset := (nio.writeOverlapped.Offset + calls.overlappedDone) % 2 ^ 32 } }
                  let n := n + calls.overlappedDone
                  writeLoop t rounds n (if n < t then p.drop calls.overlappedDone else p) nio
    else some ((n, none), nio)

/-- The method NonblockingIO.Write (nonblock_windows.go, lines 185-243). -/
def NonblockingIO.Write (nio : NonblockingIO) (p : List Nat) (rounds : List SystemCalls) :
    Option ((Nat × Option TracedError) × NonblockingIO) :=
  if nio.closed ≠ 0 then some ((0, some (.TraceNew "file already closed")), nio)
  else writeLoop p.length rounds 0 p nio

/-- The count reported by the operation that completes in a round, if one
does: the count of a WriteFile that returns no error, or the count of a
GetOverlappedResult that returns no error after WriteFile reported
ERROR_IO_PENDING and the wait was ended, without error, by the write event. -/
def SystemCalls.completed (calls : SystemCalls) : Option Nat :=
  match calls.writeFileErr with
  | none => some calls.writeFileDone
  | some err =>
    if err = ERROR_IO_PENDING ∧ calls.waitErr = none ∧
        (calls.signalledEventIndex + 2 ^ 32 - WAIT_OBJECT_0) % 2 ^ 32 ≠ 0 ∧
        calls.overlappedErr = none then
      some calls.overlappedDone
    else none

/-- Each operation that completes in the rounds reports at most the number of
bytes still to be written, which is `remaining` before the first round and
goes down by every count reported. -/
def withinRemaining : Nat → List SystemCalls → Bool
  | _, [] => true
  | remaining, calls :: rounds =>
    match calls.completed with
    | none => withinRemaining remaining rounds
    | some done => decide (done ≤ remaining) && withinRemaining (remaining - done) rounds

/-! ### Concrete rounds used to exercise Write -/

/-- A round in which WriteFile reports ERROR_IO_PENDING, the wait is ended by
the write event, and GetOverlappedResult reports `done` bytes written. -/
def overlappedRound (done : Nat) : SystemCalls :=
  { writeFileErr := some ERROR_IO_PENDING, writeFileDone := 0, waitErr := none,
    signalledEventIndex := 1, overlappedErr := none, overlappedDone := done }

/-- A round in which the operation is still pending when GetOverlappedResult is
asked. -/
def pendingRound : SystemCalls :=
  { writeFileErr := some ERROR_IO_PENDING, writeFileDone := 0, waitErr := none,
    signalledEventIndex := 1, overlappedErr := some ERROR_IO_PENDING, overlappedDone := 0 }

/-- A round in which WriteFile completes at once with `done` bytes written. -/
def synchronousRound (done : Nat) : SystemCalls :=
  { writeFileErr := none, writeFileDone := done, waitErr := none,
    signalledEventIndex := 0, overlappedErr := none, overlappedDone := 0 }

/-- A round in which GetOverlappedResult fails with the error number 5. -/
def failedRound : SystemCalls :=
  { writeFileErr := some ERROR_IO_PENDING, writeFileDone := 0, waitErr := none,
    signalledEventIndex := 1, overlappedErr := some 5, overlappedDone := 0 }

/-- An open NonblockingIO whose write offset is 0. -/
def toyNio : NonblockingIO := { closed := 0, writeOverlapped := { Offset := 0 } }

end tun

namespace tls

open cryptobyte

/-! # Theorems -/

set_option maxRecDepth 20000

/-! ## The byte codec -/


theorem bigEndian_length (n v : Nat) : (bigEndian n v).length = n := by
  induction n with
  | zero => rfl
  | succ n ih => simp [bigEndian, ih]

theorem foldl_bigEndian (n : Nat) : ∀ v acc : Nat,
    (bigEndian n v).foldl (fun a b => a * 256 + b) acc = acc * 256 ^ n + v % 256 ^ n := by
  induction n with
  | zero => intro v acc; simp [bigEndian, Nat.mod_one]
  | succ n ih =>
    intro v acc
    simp only [bigEndian, List.foldl_cons, ih]
    have h1 : v % 256 ^ (n + 1) = 256 ^ n * (v / 256 ^ n % 256) + v % 256 ^ n := by
      rw [pow_succ, Nat.mod_mul, Nat.add_comm]
    rw [h1, pow_succ]
    ring

theorem beValue_bigEndian (n v : Nat) (h : v < 256 ^ n) : beValue (bigEndian n v) = v := by
  unfold beValue
  rw [foldl_bigEndian, Nat.zero_mul, Nat.zero_add, Nat.mod_eq_of_lt h]

theorem read_append (a rest : List Nat) : cryptobyte.read a.length (a ++ rest) = some (a, rest) := by
  unfold cryptobyte.read
  rw [if_pos (by simp)]
  simp

theorem read_append_of_length (n : Nat) (a rest : List Nat) (h : a.length = n) :
    cryptobyte.read n (a ++ rest) = some (a, rest) := by
  subst h; exact read_append a rest

theorem readUnsigned_bigEndian (n v : Nat) (rest : List Nat) (h : v < 256 ^ n) :
    readUnsigned n (bigEndian n v ++ rest) = some (v, rest) := by
  unfold readUnsigned
  rw [read_append_of_length n _ _ (bigEndian_length n v)]
  simp [beValue_bigEndian n v h]

theorem readLengthPrefixed_append (n : Nat) (body rest : List Nat) (h : body.length < 256 ^ n) :
    readLengthPrefixed n (bigEndian n body.length ++ body ++ rest) = some (body, rest) := by
  unfold readLengthPrefixed
  rw [List.append_assoc, readUnsigned_bigEndian n _ _ h]
  exact read_append body rest

theorem addLengthPrefixed_ok (n : Nat) (child : Except String (List Nat)) (e : List Nat)
    (h : addLengthPrefixed n child = .ok e) :
    ∃ c, child = .ok c ∧ c.length < 256 ^ n ∧ e = bigEndian n c.length ++ c := by
  unfold addLengthPrefixed at h
  cases child with
  | error err => cases h
  | ok c =>
    by_cases hc : c.length < 256 ^ n
    · simp only [if_pos hc] at h
      exact ⟨c, rfl, hc, (Except.ok.inj h).symm⟩
    · simp only [if_neg hc] at h
      cases h

theorem andThen_ok (a b : Except String (List Nat)) (e : List Nat) (h : andThen a b = .ok e) :
    ∃ x y, a = .ok x ∧ b = .ok y ∧ e = x ++ y := by
  unfold andThen at h
  cases a with
  | error err => cases h
  | ok x =>
    cases b with
    | error err => cases h
    | ok y => exact ⟨x, y, rfl, rfl, (Except.ok.inj h).symm⟩

theorem allZeros_replicate (n : Nat) : allZeros (List.replicate n 0) = true := by
  induction n with
  | zero => rfl
  | succ n ih => simp [List.replicate_succ, allZeros, ih]

/-- a length-prefixed block is never empty -/
theorem Empty_prefixed (n v : Nat) (rest : List Nat) (h : 0 < n) :
    cryptobyte.Empty (bigEndian n v ++ rest) = false := by
  cases n with
  | zero => cases h
  | succ n => simp [cryptobyte.Empty, bigEndian]

theorem Empty_nil : cryptobyte.Empty [] = true := rfl

/-- the extra blocks read back -/
theorem extraLoop_marshalExtra (l : List (List Nat)) : ∀ (e : List Nat) (fuel : Nat)
    (acc : List (List Nat)), marshalExtra l = .ok e → e.length < fuel →
    extraLoop fuel e acc = .ok (acc ++ l) := by
  induction l with
  | nil =>
    intro e fuel acc h hf
    cases h
    cases fuel with
    | zero => cases hf
    | succ fuel => simp [extraLoop, Empty_nil]
  | cons x rest ih =>
    intro e fuel acc h hf
    obtain ⟨a, b, ha, hb, rfl⟩ := andThen_ok _ _ _ h
    obtain ⟨c, hc, hclen, rfl⟩ := addLengthPrefixed_ok 3 _ _ ha
    cases hc
    cases fuel with
    | zero => cases hf
    | succ fuel =>
      unfold extraLoop
      rw [List.append_assoc, Empty_prefixed 3 _ _ (by decide)]
      simp only [Bool.false_eq_true, if_false, readUint24LengthPrefixed, ReadUint24LengthPrefixed]
      rw [← List.append_assoc, readLengthPrefixed_append 3 _ _ hclen]
      simp only
      rw [ih b fuel (acc ++ [x]) hb (by simp [bigEndian_length] at hf; omega)]
      simp

theorem ReadUint16_AddUint16 (v : Nat) (rest : List Nat) (h : v < 65536) :
    ReadUint16 (AddUint16 v ++ rest) = some (v, rest) :=
  readUnsigned_bigEndian 2 v rest h

theorem ReadUint8_AddUint8 (v : Nat) (rest : List Nat) (h : v < 256) :
    ReadUint8 (AddUint8 v ++ rest) = some (v, rest) :=
  readUnsigned_bigEndian 1 v rest h

/-- the SCT list read back -/
theorem sctListLoop_marshalSCTs (l : List (List Nat)) : ∀ (e : List Nat) (fuel : Nat)
    (cert : Certificate), marshalSCTs l = .ok e → (∀ x ∈ l, x ≠ []) → e.length < fuel →
    sctListLoop fuel e cert = some (match l with
      | [] => cert
      | _ :: _ => { cert with
          SignedCertificateTimestamps := some (cert.SignedCertificateTimestamps.getD [] ++ l) }) := by
  induction l with
  | nil =>
    intro e fuel cert h _ hf
    cases h
    cases fuel with
    | zero => cases hf
    | succ fuel => simp [sctListLoop, Empty_nil]
  | cons x rest ih =>
    intro e fuel cert h hne hf
    obtain ⟨a, b, ha, hb, rfl⟩ := andThen_ok _ _ _ h
    obtain ⟨c, hc, hclen, rfl⟩ := addLengthPrefixed_ok 2 _ _ ha
    cases hc
    have hx : x.length ≠ 0 := fun h0 => hne x (List.mem_cons_self _ _) (List.length_eq_zero.1 h0)
    cases fuel with
    | zero => cases hf
    | succ fuel =>
      unfold sctListLoop
      rw [List.append_assoc, Empty_prefixed 2 _ _ (by decide)]
      simp only [Bool.false_eq_true, if_false, readUint16LengthPrefixed, ReadUint16LengthPrefixed]
      rw [← List.append_assoc, readLengthPrefixed_append 2 _ _ hclen]
      simp only [if_neg hx]
      rw [ih b fuel _ hb (fun y hy => hne y (List.mem_cons_of_mem _ hy))
        (by simp [bigEndian_length] at hf; omega)]
      cases rest <;> simp

theorem extensionsLoop_nil (fuel : Nat) (cert : Certificate) :
    extensionsLoop (fuel + 1) [] cert = some cert := by
  simp [extensionsLoop, Empty_nil]

/-- one round of the extension loop on the OCSP extension -/
theorem extensionsLoop_ocsp (fuel : Nat) (staple e rest : List Nat) (cert : Certificate)
    (hcert : cert.Certificate.length ≤ 1) (hs : staple ≠ [])
    (h : andThen (.ok (AddUint16 extensionStatusRequest))
      (AddUint16LengthPrefixed
        (andThen (.ok (AddUint8 statusTypeOCSP)) (AddUint24LengthPrefixed (.ok staple)))) = .ok e) :
    extensionsLoop (fuel + 1) (e ++ rest) cert =
      extensionsLoop fuel rest { cert with OCSPStaple := some staple } := by
  obtain ⟨a, b, ha, hb, rfl⟩ := andThen_ok _ _ _ h
  cases ha
  obtain ⟨d, hd, hdlen, rfl⟩ := addLengthPrefixed_ok 2 _ _ hb
  obtain ⟨a2, b2, ha2, hb2, rfl⟩ := andThen_ok _ _ _ hd
  cases ha2
  obtain ⟨c, hc, hclen, rfl⟩ := addLengthPrefixed_ok 3 _ _ hb2
  cases hc
  have hslen : staple.length ≠ 0 := fun h0 => hs (List.length_eq_zero.1 h0)
  have hcn : ¬ cert.Certificate.length > 1 := by omega
  rw [extensionsLoop]
  have hne : cryptobyte.Empty (AddUint16 extensionStatusRequest ++
      (bigEndian 2 (AddUint8 statusTypeOCSP ++ (bigEndian 3 staple.length ++ staple)).length ++
        (AddUint8 statusTypeOCSP ++ (bigEndian 3 staple.length ++ staple))) ++ rest) = false := by
    rw [List.append_assoc]; exact Empty_prefixed 2 _ _ (by decide)
  rw [hne]
  simp only [Bool.false_eq_true, if_false, if_neg hcn]
  rw [List.append_assoc, ReadUint16_AddUint16 _ _ (by decide)]
  simp only [ReadUint16LengthPrefixed]
  rw [readLengthPrefixed_append 2 _ _ hdlen]
  simp only [if_true]
  rw [show AddUint8 statusTypeOCSP ++ (bigEndian 3 staple.length ++ staple) =
      AddUint8 statusTypeOCSP ++ (bigEndian 3 staple.length ++ staple ++ []) by simp,
    ReadUint8_AddUint8 _ _ (by decide)]
  simp only [ne_eq, not_true_eq_false, if_false, readUint24LengthPrefixed,
    ReadUint24LengthPrefixed]
  rw [readLengthPrefixed_append 3 _ _ hclen]
  simp only [if_neg hslen, Empty_nil]
  rfl

/-- one round of the extension loop on the SCT extension -/
theorem extensionsLoop_sct (fuel : Nat) (scts : List (List Nat)) (e rest : List Nat)
    (cert : Certificate) (hcert : cert.Certificate.length ≤ 1) (hs : scts ≠ [])
    (hne : ∀ x ∈ scts, x ≠ [])
    (h : andThen (.ok (AddUint16 extensionSCT))
      (AddUint16LengthPrefixed (AddUint16LengthPrefixed (marshalSCTs scts))) = .ok e) :
    extensionsLoop (fuel + 1) (e ++ rest) cert =
      extensionsLoop fuel rest { cert with
        SignedCertificateTimestamps := some (cert.SignedCertificateTimestamps.getD [] ++ scts) } := by
  obtain ⟨a, b, ha, hb, rfl⟩ := andThen_ok _ _ _ h
  cases ha
  obtain ⟨d, hd, hdlen, rfl⟩ := addLengthPrefixed_ok 2 _ _ hb
  obtain ⟨c, hc, hclen, rfl⟩ := addLengthPrefixed_ok 2 _ _ hd
  have hcn : ¬ cert.Certificate.length > 1 := by omega
  have hcne : cryptobyte.Empty c = false := by
    cases scts with
    | nil => exact absurd rfl hs
    | cons x rest2 =>
      obtain ⟨a3, b3, ha3, _, rfl⟩ := andThen_ok _ _ _ hc
      obtain ⟨c3, _, _, rfl⟩ := addLengthPrefixed_ok 2 _ _ ha3
      rw [List.append_assoc]; exact Empty_prefixed 2 _ _ (by decide)
  rw [extensionsLoop]
  have hne2 : cryptobyte.Empty (AddUint16 extensionSCT ++
      (bigEndian 2 (bigEndian 2 c.length ++ c).length ++ (bigEndian 2 c.length ++ c)) ++ rest)
      = false := by
    rw [List.append_assoc]; exact Empty_prefixed 2 _ _ (by decide)
  rw [hne2]
  simp only [Bool.false_eq_true, if_false, if_neg hcn]
  rw [List.append_assoc, ReadUint16_AddUint16 _ _ (by decide)]
  simp only [ReadUint16LengthPrefixed]
  rw [readLengthPrefixed_append 2 _ _ hdlen]
  have h18 : ¬ extensionSCT = extensionStatusRequest := by decide
  simp only [if_neg h18, if_true]
  rw [show bigEndian 2 c.length ++ c = bigEndian 2 c.length ++ c ++ [] by simp,
    readLengthPrefixed_append 2 _ _ hclen]
  simp only [hcne, Bool.false_eq_true, if_false]
  rw [sctListLoop_marshalSCTs scts c (c.length + 1) cert hc hne (Nat.lt_succ_self _)]
  cases scts with
  | nil => exact absurd rfl hs
  | cons x rest2 => simp [Empty_nil]

/-- the extension block of the leaf read back -/
theorem extensionsLoop_marshal (c cert0 : Certificate) (e : List Nat) (fuel : Nat)
    (h : marshalCertificateExtensions c 0 = .ok e) (hc : c.Readable)
    (hcert : cert0.Certificate.length ≤ 1) (h1 : cert0.OCSPStaple = none)
    (h2 : cert0.SignedCertificateTimestamps = none) (hf : e.length < fuel) :
    extensionsLoop fuel e cert0 = some { cert0 with
      OCSPStaple := c.OCSPStaple
      SignedCertificateTimestamps := c.SignedCertificateTimestamps } := by
  obtain ⟨certs0, ocsp0, scts0⟩ := cert0
  simp only at h1 h2 hcert
  subst h1 h2
  unfold marshalCertificateExtensions at h
  simp only [gt_iff_lt, Nat.lt_irrefl, if_false] at h
  obtain ⟨a, b, ha, hb, rfl⟩ := andThen_ok _ _ _ h
  have hlen2 : ∀ (x : Except String (List Nat)) (y : List Nat) (v : Nat),
      andThen (.ok (AddUint16 v)) x = .ok y → 2 ≤ y.length := by
    intro x y v hxy
    obtain ⟨p, q, hp, _, rfl⟩ := andThen_ok _ _ _ hxy
    cases hp
    simp [AddUint16, bigEndian_length]
  cases ho : c.OCSPStaple with
  | none =>
    rw [ho] at ha
    cases ha
    cases hs : c.SignedCertificateTimestamps with
    | none =>
      rw [hs] at hb
      cases hb
      cases fuel with
      | zero => cases hf
      | succ fuel => exact extensionsLoop_nil _ _
    | some scts =>
      rw [hs] at hb
      have hb2 := hlen2 _ _ _ hb
      obtain ⟨f, rfl⟩ : ∃ f, fuel = f + 2 := ⟨fuel - 2, by simp at hf; omega⟩
      have := extensionsLoop_sct (f + 1) scts b []
        { Certificate := certs0, OCSPStaple := none, SignedCertificateTimestamps := none }
        hcert (hc.scts_nonempty scts hs).1 (hc.scts_nonempty scts hs).2 hb
      rw [List.append_nil] at this
      rw [List.nil_append, this, extensionsLoop_nil]
      simp
  | some staple =>
    rw [ho] at ha
    have ha2 := hlen2 _ _ _ ha
    cases hs : c.SignedCertificateTimestamps with
    | none =>
      rw [hs] at hb
      cases hb
      obtain ⟨f, rfl⟩ : ∃ f, fuel = f + 2 := ⟨fuel - 2, by simp at hf; omega⟩
      rw [extensionsLoop_ocsp (f + 1) staple a [] _ hcert (hc.ocsp_nonempty staple ho) ha,
        extensionsLoop_nil]
    | some scts =>
      rw [hs] at hb
      have hb2 := hlen2 _ _ _ hb
      obtain ⟨f, rfl⟩ : ∃ f, fuel = f + 3 := ⟨fuel - 3, by simp at hf; omega⟩
      rw [extensionsLoop_ocsp (f + 2) staple a b _ hcert (hc.ocsp_nonempty staple ho) ha]
      have := extensionsLoop_sct (f + 1) scts b []
        { Certificate := certs0, OCSPStaple := some staple, SignedCertificateTimestamps := none }
        hcert (hc.scts_nonempty scts hs).1 (hc.scts_nonempty scts hs).2 hb
      rw [List.append_nil] at this
      rw [this, extensionsLoop_nil]
      simp

/-- the certificates after the leaf read back -/
theorem certListLoop_tail (c : Certificate) (certs : List (List Nat)) : ∀ (i : Nat)
    (e : List Nat) (fuel : Nat) (cert0 : Certificate), 0 < i →
    marshalCertificateEntries c i certs = .ok e → e.length < fuel →
    certListLoop fuel e cert0 =
      some { cert0 with Certificate := cert0.Certificate ++ certs } := by
  induction certs with
  | nil =>
    intro i e fuel cert0 _ h hf
    cases h
    cases fuel with
    | zero => cases hf
    | succ fuel => simp [certListLoop, Empty_nil]
  | cons x rest ih =>
    intro i e fuel cert0 hi h hf
    obtain ⟨a, b, ha, hb, rfl⟩ := andThen_ok _ _ _ h
    obtain ⟨a2, b2, ha2, hb2, rfl⟩ := andThen_ok _ _ _ hb
    obtain ⟨cx, hcx, hxlen, rfl⟩ := addLengthPrefixed_ok 3 _ _ ha
    cases hcx
    obtain ⟨d, hd, hdlen, rfl⟩ := addLengthPrefixed_ok 2 _ _ ha2
    have hd0 : d = [] := by
      unfold marshalCertificateExtensions at hd
      rw [if_pos hi] at hd
      exact (Except.ok.inj hd).symm
    subst hd0
    cases fuel with
    | zero => cases hf
    | succ fuel =>
      rw [certListLoop]
      rw [List.append_assoc, Empty_prefixed 3 _ _ (by decide)]
      simp only [Bool.false_eq_true, if_false, readUint24LengthPrefixed, ReadUint24LengthPrefixed]
      rw [← List.append_assoc, readLengthPrefixed_append 3 _ _ hxlen]
      simp only [ReadUint16LengthPrefixed]
      rw [readLengthPrefixed_append 2 _ _ hdlen]
      simp only [List.length_nil, Nat.zero_add, extensionsLoop_nil]
      rw [ih (i + 1) b2 fuel _ (Nat.succ_pos _) hb2
        (by simp [bigEndian_length] at hf; omega)]
      simp

/-- the certificate list read back -/
theorem certListLoop_marshal (c : Certificate) (e : List Nat) (fuel : Nat)
    (h : marshalCertificateEntries c 0 c.Certificate = .ok e) (hc : c.Readable)
    (hf : e.length < fuel) :
    certListLoop fuel e
      { Certificate := [], OCSPStaple := none, SignedCertificateTimestamps := none } = some c := by
  obtain ⟨certs, ocsp, scts⟩ := c
  cases certs with
  | nil =>
    cases h
    obtain ⟨h1, h2⟩ := hc.leaf_present rfl
    simp only at h1 h2
    subst h1 h2
    cases fuel with
    | zero => cases hf
    | succ fuel => simp [certListLoop, Empty_nil]
  | cons x rest =>
    obtain ⟨a, b, ha, hb, rfl⟩ := andThen_ok _ _ _ h
    obtain ⟨a2, b2, ha2, hb2, rfl⟩ := andThen_ok _ _ _ hb
    obtain ⟨cx, hcx, hxlen, rfl⟩ := addLengthPrefixed_ok 3 _ _ ha
    cases hcx
    obtain ⟨d, hd, hdlen, rfl⟩ := addLengthPrefixed_ok 2 _ _ ha2
    cases fuel with
    | zero => cases hf
    | succ fuel =>
      rw [certListLoop]
      rw [List.append_assoc, Empty_prefixed 3 _ _ (by decide)]
      simp only [Bool.false_eq_true, if_false, readUint24LengthPrefixed, ReadUint24LengthPrefixed]
      rw [← List.append_assoc, readLengthPrefixed_append 3 _ _ hxlen]
      simp only [ReadUint16LengthPrefixed]
      rw [readLengthPrefixed_append 2 _ _ hdlen]
      simp only [List.nil_append]
      rw [extensionsLoop_marshal _ _ d (d.length + 1) hd hc (by simp) rfl rfl (Nat.lt_succ_self _)]
      simp only
      rw [certListLoop_tail _ rest 1 b2 fuel _ (by decide) hb2
        (by simp [bigEndian_length] at hf; omega)]
      simp

/-- the certificate block read back -/
theorem unmarshalCertificate_marshalCertificate (c : Certificate) (e rest : List Nat)
    (h : marshalCertificate c = .ok e) (hc : c.Readable) :
    unmarshalCertificate (e ++ rest) = some (c, rest) := by
  unfold marshalCertificate at h
  obtain ⟨d, hd, hdlen, rfl⟩ := addLengthPrefixed_ok 3 _ _ h
  unfold unmarshalCertificate
  simp only [ReadUint24LengthPrefixed]
  rw [readLengthPrefixed_append 3 _ _ hdlen]
  simp only
  rw [certListLoop_marshal c d (d.length + 1) hd hc (Nat.lt_succ_self _)]

/-- the peer certificates parsed back -/
theorem peerCertificatesLoop_ok (newCert : List Nat → Except String x509.Certificate)
    (certs : List x509.Certificate) : ∀ acc : List x509.Certificate,
    (∀ c ∈ certs, newCert c.Raw = .ok c) →
    peerCertificatesLoop newCert (certificatesToBytesSlice certs) acc = .ok (acc ++ certs) := by
  induction certs with
  | nil => intro acc _; simp [certificatesToBytesSlice, peerCertificatesLoop]
  | cons c rest ih =>
    intro acc h
    have hc := h c (List.mem_cons_self _ _)
    have := ih (acc ++ [c]) (fun d hd => h d (List.mem_cons_of_mem _ hd))
    simp only [certificatesToBytesSlice, List.map_cons, peerCertificatesLoop, hc] at this ⊢
    rw [this]
    simp

/-- the certificates of one chain parsed back -/
theorem chainCertLoop_ok (newCert : List Nat → Except String x509.Certificate)
    (tail : List x509.Certificate) : ∀ (e : List Nat) (fuel : Nat)
    (chain handles : List x509.Certificate), marshalChainCerts tail = .ok e →
    (∀ c ∈ tail, newCert c.Raw = .ok c) → e.length < fuel →
    chainCertLoop newCert fuel e chain handles = .ok (chain ++ tail, handles ++ tail) := by
  induction tail with
  | nil =>
    intro e fuel chain handles h _ hf
    cases h
    cases fuel with
    | zero => cases hf
    | succ fuel => simp [chainCertLoop, Empty_nil]
  | cons c rest ih =>
    intro e fuel chain handles h hk hf
    obtain ⟨a, b, ha, hb, rfl⟩ := andThen_ok _ _ _ h
    obtain ⟨cx, hcx, hxlen, rfl⟩ := addLengthPrefixed_ok 3 _ _ ha
    cases hcx
    cases fuel with
    | zero => cases hf
    | succ fuel =>
      rw [chainCertLoop]
      rw [List.append_assoc, Empty_prefixed 3 _ _ (by decide)]
      simp only [Bool.false_eq_true, if_false, readUint24LengthPrefixed, ReadUint24LengthPrefixed]
      rw [← List.append_assoc, readLengthPrefixed_append 3 _ _ hxlen]
      simp only [hk c (List.mem_cons_self _ _)]
      rw [ih b fuel _ _ hb (fun d hd => hk d (List.mem_cons_of_mem _ hd))
        (by simp [bigEndian_length] at hf; omega)]
      simp

/-- the verified chains parsed back -/
theorem chainListLoop_ok (newCert : List Nat → Except String x509.Certificate)
    (peer : List x509.Certificate) (chains : List (List x509.Certificate)) :
    ∀ (e : List Nat) (fuel : Nat) (acc : List (List x509.Certificate))
    (handles : List x509.Certificate), marshalChains chains = .ok e →
    (∀ chain ∈ chains, ∃ leaf tail, peer.head? = some leaf ∧ chain = leaf :: tail ∧
      ∀ c ∈ tail, newCert c.Raw = .ok c) →
    e.length < fuel →
    chainListLoop newCert peer fuel e acc handles =
      .ok (acc ++ chains, handles ++ (chains.map List.tail).flatten) := by
  induction chains with
  | nil =>
    intro e fuel acc handles h _ hf
    cases h
    cases fuel with
    | zero => cases hf
    | succ fuel => simp [chainListLoop, Empty_nil]
  | cons chain rest ih =>
    intro e fuel acc handles h hk hf
    obtain ⟨a, b, ha, hb, rfl⟩ := andThen_ok _ _ _ h
    unfold marshalChain at ha
    obtain ⟨d, hd, hdlen, rfl⟩ := addLengthPrefixed_ok 3 _ _ ha
    obtain ⟨leaf, tail, hleaf, rfl, htail⟩ := hk _ (List.mem_cons_self _ _)
    simp only at hd
    cases peer with
    | nil => cases hleaf
    | cons leaf2 others =>
      cases hleaf
      cases fuel with
      | zero => cases hf
      | succ fuel =>
        rw [chainListLoop]
        rw [List.append_assoc, Empty_prefixed 3 _ _ (by decide)]
        simp only [Bool.false_eq_true, if_false, ReadUint24LengthPrefixed]
        rw [← List.append_assoc, readLengthPrefixed_append 3 _ _ hdlen]
        simp only
        rw [chainCertLoop_ok newCert tail d (d.length + 1) _ _ hd htail (Nat.lt_succ_self _)]
        simp only
        rw [ih b fuel _ _ hb (fun ch hch => hk ch (List.mem_cons_of_mem _ hch))
          (by simp [bigEndian_length] at hf; omega)]
        simp

theorem readUint64_addUint64 (v : Nat) (rest : List Nat) (h : v < 2 ^ 64) :
    readUint64 (addUint64 v ++ rest) = some (v, rest) := by
  have h1 : addUint64 v = bigEndian 4 (v / 2 ^ 32) ++ bigEndian 4 v := by
    simp only [addUint64, AddUint64, bigEndian, List.cons_append, List.nil_append]
    have e1 : ∀ k, k ≤ 3 → v / 2 ^ 32 / 256 ^ k % 256 = v / 256 ^ (k + 4) % 256 := by
      intro k _
      rw [Nat.div_div_eq_div_mul, show (2:Nat) ^ 32 = 256 ^ 4 by norm_num, ← pow_add,
        Nat.add_comm]
    rw [e1 3 (by omega), e1 2 (by omega), e1 1 (by omega), e1 0 (by omega)]
  have h2 : v / 2 ^ 32 < 256 ^ 4 := by
    rw [Nat.div_lt_iff_lt_mul (by positivity)]; norm_num; omega
  unfold readUint64 ReadUint32
  rw [h1, List.append_assoc, readUnsigned_bigEndian 4 _ _ h2]
  simp only
  have h3 : readUnsigned 4 (bigEndian 4 v ++ rest) = some (v % 256 ^ 4, rest) := by
    unfold readUnsigned
    rw [read_append_of_length 4 _ _ (bigEndian_length 4 v)]
    simp only [beValue, foldl_bigEndian, Nat.zero_mul, Nat.zero_add]
  rw [h3]
  simp only [Option.some.injEq, Prod.mk.injEq, and_true]
  have := Nat.div_add_mod v (2 ^ 32)
  norm_num at this ⊢
  omega

theorem readLengthPrefixed_append_assoc (n : Nat) (body rest : List Nat)
    (h : body.length < 256 ^ n) :
    readLengthPrefixed n (bigEndian n body.length ++ (body ++ rest)) = some (body, rest) := by
  rw [← List.append_assoc]; exact readLengthPrefixed_append n body rest h

theorem ParseSessionState_builder (newCert : List Nat → Except String x509.Certificate)
    (s : sessionState) (b pad : List Nat) (hv : s.Valid newCert) (hb : s.builder = .ok b)
    (hpad : allZeros pad = true)
    (hrole : s.isClient = true → s.peerCertificates ≠ [] ∧ pad = []) :
    ParseSessionState newCert (b ++ pad) =
      .ok { s with
        activeCertHandles := s.peerCertificates ++ (s.verifiedChains.map List.tail).flatten } := by
  unfold sessionState.builder at hb
  obtain ⟨x1, r1, h1, hr1, rfl⟩ := andThen_ok _ _ _ hb
  obtain ⟨x2, r2, h2, hr2, rfl⟩ := andThen_ok _ _ _ hr1
  obtain ⟨x3, r3, h3, hr3, rfl⟩ := andThen_ok _ _ _ hr2
  obtain ⟨x4, r4, h4, hr4, rfl⟩ := andThen_ok _ _ _ hr3
  obtain ⟨x5, r5, h5, hr5, rfl⟩ := andThen_ok _ _ _ hr4
  obtain ⟨x6, r6, h6, hr6, rfl⟩ := andThen_ok _ _ _ hr5
  obtain ⟨x7, r7, h7, hr7, rfl⟩ := andThen_ok _ _ _ hr6
  obtain ⟨x8, r8, h8, hr8, rfl⟩ := andThen_ok _ _ _ hr7
  obtain ⟨x9, r9, h9, hr9, rfl⟩ := andThen_ok _ _ _ hr8
  obtain ⟨x10, r10, h10, hr10, rfl⟩ := andThen_ok _ _ _ hr9
  obtain ⟨x11, x12, h11, h12, rfl⟩ := andThen_ok _ _ _ hr10
  clear hb hr1 hr2 hr3 hr4 hr5 hr6 hr7 hr8 hr9 hr10
  cases h1; cases h3; cases h4
  obtain ⟨sec, hsec, hseclen, rfl⟩ := addLengthPrefixed_ok 1 _ _ h5
  cases hsec
  obtain ⟨ex, hex, hexlen, rfl⟩ := addLengthPrefixed_ok 3 _ _ h6
  obtain ⟨ch, hch, hchlen, rfl⟩ := addLengthPrefixed_ok 3 _ _ h10
  have hx2 : x2 = AddUint8 (if s.isClient = true then 2 else 1) := by
    rw [← Except.ok.inj h2]; split <;> rfl
  have hx7 : x7 = AddUint8 (if s.extMasterSecret = true then 1 else 0) := by
    rw [← Except.ok.inj h7]; split <;> rfl
  have hx8 : x8 = AddUint8 (if s.EarlyData = true then 1 else 0) := by
    rw [← Except.ok.inj h8]; split <;> rfl
  subst hx2 hx7 hx8
  clear h2 h7 h8 h5 h6 h10
  have hcert : Certificate.Readable
      { Certificate := certificatesToBytesSlice s.peerCertificates, OCSPStaple := s.ocspResponse,
        SignedCertificateTimestamps := s.scts } := by
    refine ⟨fun o ho => (hv.ocsp_nonempty o ho).1,
      fun l hl => ⟨(hv.scts_nonempty l hl).1, (hv.scts_nonempty l hl).2.1⟩, fun hnil => ?_⟩
    have hp : s.peerCertificates = [] := by
      simpa [certificatesToBytesSlice] using hnil
    constructor
    · cases ho : s.ocspResponse with
      | none => rfl
      | some o => exact absurd hp (hv.ocsp_nonempty o ho).2
    · cases hs : s.scts with
      | none => rfl
      | some l => exact absurd hp (hv.scts_nonempty l hs).2.2
  have hsec0 : ¬ s.secret.length = 0 := by have := hv.secret_length.1; omega
  unfold ParseSessionState
  simp only [List.append_assoc]
  rw [ReadUint16_AddUint16 _ _ hv.version_lt]
  simp only
  rw [ReadUint8_AddUint8 _ _ (by split <;> decide)]
  simp only
  have htyp : ¬ ((if s.isClient = true then 2 else 1) ≠ 1 ∧ (if s.isClient = true then 2 else 1) ≠ 2) := by
    split <;> decide
  rw [if_neg htyp, ReadUint16_AddUint16 _ _ hv.cipherSuite_lt]
  simp only
  rw [readUint64_addUint64 _ _ hv.createdAt_lt]
  simp only [readUint8LengthPrefixed, ReadUint8LengthPrefixed]
  rw [readLengthPrefixed_append_assoc 1 _ _ hseclen]
  simp only [ReadUint24LengthPrefixed]
  rw [readLengthPrefixed_append_assoc 3 _ _ hexlen]
  simp only
  rw [ReadUint8_AddUint8 _ _ (by split <;> decide)]
  simp only
  rw [ReadUint8_AddUint8 _ _ (by split <;> decide)]
  simp only [if_neg hsec0]
  rw [unmarshalCertificate_marshalCertificate _ x9 _ h9 hcert]
  simp only
  rw [extraLoop_marshalExtra s.Extra ex _ [] hex (Nat.lt_succ_self _)]
  simp only [List.nil_append]
  have hems : ¬ ((if s.extMasterSecret = true then 1 else 0) ≠ 0 ∧ (if s.extMasterSecret = true then 1 else 0) ≠ 1) := by
    split <;> decide
  have hed : ¬ ((if s.EarlyData = true then 1 else 0) ≠ 0 ∧ (if s.EarlyData = true then 1 else 0) ≠ 1) := by
    split <;> decide
  rw [if_neg hems, if_neg hed, peerCertificatesLoop_ok newCert _ [] hv.peer_known]
  simp only [List.nil_append]
  rw [readLengthPrefixed_append_assoc 3 _ _ hchlen]
  simp only
  rw [chainListLoop_ok newCert _ s.verifiedChains ch _ [] _ hch hv.chains_leaf (Nat.lt_succ_self _)]
  simp only [List.nil_append]
  have hdecE : decide ((if s.EarlyData = true then 1 else 0) = 1) = s.EarlyData := by
    cases s.EarlyData <;> rfl
  have hdecM : decide ((if s.extMasterSecret = true then 1 else 0) = 1) = s.extMasterSecret := by
    cases s.extMasterSecret <;> rfl
  have halpn : (if (if s.EarlyData = true then 1 else 0) = 1 then
        readLengthPrefixed 1 (x11 ++ (x12 ++ pad))
      else some ([], x11 ++ (x12 ++ pad))) = some (s.alpnProtocol, x12 ++ pad) := by
    cases hE : s.EarlyData with
    | false =>
      rw [hE] at h11
      simp only [Bool.false_eq_true, if_false] at h11
      cases h11
      simp [hv.alpn_earlyData hE]
    | true =>
      rw [hE] at h11
      simp only [if_true] at h11
      obtain ⟨al, hal, hallen, rfl⟩ := addLengthPrefixed_ok 1 _ _ h11
      cases hal
      simp only [if_true, List.append_assoc]
      exact readLengthPrefixed_append_assoc 1 _ _ hallen
  rw [halpn, hdecE, hdecM]
  simp only
  cases hC : s.isClient with
  | false =>
    rw [hC] at h12
    simp only [Bool.false_eq_true, if_false] at h12
    cases h12
    have hz := hv.tls13_client (by simp [hC])
    have hcond : ¬ ((!cryptobyte.Empty pad && !allZeros pad) = true) := by simp [hpad]
    simp only [Bool.false_eq_true, if_false, ne_eq, OfNat.one_ne_ofNat, not_false_eq_true,
      if_true, List.nil_append, if_neg hcond, hz.1, hz.2]
  | true =>
    obtain ⟨hpeer, rfl⟩ := hrole hC
    have hpl : ¬ s.peerCertificates.length = 0 := fun h0 => hpeer (List.length_eq_zero.1 h0)
    rw [hC] at h12
    simp only [if_true, ne_eq, not_true_eq_false, if_false, if_neg hpl, List.append_nil]
    by_cases hver : s.version < VersionTLS13
    · have hge : ¬ s.version ≥ VersionTLS13 := by omega
      simp only [if_true, if_neg hge] at h12
      cases h12
      have hz := hv.tls13_client (by simp; omega)
      simp [hver, Empty_nil, hz.1, hz.2]
    · have hge : s.version ≥ VersionTLS13 := by omega
      simp only [if_true, if_pos hge] at h12
      cases h12
      simp only [if_neg hver, ReadUint64, ReadUint32, addUint64, AddUint64, AddUint32]
      rw [readUnsigned_bigEndian 8 _ _ (by have := hv.useBy_lt; norm_num at this ⊢; omega)]
      simp only
      rw [show bigEndian 4 s.ageAdd = bigEndian 4 s.ageAdd ++ [] by simp,
        readUnsigned_bigEndian 4 _ _ (by have := hv.ageAdd_lt; norm_num at this ⊢; omega)]
      simp [Empty_nil]

theorem obfuscatedServerState_builder (ms : List Nat) (h : ms.length = 48) :
    ∃ b, (obfuscatedServerState ms).builder = .ok b := by
  simp [sessionState.builder, obfuscatedServerState, sessionState.zero, andThen,
    AddUint8LengthPrefixed, AddUint24LengthPrefixed, addLengthPrefixed, h, marshalExtra,
    marshalCertificate, marshalCertificateEntries, certificatesToBytesSlice, marshalChains]

theorem Bytes_ok (s : sessionState) (obf : Bool) (draw : PaddingDraw) (e : List Nat)
    (h : s.Bytes obf draw = .ok e) :
    ∃ b, s.builder = .ok b ∧
      e = b ++ (if obf then List.replicate (paddedSizes.get draw.index - initialSize) 0 else []) := by
  unfold sessionState.Bytes at h
  cases hb : s.builder with
  | error err => rw [hb] at h; cases h
  | ok b =>
    rw [hb] at h
    refine ⟨b, rfl, ?_⟩
    cases obf with
    | false => simpa using (Except.ok.inj h).symm
    | true => simpa using (Except.ok.inj h).symm

theorem Bytes_of_builder (s : sessionState) (obf : Bool) (draw : PaddingDraw) (b : List Nat)
    (h : s.builder = .ok b) :
    s.Bytes obf draw =
      .ok (b ++ (if obf then List.replicate (paddedSizes.get draw.index - initialSize) 0 else [])) := by
  unfold sessionState.Bytes
  rw [h]
  cases obf <;> simp

/-! ## The loop counters never run out

A loop that is given more rounds than its string has bytes gives the same
result for every such number of rounds. -/

/-- a read that succeeds removes exactly the bytes read -/
theorem read_some_length (n : Nat) (s v rest : List Nat)
    (h : cryptobyte.read n s = some (v, rest)) : rest.length + n = s.length := by
  unfold cryptobyte.read at h
  by_cases hn : n ≤ s.length
  · rw [if_pos hn] at h
    cases h
    simp; omega
  · rw [if_neg hn] at h
    cases h

theorem readUnsigned_some_length (n : Nat) (s : List Nat) (v : Nat) (rest : List Nat)
    (h : readUnsigned n s = some (v, rest)) : rest.length + n = s.length := by
  unfold readUnsigned at h
  cases hr : cryptobyte.read n s with
  | none => rw [hr] at h; cases h
  | some p =>
    obtain ⟨w, r⟩ := p
    rw [hr] at h
    cases h
    exact read_some_length n s w rest hr

theorem readLengthPrefixed_some_length (n : Nat) (s v rest : List Nat)
    (h : readLengthPrefixed n s = some (v, rest)) : rest.length + n ≤ s.length := by
  unfold readLengthPrefixed at h
  cases hr : readUnsigned n s with
  | none => rw [hr] at h; cases h
  | some p =>
    obtain ⟨len, r⟩ := p
    rw [hr] at h
    have h1 := readUnsigned_some_length n s len r hr
    have h2 := read_some_length len r v rest h
    omega

/-- the counter of the Extra loop never runs out -/
theorem extraLoop_fuel (n : Nat) : ∀ (s : List Nat) (f1 f2 : Nat) (acc : List (List Nat)),
    s.length ≤ n → n < f1 → n < f2 → extraLoop f1 s acc = extraLoop f2 s acc := by
  induction n with
  | zero =>
    intro s f1 f2 acc hs h1 h2
    have hnil : s = [] := List.length_eq_zero.1 (by omega)
    subst hnil
    obtain ⟨g1, rfl⟩ : ∃ g, f1 = g + 1 := ⟨f1 - 1, by omega⟩
    obtain ⟨g2, rfl⟩ : ∃ g, f2 = g + 1 := ⟨f2 - 1, by omega⟩
    simp [extraLoop, Empty_nil]
  | succ n ih =>
    intro s f1 f2 acc hs h1 h2
    obtain ⟨g1, rfl⟩ : ∃ g, f1 = g + 1 := ⟨f1 - 1, by omega⟩
    obtain ⟨g2, rfl⟩ : ∃ g, f2 = g + 1 := ⟨f2 - 1, by omega⟩
    rw [extraLoop, extraLoop]
    split
    · rfl
    · cases hr : readUint24LengthPrefixed s with
      | none => rfl
      | some p =>
        obtain ⟨e, rest⟩ := p
        have := readLengthPrefixed_some_length 3 s e rest hr
        exact ih rest g1 g2 _ (by omega) (by omega) (by omega)

/-- the counter of the SCT loop never runs out -/
theorem sctListLoop_fuel (n : Nat) : ∀ (s : List Nat) (f1 f2 : Nat) (c : Certificate),
    s.length ≤ n → n < f1 → n < f2 → sctListLoop f1 s c = sctListLoop f2 s c := by
  induction n with
  | zero =>
    intro s f1 f2 c hs h1 h2
    have hnil : s = [] := List.length_eq_zero.1 (by omega)
    subst hnil
    obtain ⟨g1, rfl⟩ : ∃ g, f1 = g + 1 := ⟨f1 - 1, by omega⟩
    obtain ⟨g2, rfl⟩ : ∃ g, f2 = g + 1 := ⟨f2 - 1, by omega⟩
    simp [sctListLoop, Empty_nil]
  | succ n ih =>
    intro s f1 f2 c hs h1 h2
    obtain ⟨g1, rfl⟩ : ∃ g, f1 = g + 1 := ⟨f1 - 1, by omega⟩
    obtain ⟨g2, rfl⟩ : ∃ g, f2 = g + 1 := ⟨f2 - 1, by omega⟩
    rw [sctListLoop, sctListLoop]
    split
    · rfl
    · cases hr : readUint16LengthPrefixed s with
      | none => rfl
      | some p =>
        obtain ⟨e, rest⟩ := p
        have := readLengthPrefixed_some_length 2 s e rest hr
        simp only
        split
        · rfl
        · exact ih rest g1 g2 _ (by omega) (by omega) (by omega)

/-- the counter of the extension loop never runs out -/
theorem extensionsLoop_fuel (n : Nat) : ∀ (s : List Nat) (f1 f2 : Nat) (c : Certificate),
    s.length ≤ n → n < f1 → n < f2 → extensionsLoop f1 s c = extensionsLoop f2 s c := by
  induction n with
  | zero =>
    intro s f1 f2 c hs h1 h2
    have hnil : s = [] := List.length_eq_zero.1 (by omega)
    subst hnil
    obtain ⟨g1, rfl⟩ : ∃ g, f1 = g + 1 := ⟨f1 - 1, by omega⟩
    obtain ⟨g2, rfl⟩ : ∃ g, f2 = g + 1 := ⟨f2 - 1, by omega⟩
    simp [extensionsLoop, Empty_nil]
  | succ n ih =>
    intro s f1 f2 c hs h1 h2
    obtain ⟨g1, rfl⟩ : ∃ g, f1 = g + 1 := ⟨f1 - 1, by omega⟩
    obtain ⟨g2, rfl⟩ : ∃ g, f2 = g + 1 := ⟨f2 - 1, by omega⟩
    rw [extensionsLoop, extensionsLoop]
    split
    · rfl
    · split
      · rfl
      · cases hr : ReadUint16 s with
        | none => rfl
        | some p =>
          obtain ⟨ext, s1⟩ := p
          have hl1 := readUnsigned_some_length 2 s ext s1 hr
          simp only
          cases hr2 : ReadUint16LengthPrefixed s1 with
          | none => rfl
          | some p2 =>
            obtain ⟨extData, s2⟩ := p2
            have hl2 := readLengthPrefixed_some_length 2 s1 extData s2 hr2
            have key : ∀ c2, extensionsLoop g1 s2 c2 = extensionsLoop g2 s2 c2 :=
              fun c2 => ih s2 g1 g2 c2 (by omega) (by omega) (by omega)
            simp only [key]

/-- the counter of the certificate loop never runs out -/
theorem certListLoop_fuel (n : Nat) : ∀ (s : List Nat) (f1 f2 : Nat) (c : Certificate),
    s.length ≤ n → n < f1 → n < f2 → certListLoop f1 s c = certListLoop f2 s c := by
  induction n with
  | zero =>
    intro s f1 f2 c hs h1 h2
    have hnil : s = [] := List.length_eq_zero.1 (by omega)
    subst hnil
    obtain ⟨g1, rfl⟩ : ∃ g, f1 = g + 1 := ⟨f1 - 1, by omega⟩
    obtain ⟨g2, rfl⟩ : ∃ g, f2 = g + 1 := ⟨f2 - 1, by omega⟩
    simp [certListLoop, Empty_nil]
  | succ n ih =>
    intro s f1 f2 c hs h1 h2
    obtain ⟨g1, rfl⟩ : ∃ g, f1 = g + 1 := ⟨f1 - 1, by omega⟩
    obtain ⟨g2, rfl⟩ : ∃ g, f2 = g + 1 := ⟨f2 - 1, by omega⟩
    rw [certListLoop, certListLoop]
    split
    · rfl
    · cases hr : readUint24LengthPrefixed s with
      | none => rfl
      | some p =>
        obtain ⟨cert, s1⟩ := p
        have hl1 := readLengthPrefixed_some_length 3 s cert s1 hr
        simp only
        cases hr2 : ReadUint16LengthPrefixed s1 with
        | none => rfl
        | some p2 =>
          obtain ⟨extensions, s2⟩ := p2
          have hl2 := readLengthPrefixed_some_length 2 s1 extensions s2 hr2
          have key : ∀ c2, certListLoop g1 s2 c2 = certListLoop g2 s2 c2 :=
            fun c2 => ih s2 g1 g2 c2 (by omega) (by omega) (by omega)
          simp only [key]

/-- the counter of the loop over the certificates of a chain never runs out -/
theorem chainCertLoop_fuel (newCert : List Nat → Except String x509.Certificate) (n : Nat) :
    ∀ (s : List Nat) (f1 f2 : Nat) (chain handles : List x509.Certificate),
    s.length ≤ n → n < f1 → n < f2 →
    chainCertLoop newCert f1 s chain handles = chainCertLoop newCert f2 s chain handles := by
  induction n with
  | zero =>
    intro s f1 f2 chain handles hs h1 h2
    have hnil : s = [] := List.length_eq_zero.1 (by omega)
    subst hnil
    obtain ⟨g1, rfl⟩ : ∃ g, f1 = g + 1 := ⟨f1 - 1, by omega⟩
    obtain ⟨g2, rfl⟩ : ∃ g, f2 = g + 1 := ⟨f2 - 1, by omega⟩
    simp [chainCertLoop, Empty_nil]
  | succ n ih =>
    intro s f1 f2 chain handles hs h1 h2
    obtain ⟨g1, rfl⟩ : ∃ g, f1 = g + 1 := ⟨f1 - 1, by omega⟩
    obtain ⟨g2, rfl⟩ : ∃ g, f2 = g + 1 := ⟨f2 - 1, by omega⟩
    rw [chainCertLoop, chainCertLoop]
    split
    · rfl
    · cases hr : readUint24LengthPrefixed s with
      | none => rfl
      | some p =>
        obtain ⟨cert, s1⟩ := p
        have hl1 := readLengthPrefixed_some_length 3 s cert s1 hr
        simp only
        cases newCert cert with
        | error err => rfl
        | ok c => exact ih s1 g1 g2 _ _ (by omega) (by omega) (by omega)

/-- the counter of the loop over the verified chains never runs out -/
theorem chainListLoop_fuel (newCert : List Nat → Except String x509.Certificate)
    (peer : List x509.Certificate) (n : Nat) :
    ∀ (s : List Nat) (f1 f2 : Nat) (chains : List (List x509.Certificate))
      (handles : List x509.Certificate),
    s.length ≤ n → n < f1 → n < f2 →
    chainListLoop newCert peer f1 s chains handles =
      chainListLoop newCert peer f2 s chains handles := by
  induction n with
  | zero =>
    intro s f1 f2 chains handles hs h1 h2
    have hnil : s = [] := List.length_eq_zero.1 (by omega)
    subst hnil
    obtain ⟨g1, rfl⟩ : ∃ g, f1 = g + 1 := ⟨f1 - 1, by omega⟩
    obtain ⟨g2, rfl⟩ : ∃ g, f2 = g + 1 := ⟨f2 - 1, by omega⟩
    simp [chainListLoop, Empty_nil]
  | succ n ih =>
    intro s f1 f2 chains handles hs h1 h2
    obtain ⟨g1, rfl⟩ : ∃ g, f1 = g + 1 := ⟨f1 - 1, by omega⟩
    obtain ⟨g2, rfl⟩ : ∃ g, f2 = g + 1 := ⟨f2 - 1, by omega⟩
    rw [chainListLoop, chainListLoop]
    split
    · rfl
    · cases hr : ReadUint24LengthPrefixed s with
      | none => rfl
      | some p =>
        obtain ⟨certList, s1⟩ := p
        have hl1 := readLengthPrefixed_some_length 3 s certList s1 hr
        have key : ∀ c2 h2, chainListLoop newCert peer g1 s1 c2 h2 =
            chainListLoop newCert peer g2 s1 c2 h2 :=
          fun c2 h2 => ih s1 g1 g2 c2 h2 (by omega) (by omega) (by omega)
        simp only [key]

/-! ## The ticket cipher -/

theorem xorKeyStreamFrom_length (ks : Nat → Nat) (l : List Nat) :
    ∀ i, (xorKeyStreamFrom ks i l).length = l.length := by
  induction l with
  | nil => intro i; rfl
  | cons b rest ih => intro i; simp [xorKeyStreamFrom, ih]

theorem xorKeyStreamFrom_involutive (ks : Nat → Nat) (l : List Nat) :
    ∀ i, xorKeyStreamFrom ks i (xorKeyStreamFrom ks i l) = l := by
  induction l with
  | nil => intro i; rfl
  | cons b rest ih =>
    intro i
    simp [xorKeyStreamFrom, ih, Nat.xor_assoc]

theorem XORKeyStream_length (P : Primitives) (block iv src : List Nat) :
    (XORKeyStream P block iv src).length = src.length :=
  xorKeyStreamFrom_length _ _ _

theorem XORKeyStream_involutive (P : Primitives) (block iv src : List Nat) :
    XORKeyStream P block iv (XORKeyStream P block iv src) = src :=
  xorKeyStreamFrom_involutive _ _ _

theorem aesNewCipher_ok (key : List Nat) (h : key.length = 16) : aesNewCipher key = .ok key := by
  simp [aesNewCipher, h]

/-- decryptTicket on a blob made of a 16-byte IV, a ciphertext and a 32-byte tag. -/
theorem decryptTicketTraced_parts (P : Primitives) (iv ct mac : List Nat) (keys : List ticketKey)
    (hiv : iv.length = 16) (hmac : mac.length = 32) :
    decryptTicketTraced P (iv ++ ct ++ mac) keys = decryptTicketKeys P iv ct (iv ++ ct) mac keys := by
  have h1 : ¬ (iv ++ ct ++ mac).length < aesBlockSize + sha256Size := by
    simp [aesBlockSize, sha256Size, hiv, hmac]; omega
  have hlen : (iv ++ ct ++ mac).length - sha256Size = (iv ++ ct).length := by
    simp [sha256Size, hmac]; omega
  have h2 : (iv ++ ct ++ mac).take ((iv ++ ct ++ mac).length - sha256Size) = iv ++ ct := by
    rw [hlen]; exact List.take_left' rfl
  have h3 : (iv ++ ct ++ mac).drop ((iv ++ ct ++ mac).length - sha256Size) = mac := by
    rw [hlen]; exact List.drop_left' rfl
  have h4 : (iv ++ ct ++ mac).take aesBlockSize = iv := by
    rw [List.append_assoc]; exact List.take_left' (by simp [aesBlockSize, hiv])
  have h5 : (iv ++ ct).drop aesBlockSize = ct := List.drop_left' (by simp [aesBlockSize, hiv])
  unfold decryptTicketTraced
  rw [if_neg h1]
  simp only [h2, h3, h4, h5]

theorem ioReadFull_ok (rand : List Nat) (n : Nat) (h : n ≤ rand.length) :
    ioReadFull rand n = (.ok (rand.take n), rand.drop n) := by
  simp [ioReadFull, h]

/-- a reader with fewer bytes than asked gives an error and is used up -/
theorem ioReadFull_short (rand : List Nat) (n : Nat) (h : rand.length < n) :
    ∃ err, ioReadFull rand n = (.error err, []) := by
  unfold ioReadFull
  rw [if_neg (by omega)]
  by_cases he : rand.isEmpty = true
  · exact ⟨"EOF", by rw [if_pos he]⟩
  · exact ⟨"unexpected EOF", by rw [if_neg he]⟩

/-- the ticket made by encryptTicket -/
theorem encryptTicket_ok (P : Primitives) (p : List Nat) (key : ticketKey) (rest : List ticketKey)
    (rand : List Nat) (haes : key.aesKey.length = 16) (hrand : 16 ≤ rand.length) :
    encryptTicket P p (key :: rest) rand =
      (.ok (rand.take 16 ++ XORKeyStream P key.aesKey (rand.take 16) p ++
          P.hmacSha256 key.hmacKey (rand.take 16 ++ XORKeyStream P key.aesKey (rand.take 16) p)),
        rand.drop 16) := by
  simp [encryptTicket, aesBlockSize, ioReadFull_ok rand 16 hrand, aesNewCipher_ok _ haes]

theorem xor_pow_ne (x b : Nat) : x ^^^ 2 ^ b ≠ x := by
  intro h
  have h2 : x ^^^ (x ^^^ 2 ^ b) = x ^^^ x := by rw [h]
  rw [Nat.xor_cancel_left, Nat.xor_self] at h2
  exact absurd h2 (by positivity)

theorem flipBit_length (t : List Nat) (i bit : Nat) : (flipBit t i bit).length = t.length := by
  simp [flipBit]

theorem flipBit_ne (t : List Nat) (i bit : Nat) (h : i < t.length) : flipBit t i bit ≠ t := by
  intro heq
  have h1 : (flipBit t i bit).getD i 0 = t.getD i 0 := by rw [heq]
  unfold flipBit at h1
  rw [List.getD_eq_getElem _ _ (by simpa using h), List.getElem_set_self] at h1
  exact xor_pow_ne _ _ h1

theorem flipBit_append_right (a b : List Nat) (i bit : Nat) (h : a.length ≤ i) :
    flipBit (a ++ b) i bit = a ++ flipBit b (i - a.length) bit := by
  unfold flipBit
  rw [List.set_append_right _ _ h, List.getD_append_right _ _ _ _ h]

theorem flipBit_append_left (a b : List Nat) (i bit : Nat) (h : i < a.length) :
    flipBit (a ++ b) i bit = flipBit a i bit ++ b := by
  unfold flipBit
  rw [List.set_append_left _ _ h, List.getD_append _ _ _ _ h]

theorem ConstantTimeCompare_ne_one (x y : List Nat) : ConstantTimeCompare x y ≠ 1 ↔ x ≠ y := by
  unfold ConstantTimeCompare
  by_cases h : x = y <;> simp [h]

/-- no key matches: nil -/
theorem decryptTicketKeys_none (P : Primitives) (iv ct auth mac : List Nat) (keys : List ticketKey)
    (h : ∀ k ∈ keys, P.hmacSha256 k.hmacKey auth ≠ mac) :
    (decryptTicketKeys P iv ct auth mac keys).1 = none := by
  induction keys with
  | nil => rfl
  | cons k rest ih =>
    have hk : ConstantTimeCompare mac (P.hmacSha256 k.hmacKey auth) ≠ 1 :=
      (ConstantTimeCompare_ne_one _ _).2 (fun e => h k (List.mem_cons_self _ _) e.symm)
    simp only [decryptTicketKeys, if_pos hk]
    exact ih (fun k2 hk2 => h k2 (List.mem_cons_of_mem _ hk2))

/-- the first matching key decrypts -/
theorem decryptTicketKeys_first (P : Primitives) (iv ct auth mac : List Nat)
    (pre : List ticketKey) (k : ticketKey) (post : List ticketKey)
    (hpre : ∀ k2 ∈ pre, P.hmacSha256 k2.hmacKey auth ≠ mac)
    (hk : P.hmacSha256 k.hmacKey auth = mac) (haes : k.aesKey.length = 16) :
    (decryptTicketKeys P iv ct auth mac (pre ++ k :: post)).1 =
      some (XORKeyStream P k.aesKey iv ct) := by
  induction pre with
  | nil =>
    have hc : ¬ ConstantTimeCompare mac (P.hmacSha256 k.hmacKey auth) ≠ 1 := by
      rw [ConstantTimeCompare_ne_one]; simp [hk]
    simp only [List.nil_append, decryptTicketKeys, if_neg hc, aesNewCipher_ok _ haes]
  | cons k2 rest ih =>
    have hk2 : ConstantTimeCompare mac (P.hmacSha256 k2.hmacKey auth) ≠ 1 :=
      (ConstantTimeCompare_ne_one _ _).2 (fun e => hpre k2 (List.mem_cons_self _ _) e.symm)
    simp only [List.cons_append, decryptTicketKeys, if_pos hk2]
    exact ih (fun k3 hk3 => hpre k3 (List.mem_cons_of_mem _ hk3))

/-- some key matches: a plaintext as long as the ciphertext -/
theorem decryptTicketKeys_some (P : Primitives) (iv ct auth mac : List Nat) (keys : List ticketKey)
    (haes : ∀ k ∈ keys, k.aesKey.length = 16)
    (h : ∃ k ∈ keys, P.hmacSha256 k.hmacKey auth = mac) :
    ∃ p, (decryptTicketKeys P iv ct auth mac keys).1 = some p ∧ p.length = ct.length := by
  induction keys with
  | nil => obtain ⟨k, hk, _⟩ := h; cases hk
  | cons k rest ih =>
    by_cases hm : P.hmacSha256 k.hmacKey auth = mac
    · have hc : ¬ ConstantTimeCompare mac (P.hmacSha256 k.hmacKey auth) ≠ 1 := by
        rw [ConstantTimeCompare_ne_one]; simp [hm]
      refine ⟨XORKeyStream P k.aesKey iv ct, ?_, XORKeyStream_length _ _ _ _⟩
      simp only [decryptTicketKeys, if_neg hc, aesNewCipher_ok _ (haes k (List.mem_cons_self _ _))]
    · have hc : ConstantTimeCompare mac (P.hmacSha256 k.hmacKey auth) ≠ 1 :=
        (ConstantTimeCompare_ne_one _ _).2 (fun e => hm e.symm)
      simp only [decryptTicketKeys, if_pos hc]
      apply ih (fun k2 hk2 => haes k2 (List.mem_cons_of_mem _ hk2))
      obtain ⟨k2, hk2, hk2m⟩ := h
      rcases List.mem_cons.1 hk2 with rfl | hin
      · exact absurd hk2m hm
      · exact ⟨k2, hin, hk2m⟩

theorem decryptTicket_of_long (P : Primitives) (encrypted : List Nat) (keys : List ticketKey)
    (hlen : 48 ≤ encrypted.length) :
    decryptTicket P encrypted keys =
      (decryptTicketKeys P (encrypted.take 16)
        ((encrypted.take (encrypted.length - 32)).drop 16)
        (encrypted.take (encrypted.length - 32))
        (encrypted.drop (encrypted.length - 32)) keys).1 := by
  have h1 : ¬ encrypted.length < aesBlockSize + sha256Size := by
    simp [aesBlockSize, sha256Size]; omega
  unfold decryptTicket decryptTicketTraced
  rw [if_neg h1]
  rfl

theorem decryptTicket_parts (P : Primitives) (iv ct mac : List Nat) (keys : List ticketKey)
    (hiv : iv.length = 16) (hmac : mac.length = 32) :
    decryptTicket P (iv ++ ct ++ mac) keys = (decryptTicketKeys P iv ct (iv ++ ct) mac keys).1 := by
  simp only [decryptTicket, decryptTicketTraced_parts P iv ct mac keys hiv hmac]

theorem encryptTicket_fst (P : Primitives) (p : List Nat) (key : ticketKey) (rest : List ticketKey)
    (rand : List Nat) (haes : key.aesKey.length = 16) (hrand : 16 ≤ rand.length) :
    (encryptTicket P p (key :: rest) rand).1 =
      .ok (rand.take 16 ++ XORKeyStream P key.aesKey (rand.take 16) p ++
          P.hmacSha256 key.hmacKey (authenticatedBytes P key (rand.take 16) p)) := by
  rw [encryptTicket_ok P p key rest rand haes hrand]; rfl

theorem take16_length (rand : List Nat) (hrand : 16 ≤ rand.length) : (rand.take 16).length = 16 := by
  simp [hrand]

/-! ## The concrete instances are valid -/

/-- The server-role example session is valid. -/
theorem toyServerState_valid : toyServerState.Valid toyNewCert where
  version_lt := by decide
  cipherSuite_lt := by decide
  createdAt_lt := by decide
  useBy_lt := by decide
  ageAdd_lt := by decide
  secret_length := by decide
  peer_known := by decide
  chains_leaf := by
    intro chain hc
    simp only [toyServerState, List.mem_cons, List.mem_singleton, List.not_mem_nil, or_false] at hc
    rcases hc with rfl | rfl
    · exact ⟨_, _, rfl, rfl, by decide⟩
    · exact ⟨_, _, rfl, rfl, by decide⟩
  ocsp_nonempty := by
    intro o ho
    cases ho
    decide
  scts_nonempty := by
    intro l hl
    cases hl
    decide
  alpn_earlyData := by decide
  tls13_client := by decide

/-- The client-role example session is valid. -/
theorem toyClientState_valid : toyClientState.Valid toyNewCert where
  version_lt := by decide
  cipherSuite_lt := by decide
  createdAt_lt := by decide
  useBy_lt := by decide
  ageAdd_lt := by decide
  secret_length := by decide
  peer_known := by decide
  chains_leaf := by
    intro chain hc
    simp only [toyClientState, List.mem_singleton] at hc
    subst hc
    exact ⟨_, _, rfl, rfl, by decide⟩
  ocsp_nonempty := by
    intro o ho
    cases ho
  scts_nonempty := by
    intro l hl
    cases hl
  alpn_earlyData := by decide
  tls13_client := by decide

/-- The client-role example session without certificates is valid. -/
theorem toyClientNoCertState_valid : toyClientNoCertState.Valid toyNewCert where
  version_lt := by decide
  cipherSuite_lt := by decide
  createdAt_lt := by decide
  useBy_lt := by decide
  ageAdd_lt := by decide
  secret_length := by decide
  peer_known := by decide
  chains_leaf := by
    intro chain hc
    cases hc
  ocsp_nonempty := by
    intro o ho
    cases ho
  scts_nonempty := by
    intro l hl
    cases hl
  alpn_earlyData := by decide
  tls13_client := by decide

/-! ## Round trip of the codec -/

/-- The client-role example session, padded, is encoded by Bytes and rejected by
ParseSessionState: the client branch accepts no trailing byte. -/
theorem toyClientState_padded_rejected :
    ∃ e, toyClientState.Bytes true toyDraw = .ok e ∧
      ParseSessionState toyNewCert e = .error invalidSessionEncoding :=
  ⟨_, rfl, rfl⟩

/-- The output of Bytes parses back: for a valid state that is server-role, or
client-role with a peer certificate and no padding, ParseSessionState returns
the state itself, with the handles it collects. -/
theorem ParseSessionState_Bytes (newCert : List Nat → Except String x509.Certificate) (s : sessionState)
    (obfuscateSessionTickets : Bool) (draw : PaddingDraw) (e : List Nat)
    (hv : s.Valid newCert)
    (hrole : s.isClient = true → s.peerCertificates ≠ [] ∧ obfuscateSessionTickets = false)
    (he : s.Bytes obfuscateSessionTickets draw = .ok e) :
    ParseSessionState newCert e = .ok { s with activeCertHandles := s.parsedHandles } := by
  obtain ⟨b, hb, rfl⟩ := Bytes_ok s obfuscateSessionTickets draw e he
  apply ParseSessionState_builder newCert s b _ hv hb
  · cases obfuscateSessionTickets with
    | false => rfl
    | true => exact allZeros_replicate _
  · intro hc
    obtain ⟨h1, h2⟩ := hrole hc
    exact ⟨h1, by simp [h2]⟩

/-- the key that matches decrypts, when no other key of the list matches -/
theorem decryptTicketKeys_mem (P : Primitives) (iv ct auth mac : List Nat)
    (k : ticketKey) (hm : P.hmacSha256 k.hmacKey auth = mac) (haes : k.aesKey.length = 16)
    (keys : List ticketKey) (hk : k ∈ keys)
    (hothers : ∀ k2 ∈ keys, k2 ≠ k → P.hmacSha256 k2.hmacKey auth ≠ mac) :
    (decryptTicketKeys P iv ct auth mac keys).1 = some (XORKeyStream P k.aesKey iv ct) := by
  induction keys with
  | nil => cases hk
  | cons k2 rest ih =>
    by_cases h2 : k2 = k
    · subst h2
      have hc : ¬ ConstantTimeCompare mac (P.hmacSha256 k2.hmacKey auth) ≠ 1 := by
        rw [ConstantTimeCompare_ne_one]; simp [hm]
      simp only [decryptTicketKeys, if_neg hc, aesNewCipher_ok _ haes]
    · have hc : ConstantTimeCompare mac (P.hmacSha256 k2.hmacKey auth) ≠ 1 :=
        (ConstantTimeCompare_ne_one _ _).2
          (fun e => hothers k2 (List.mem_cons_self _ _) h2 e.symm)
      simp only [decryptTicketKeys, if_pos hc]
      rcases List.mem_cons.1 hk with rfl | hin
      · exact absurd rfl h2
      · exact ih hin (fun k3 hk3 => hothers k3 (List.mem_cons_of_mem _ hk3))

/-- the forged server state is a valid session state -/
theorem obfuscatedServerState_valid (newCert : List Nat → Except String x509.Certificate)
    (ms : List Nat) (h : ms.length = 48) : (obfuscatedServerState ms).Valid newCert where
  version_lt := by
    show VersionTLS12 < 2 ^ 16
    decide
  cipherSuite_lt := by
    show obfuscatedSessionTicketCipherSuite < 2 ^ 16
    decide
  createdAt_lt := by
    show 0 < 2 ^ 64
    decide
  useBy_lt := by
    show 0 < 2 ^ 64
    decide
  ageAdd_lt := by
    show 0 < 2 ^ 32
    decide
  secret_length := by simp [obfuscatedServerState, h]
  peer_known := by intro c hc; cases hc
  chains_leaf := by intro c hc; cases hc
  ocsp_nonempty := by intro o ho; cases ho
  scts_nonempty := by intro l hl; cases hl
  alpn_earlyData := by intro _; rfl
  tls13_client := by intro _; exact ⟨rfl, rfl⟩

/-- with 64 random bytes at hand NewObfuscatedClientSessionState succeeds -/
theorem NewObfuscatedClientSessionState_ok (P : Primitives) (sharedSecret : List Nat)
    (obf : Bool) (draw : PaddingDraw) (rand : List Nat) (hrand : 64 ≤ rand.length) :
    ∃ ssBytes, (obfuscatedServerState (rand.take 48)).Bytes obf draw = .ok ssBytes ∧
      NewObfuscatedClientSessionState P sharedSecret obf draw rand =
        .ok { SessionTicket :=
                (rand.drop 48).take 16 ++
                  XORKeyStream P (P.ticketKeyFromBytes sharedSecret).aesKey
                    ((rand.drop 48).take 16) ssBytes ++
                  P.hmacSha256 (P.ticketKeyFromBytes sharedSecret).hmacKey
                    (authenticatedBytes P (P.ticketKeyFromBytes sharedSecret)
                      ((rand.drop 48).take 16) ssBytes)
              Vers := VersionTLS12
              CipherSuite := obfuscatedSessionTicketCipherSuite
              MasterSecret := rand.take 48
              ServerCertificates := []
              VerifiedChains := []
              UseEMS := false } := by
  have h48 : (rand.take 48).length = 48 := by simp; omega
  obtain ⟨b, hb⟩ := obfuscatedServerState_builder (rand.take 48) h48
  have hB := Bytes_of_builder _ obf draw b hb
  have h16 : 16 ≤ (rand.drop 48).length := by simp; omega
  refine ⟨_, hB, ?_⟩
  unfold NewObfuscatedClientSessionState
  simp only [masterSecretLength, ioReadFull_ok rand 48 (by omega), hB,
    encryptTicket_fst P _ _ [] _ (P.ticketKeyFromBytes_aesKey sharedSecret) h16]

/-! ## ParseSessionState in stages -/

/-- ParseSessionState is the sequence of its three stages. -/
theorem ParseSessionState_eq_parseStaged (newCert : List Nat → Except String x509.Certificate)
    (data : List Nat) : ParseSessionState newCert data = parseStaged newCert data := by
  unfold ParseSessionState parseStaged readHeader parseBody parseTail
  rcases h1 : ReadUint16 data with _ | ⟨version, s1⟩
  · rfl
  simp only
  rcases h2 : ReadUint8 s1 with _ | ⟨typ, s2⟩
  · rfl
  simp only
  rcases h3 : ReadUint16 s2 with _ | ⟨cipherSuite, s3⟩
  · simp
  simp only
  rcases h4 : readUint64 s3 with _ | ⟨createdAt, s4⟩
  · simp
  simp only
  rcases h5 : readUint8LengthPrefixed s4 with _ | ⟨secret, s5⟩
  · simp
  simp only
  rcases h6 : ReadUint24LengthPrefixed s5 with _ | ⟨extra, s6⟩
  · simp
  simp only
  rcases h7 : ReadUint8 s6 with _ | ⟨ems, s7⟩
  · simp
  simp only
  rcases h8 : ReadUint8 s7 with _ | ⟨ed, s8⟩
  · simp
  simp only
  by_cases ht : typ ≠ 1 ∧ typ ≠ 2
  · simp only [if_pos ht]
  simp only [if_neg ht]
  by_cases hs : secret.length = 0
  · simp only [if_pos hs]
  simp only [if_neg hs]
  rcases h9 : unmarshalCertificate s8 with _ | ⟨cert, s9⟩
  · rfl
  simp only
  rcases h10 : extraLoop (extra.length + 1) extra [] with err | Extra
  · rfl
  simp only
  by_cases hm : ems ≠ 0 ∧ ems ≠ 1
  · simp only [if_pos hm]
  simp only [if_neg hm]
  by_cases he : ed ≠ 0 ∧ ed ≠ 1
  · simp only [if_pos he]
  simp only [if_neg he]
  rcases h11 : peerCertificatesLoop newCert cert.Certificate [] with err | peer
  · rfl
  simp only
  rcases h12 : ReadUint24LengthPrefixed s9 with _ | ⟨chainList, s10⟩
  · rfl
  simp only
  rcases h13 : chainListLoop newCert peer (chainList.length + 1) chainList [] peer with
    err | ⟨chains, handles⟩
  · rfl
  simp only
  rcases h14 : (if ed = 1 then readUint8LengthPrefixed s10 else some ([], s10)) with
    _ | ⟨alpn, s11⟩
  · rfl
  rfl

/-- An accepted input passes the three stages. -/
theorem parseStaged_ok (newCert : List Nat → Except String x509.Certificate)
    (data : List Nat) (x : sessionState) (hx : ParseSessionState newCert data = .ok x) :
    ∃ h s ss r, readHeader data = some (h, s) ∧ parseBody newCert h s = .ok (ss, r) ∧
      parseTail h.typ ss r = .ok x := by
  rw [ParseSessionState_eq_parseStaged] at hx
  unfold parseStaged at hx
  rcases hh : readHeader data with _ | ⟨h, s⟩
  · rw [hh] at hx; cases hx
  rw [hh] at hx
  simp only at hx
  rcases hb : parseBody newCert h s with err | ⟨ss, r⟩
  · rw [hb] at hx; cases hx
  rw [hb] at hx
  exact ⟨h, s, ss, r, rfl, hb, hx⟩

/-- Where the header and the body parse, ParseSessionState is the end stage. -/
theorem parseStaged_of (newCert : List Nat → Except String x509.Certificate)
    (data : List Nat) (h : wireHeader) (s : List Nat) (ss : sessionState) (r : List Nat)
    (hh : readHeader data = some (h, s)) (hb : parseBody newCert h s = .ok (ss, r)) :
    ParseSessionState newCert data = parseTail h.typ ss r := by
  rw [ParseSessionState_eq_parseStaged]
  unfold parseStaged
  rw [hh]
  simp only
  rw [hb]

/-! ### Bytes after the part that is read do not change what is read -/

/-- A read that succeeds gives the same with more bytes behind. -/
theorem read_frame (n : Nat) (s v r t : List Nat) (h : cryptobyte.read n s = some (v, r)) :
    cryptobyte.read n (s ++ t) = some (v, r ++ t) := by
  unfold cryptobyte.read at h ⊢
  by_cases hn : n ≤ s.length
  · rw [if_pos hn] at h
    cases h
    rw [if_pos (by rw [List.length_append]; omega), List.take_append_of_le_length hn,
      List.drop_append_of_le_length hn]
  · rw [if_neg hn] at h
    cases h

/-- An integer read that succeeds gives the same with more bytes behind. -/
theorem readUnsigned_frame (n : Nat) (s : List Nat) (v : Nat) (r t : List Nat)
    (h : readUnsigned n s = some (v, r)) : readUnsigned n (s ++ t) = some (v, r ++ t) := by
  unfold readUnsigned at h ⊢
  rcases hr : cryptobyte.read n s with _ | ⟨w, r2⟩
  · rw [hr] at h; cases h
  · rw [hr] at h
    rw [read_frame n s w r2 t hr]
    cases h
    rfl

/-- A length-prefixed read that succeeds gives the same with more bytes behind. -/
theorem readLengthPrefixed_frame (n : Nat) (s v r t : List Nat)
    (h : readLengthPrefixed n s = some (v, r)) :
    readLengthPrefixed n (s ++ t) = some (v, r ++ t) := by
  unfold readLengthPrefixed at h ⊢
  rcases hr : readUnsigned n s with _ | ⟨len, r2⟩
  · rw [hr] at h; cases h
  · rw [hr] at h
    rw [readUnsigned_frame n s len r2 t hr]
    exact read_frame len r2 v r t h

/-- The 8-byte read that succeeds gives the same with more bytes behind. -/
theorem readUint64_frame (s : List Nat) (v : Nat) (r t : List Nat)
    (h : readUint64 s = some (v, r)) : readUint64 (s ++ t) = some (v, r ++ t) := by
  unfold readUint64 at h ⊢
  rcases h1 : ReadUint32 s with _ | ⟨hi, s1⟩
  · rw [h1] at h; cases h
  · rw [h1] at h
    simp only at h
    rcases h2 : ReadUint32 s1 with _ | ⟨lo, s2⟩
    · rw [h2] at h; cases h
    · rw [h2] at h
      rw [show ReadUint32 (s ++ t) = some (hi, s1 ++ t) from readUnsigned_frame 4 s hi s1 t h1]
      simp only
      rw [show ReadUint32 (s1 ++ t) = some (lo, s2 ++ t) from readUnsigned_frame 4 s1 lo s2 t h2]
      cases h
      rfl

/-- The header reads give the same with more bytes behind. -/
theorem readHeader_frame (data : List Nat) (h : wireHeader) (s t : List Nat)
    (hh : readHeader data = some (h, s)) : readHeader (data ++ t) = some (h, s ++ t) := by
  unfold readHeader at hh ⊢
  rcases h1 : ReadUint16 data with _ | ⟨version, s1⟩
  · rw [h1] at hh; cases hh
  rw [h1] at hh
  rw [show ReadUint16 (data ++ t) = some (version, s1 ++ t) from
    readUnsigned_frame 2 data version s1 t h1]
  simp only at hh ⊢
  rcases h2 : ReadUint8 s1 with _ | ⟨typ, s2⟩
  · rw [h2] at hh; cases hh
  rw [h2] at hh
  rw [show ReadUint8 (s1 ++ t) = some (typ, s2 ++ t) from readUnsigned_frame 1 s1 typ s2 t h2]
  simp only at hh ⊢
  rcases h3 : ReadUint16 s2 with _ | ⟨cipherSuite, s3⟩
  · rw [h3] at hh; cases hh
  rw [h3] at hh
  rw [show ReadUint16 (s2 ++ t) = some (cipherSuite, s3 ++ t) from
    readUnsigned_frame 2 s2 cipherSuite s3 t h3]
  simp only at hh ⊢
  rcases h4 : readUint64 s3 with _ | ⟨createdAt, s4⟩
  · rw [h4] at hh; cases hh
  rw [h4] at hh
  rw [readUint64_frame s3 createdAt s4 t h4]
  simp only at hh ⊢
  rcases h5 : readUint8LengthPrefixed s4 with _ | ⟨secret, s5⟩
  · rw [h5] at hh; cases hh
  rw [h5] at hh
  rw [show readUint8LengthPrefixed (s4 ++ t) = some (secret, s5 ++ t) from
    readLengthPrefixed_frame 1 s4 secret s5 t h5]
  simp only at hh ⊢
  rcases h6 : ReadUint24LengthPrefixed s5 with _ | ⟨extra, s6⟩
  · rw [h6] at hh; cases hh
  rw [h6] at hh
  rw [show ReadUint24LengthPrefixed (s5 ++ t) = some (extra, s6 ++ t) from
    readLengthPrefixed_frame 3 s5 extra s6 t h6]
  simp only at hh ⊢
  rcases h7 : ReadUint8 s6 with _ | ⟨ems, s7⟩
  · rw [h7] at hh; cases hh
  rw [h7] at hh
  rw [show ReadUint8 (s6 ++ t) = some (ems, s7 ++ t) from readUnsigned_frame 1 s6 ems s7 t h7]
  simp only at hh ⊢
  rcases h8 : ReadUint8 s7 with _ | ⟨ed, s8⟩
  · rw [h8] at hh; cases hh
  rw [h8] at hh
  rw [show ReadUint8 (s7 ++ t) = some (ed, s8 ++ t) from readUnsigned_frame 1 s7 ed s8 t h8]
  simp only at hh ⊢
  cases hh
  rfl

/-- The certificate block reads the same with more bytes behind. -/
theorem unmarshalCertificate_frame (s : List Nat) (c : Certificate) (r t : List Nat)
    (h : unmarshalCertificate s = some (c, r)) :
    unmarshalCertificate (s ++ t) = some (c, r ++ t) := by
  unfold unmarshalCertificate at h ⊢
  rcases h1 : ReadUint24LengthPrefixed s with _ | ⟨certList, s1⟩
  · rw [h1] at h; cases h
  rw [h1] at h
  simp only at h
  rw [show ReadUint24LengthPrefixed (s ++ t) = some (certList, s1 ++ t) from
    readLengthPrefixed_frame 3 s certList s1 t h1]
  simp only
  rcases h2 : certListLoop (certList.length + 1) certList
      { Certificate := [], OCSPStaple := none, SignedCertificateTimestamps := none } with
    _ | cert
  · rw [h2] at h; cases h
  · rw [h2] at h
    cases h
    rfl

/-- The body parses the same with more bytes behind. -/
theorem parseBody_frame (newCert : List Nat → Except String x509.Certificate) (h : wireHeader)
    (s : List Nat) (ss : sessionState) (r t : List Nat)
    (hb : parseBody newCert h s = .ok (ss, r)) :
    parseBody newCert h (s ++ t) = .ok (ss, r ++ t) := by
  unfold parseBody at hb ⊢
  by_cases ht : h.typ ≠ 1 ∧ h.typ ≠ 2
  · rw [if_pos ht] at hb; cases hb
  rw [if_neg ht] at hb ⊢
  by_cases hs : h.secret.length = 0
  · rw [if_pos hs] at hb; cases hb
  rw [if_neg hs] at hb ⊢
  rcases h9 : unmarshalCertificate s with _ | ⟨cert, s9⟩
  · rw [h9] at hb; cases hb
  rw [h9] at hb
  rw [unmarshalCertificate_frame s cert s9 t h9]
  simp only at hb ⊢
  rcases h10 : extraLoop (h.extra.length + 1) h.extra [] with err | Extra
  · rw [h10] at hb; cases hb
  rw [h10] at hb
  simp only at hb ⊢
  by_cases hm : h.extMasterSecret ≠ 0 ∧ h.extMasterSecret ≠ 1
  · rw [if_pos hm] at hb; cases hb
  rw [if_neg hm] at hb ⊢
  by_cases he : h.earlyData ≠ 0 ∧ h.earlyData ≠ 1
  · rw [if_pos he] at hb; cases hb
  rw [if_neg he] at hb ⊢
  rcases h11 : peerCertificatesLoop newCert cert.Certificate [] with err | peer
  · rw [h11] at hb; cases hb
  rw [h11] at hb
  simp only at hb ⊢
  rcases h12 : ReadUint24LengthPrefixed s9 with _ | ⟨chainList, s10⟩
  · rw [h12] at hb; cases hb
  rw [h12] at hb
  rw [show ReadUint24LengthPrefixed (s9 ++ t) = some (chainList, s10 ++ t) from
    readLengthPrefixed_frame 3 s9 chainList s10 t h12]
  simp only at hb ⊢
  rcases h13 : chainListLoop newCert peer (chainList.length + 1) chainList [] peer with
    err | ⟨chains, handles⟩
  · rw [h13] at hb; cases hb
  rw [h13] at hb
  simp only at hb ⊢
  by_cases hed : h.earlyData = 1
  · rw [if_pos hed] at hb ⊢
    rcases h14 : readUint8LengthPrefixed s10 with _ | ⟨alpn, s11⟩
    · rw [h14] at hb; cases hb
    rw [h14] at hb
    rw [show readUint8LengthPrefixed (s10 ++ t) = some (alpn, s11 ++ t) from
      readLengthPrefixed_frame 1 s10 alpn s11 t h14]
    simp only at hb ⊢
    cases hb
    rfl
  · rw [if_neg hed] at hb ⊢
    simp only at hb ⊢
    cases hb
    rfl

/-! ### Where the role byte and the secret length byte stand -/

/-- What a read that succeeds returns. -/
theorem read_some (n : Nat) (s v r : List Nat) (h : cryptobyte.read n s = some (v, r)) :
    n ≤ s.length ∧ v = s.take n ∧ r = s.drop n := by
  unfold cryptobyte.read at h
  by_cases hn : n ≤ s.length
  · rw [if_pos hn] at h
    cases h
    exact ⟨hn, rfl, rfl⟩
  · rw [if_neg hn] at h
    cases h

/-- What an integer read that succeeds returns. -/
theorem readUnsigned_some (n : Nat) (s : List Nat) (v : Nat) (r : List Nat)
    (h : readUnsigned n s = some (v, r)) :
    n ≤ s.length ∧ v = beValue (s.take n) ∧ r = s.drop n := by
  unfold readUnsigned at h
  rcases hr : cryptobyte.read n s with _ | ⟨w, r2⟩
  · rw [hr] at h; cases h
  · rw [hr] at h
    obtain ⟨h1, h2, h3⟩ := read_some n s w r2 hr
    cases h
    exact ⟨h1, by rw [h2], h3⟩

/-- a one-byte read returns the first byte -/
theorem readUnsigned_one (s : List Nat) (v : Nat) (r : List Nat)
    (h : readUnsigned 1 s = some (v, r)) : s = v :: r := by
  obtain ⟨h1, h2, h3⟩ := readUnsigned_some 1 s v r h
  cases s with
  | nil => simp at h1
  | cons a tl =>
    simp [beValue] at h2 h3
    rw [h2, h3]

/-- The 8-byte read removes 8 bytes. -/
theorem readUint64_some (s : List Nat) (v : Nat) (r : List Nat)
    (h : readUint64 s = some (v, r)) : 8 ≤ s.length ∧ r = s.drop 8 := by
  unfold readUint64 at h
  rcases h1 : ReadUint32 s with _ | ⟨hi, s1⟩
  · rw [h1] at h; cases h
  rw [h1] at h
  simp only at h
  rcases h2 : ReadUint32 s1 with _ | ⟨lo, s2⟩
  · rw [h2] at h; cases h
  rw [h2] at h
  obtain ⟨a1, _, a3⟩ := readUnsigned_some 4 s hi s1 h1
  obtain ⟨b1, _, b3⟩ := readUnsigned_some 4 s1 lo s2 h2
  cases h
  subst a3
  rw [b3, List.drop_drop]
  simp at b1
  exact ⟨by omega, rfl⟩

/-- a block behind a one-byte length starts with its own length -/
theorem readLengthPrefixed_one (s v r : List Nat)
    (h : readLengthPrefixed 1 s = some (v, r)) : ∃ tl, s = v.length :: tl := by
  unfold readLengthPrefixed at h
  rcases h1 : readUnsigned 1 s with _ | ⟨len, s1⟩
  · rw [h1] at h; cases h
  rw [h1] at h
  simp only at h
  obtain ⟨a1, a2, _⟩ := read_some len s1 v r h
  have := readUnsigned_one s len s1 h1
  refine ⟨s1, ?_⟩
  rw [this, a2, List.length_take, Nat.min_eq_left a1]

/-- the third byte of the input is the role byte and the fourteenth is the
length of the secret -/
theorem readHeader_bytes (data : List Nat) (h : wireHeader) (s : List Nat)
    (hh : readHeader data = some (h, s)) :
    data[2]? = some h.typ ∧ data[13]? = some h.secret.length := by
  unfold readHeader at hh
  rcases h1 : ReadUint16 data with _ | ⟨version, s1⟩
  · rw [h1] at hh; cases hh
  rw [h1] at hh
  simp only at hh
  rcases h2 : ReadUint8 s1 with _ | ⟨typ, s2⟩
  · rw [h2] at hh; cases hh
  rw [h2] at hh
  simp only at hh
  rcases h3 : ReadUint16 s2 with _ | ⟨cipherSuite, s3⟩
  · rw [h3] at hh; cases hh
  rw [h3] at hh
  simp only at hh
  rcases h4 : readUint64 s3 with _ | ⟨createdAt, s4⟩
  · rw [h4] at hh; cases hh
  rw [h4] at hh
  simp only at hh
  rcases h5 : readUint8LengthPrefixed s4 with _ | ⟨secret, s5⟩
  · rw [h5] at hh; cases hh
  rw [h5] at hh
  simp only at hh
  rcases h6 : ReadUint24LengthPrefixed s5 with _ | ⟨extra, s6⟩
  · rw [h6] at hh; cases hh
  rw [h6] at hh
  simp only at hh
  rcases h7 : ReadUint8 s6 with _ | ⟨ems, s7⟩
  · rw [h7] at hh; cases hh
  rw [h7] at hh
  simp only at hh
  rcases h8 : ReadUint8 s7 with _ | ⟨ed, s8⟩
  · rw [h8] at hh; cases hh
  rw [h8] at hh
  simp only at hh
  obtain ⟨a1, _, a3⟩ := readUnsigned_some 2 data version s1 h1
  have b := readUnsigned_one s1 typ s2 h2
  obtain ⟨c1, _, c3⟩ := readUnsigned_some 2 s2 cipherSuite s3 h3
  obtain ⟨d1, d3⟩ := readUint64_some s3 createdAt s4 h4
  obtain ⟨tl, e⟩ := readLengthPrefixed_one s4 secret s5 h5
  cases hh
  simp only
  have hd2 : data.drop 2 = typ :: s2 := by rw [← a3, b]
  have hd13 : data.drop 13 = secret.length :: tl := by
    have : data.drop 13 = ((((data.drop 2).drop 1).drop 2).drop 8) := by
      simp [List.drop_drop]
    rw [this, hd2, List.drop_one, List.tail_cons, ← c3, ← d3, e]
  constructor
  · have := congrArg List.head? hd2
    simpa [List.head?_drop] using this
  · have := congrArg List.head? hd13
    simpa [List.head?_drop] using this

/-! ### What the stages tell about the result -/

/-- the state the body yields: server-role, with the secret and the role byte
of the header checked -/
theorem parseBody_ok (newCert : List Nat → Except String x509.Certificate) (h : wireHeader)
    (s : List Nat) (ss : sessionState) (r : List Nat)
    (hb : parseBody newCert h s = .ok (ss, r)) :
    (h.typ = 1 ∨ h.typ = 2) ∧ h.secret.length ≠ 0 ∧ ss.secret = h.secret ∧
      ss.isClient = false ∧ ss.version = h.version := by
  unfold parseBody at hb
  by_cases ht : h.typ ≠ 1 ∧ h.typ ≠ 2
  · rw [if_pos ht] at hb; cases hb
  rw [if_neg ht] at hb
  by_cases hs : h.secret.length = 0
  · rw [if_pos hs] at hb; cases hb
  rw [if_neg hs] at hb
  rcases h9 : unmarshalCertificate s with _ | ⟨cert, s9⟩
  · rw [h9] at hb; cases hb
  rw [h9] at hb
  simp only at hb
  rcases h10 : extraLoop (h.extra.length + 1) h.extra [] with err | Extra
  · rw [h10] at hb; cases hb
  rw [h10] at hb
  simp only at hb
  by_cases hm : h.extMasterSecret ≠ 0 ∧ h.extMasterSecret ≠ 1
  · rw [if_pos hm] at hb; cases hb
  rw [if_neg hm] at hb
  by_cases he : h.earlyData ≠ 0 ∧ h.earlyData ≠ 1
  · rw [if_pos he] at hb; cases hb
  rw [if_neg he] at hb
  rcases h11 : peerCertificatesLoop newCert cert.Certificate [] with err | peer
  · rw [h11] at hb; cases hb
  rw [h11] at hb
  simp only at hb
  rcases h12 : ReadUint24LengthPrefixed s9 with _ | ⟨chainList, s10⟩
  · rw [h12] at hb; cases hb
  rw [h12] at hb
  simp only at hb
  rcases h13 : chainListLoop newCert peer (chainList.length + 1) chainList [] peer with
    err | ⟨chains, handles⟩
  · rw [h13] at hb; cases hb
  rw [h13] at hb
  simp only at hb
  rcases h14 : (if h.earlyData = 1 then readUint8LengthPrefixed s10 else some ([], s10)) with
    _ | ⟨alpn, s11⟩
  · rw [h14] at hb; cases hb
  rw [h14] at hb
  cases hb
  exact ⟨by omega, hs, rfl, rfl, rfl⟩

/-- The function allZeros holds exactly of the strings of zero bytes. -/
theorem allZeros_eq_true_iff (l : List Nat) : allZeros l = true ↔ ∀ b ∈ l, b = 0 := by
  induction l with
  | nil => simp [allZeros]
  | cons a tl ih =>
    by_cases ha : a = 0
    · simp [allZeros, ha, ih]
    · simp [allZeros, ha]

/-- The function allZeros on two strings in a row. -/
theorem allZeros_append (a b : List Nat) : allZeros (a ++ b) = (allZeros a && allZeros b) := by
  induction a with
  | nil => simp [allZeros]
  | cons x tl ih =>
    by_cases hx : x = 0
    · simp [allZeros, hx, ih]
    · simp [allZeros, hx]

/-- the end of a server-role record: accepted exactly when what is left is zero -/
theorem parseTail_server (typ : Nat) (ss : sessionState) (r : List Nat) (h : typ ≠ 2) :
    parseTail typ ss r = if allZeros r = true then .ok ss else .error invalidSessionEncoding := by
  unfold parseTail
  rw [if_pos h]
  cases r with
  | nil => simp [cryptobyte.Empty, allZeros]
  | cons a tl =>
    by_cases hz : allZeros (a :: tl) = true
    · simp [cryptobyte.Empty, hz]
    · simp [cryptobyte.Empty, hz]

/-- what the end of the record keeps of the state -/
theorem parseTail_ok (typ : Nat) (ss : sessionState) (r : List Nat) (x : sessionState)
    (h : parseTail typ ss r = .ok x) :
    x.secret = ss.secret ∧ (x.isClient = true ↔ (typ = 2 ∨ ss.isClient = true)) := by
  unfold parseTail at h
  by_cases ht : typ ≠ 2
  · rw [if_pos ht] at h
    split at h
    · cases h
    · cases h
      exact ⟨rfl, by simp [ht]⟩
  · rw [if_neg ht] at h
    have ht2 : typ = 2 := by omega
    split at h
    · cases h
    · split at h
      · split at h
        · cases h
        · cases h
          exact ⟨rfl, by simp [ht2]⟩
      · split at h
        · cases h
        · split at h
          · cases h
          · split at h
            · cases h
            · cases h
              exact ⟨rfl, by simp [ht2]⟩

/-- after a record that is accepted, a non-zero byte is rejected -/
theorem parseTail_trailing (typ : Nat) (ss : sessionState) (r t : List Nat) (x : sessionState)
    (h : parseTail typ ss r = .ok x) (ht : ∃ b ∈ t, b ≠ 0) :
    parseTail typ ss (r ++ t) = .error invalidSessionEncoding := by
  have hz : allZeros t = false := by
    cases hzt : allZeros t with
    | false => rfl
    | true =>
      obtain ⟨b, hb, hb0⟩ := ht
      exact absurd ((allZeros_eq_true_iff t).1 hzt b hb) hb0
  have hne : t ≠ [] := by
    rintro rfl
    obtain ⟨b, hb, _⟩ := ht
    cases hb
  by_cases hty : typ ≠ 2
  · rw [parseTail_server typ ss _ hty, allZeros_append, hz]
    simp
  · unfold parseTail at h ⊢
    rw [if_neg hty] at h ⊢
    by_cases hp : ss.peerCertificates.length = 0
    · rw [if_pos hp] at h; cases h
    rw [if_neg hp] at h ⊢
    by_cases hv : ss.version < VersionTLS13
    · rw [if_pos hv] at h ⊢
      by_cases he : (!cryptobyte.Empty r) = true
      · rw [if_pos he] at h; cases h
      · have hr : r = [] := by
          cases r with
          | nil => rfl
          | cons a tl => simp [cryptobyte.Empty] at he
        subst hr
        have : (!cryptobyte.Empty ([] ++ t)) = true := by
          cases t with
          | nil => exact absurd rfl hne
          | cons a tl => simp [cryptobyte.Empty]
        rw [if_pos this]
    · rw [if_neg hv] at h ⊢
      rcases h1 : ReadUint64 r with _ | ⟨useBy, s1⟩
      · rw [h1] at h; cases h
      rw [h1] at h
      rw [show ReadUint64 (r ++ t) = some (useBy, s1 ++ t) from
        readUnsigned_frame 8 r useBy s1 t h1]
      simp only at h ⊢
      rcases h2 : ReadUint32 s1 with _ | ⟨ageAdd, s2⟩
      · rw [h2] at h; cases h
      rw [h2] at h
      rw [show ReadUint32 (s1 ++ t) = some (ageAdd, s2 ++ t) from
        readUnsigned_frame 4 s1 ageAdd s2 t h2]
      simp only at h ⊢
      by_cases he : (!cryptobyte.Empty s2) = true
      · rw [if_pos he] at h; cases h
      · have hr : s2 = [] := by
          cases s2 with
          | nil => rfl
          | cons a tl => simp [cryptobyte.Empty] at he
        subst hr
        have : (!cryptobyte.Empty ([] ++ t)) = true := by
          cases t with
          | nil => exact absurd rfl hne
          | cons a tl => simp [cryptobyte.Empty]
        rw [if_pos this]

/-- The Extra loop fails with the error of a malformed encoding only. -/
theorem extraLoop_error (fuel : Nat) : ∀ (e : List Nat) (acc : List (List Nat)) (err : String),
    extraLoop fuel e acc = .error err → err = invalidSessionEncoding := by
  induction fuel with
  | zero =>
    intro e acc err h
    simp only [extraLoop] at h
    exact (Except.error.inj h).symm
  | succ fuel ih =>
    intro e acc err h
    rw [extraLoop] at h
    split at h
    · cases h
    · split at h
      · exact (Except.error.inj h).symm
      · exact ih _ _ _ h

/-- without a peer certificate a chain entry is rejected -/
theorem chainListLoop_no_peer (newCert : List Nat → Except String x509.Certificate)
    (fuel : Nat) (chainList : List Nat) (acc : List (List x509.Certificate))
    (handles : List x509.Certificate) (hne : chainList ≠ []) :
    chainListLoop newCert [] (fuel + 1) chainList acc handles =
      .error invalidSessionEncoding := by
  rw [chainListLoop]
  have hE : cryptobyte.Empty chainList = false := by
    cases chainList with
    | nil => exact absurd rfl hne
    | cons a tl => rfl
  rw [hE]
  simp only [Bool.false_eq_true, if_false]
  rcases ReadUint24LengthPrefixed chainList with _ | ⟨certList, rest⟩ <;> rfl

/-! ## Layout of the encoding and of the ticket -/

/-- The Extra loop writes the blocks, each behind its 3-byte length. -/
theorem marshalExtra_ok (l : List (List Nat)) : ∀ ex, marshalExtra l = .ok ex →
    ex = extraBlocks l := by
  induction l with
  | nil => intro ex h; cases h; rfl
  | cons x rest ih =>
    intro ex h
    obtain ⟨a, b, ha, hb, rfl⟩ := andThen_ok _ _ _ h
    obtain ⟨c, hc, _, rfl⟩ := addLengthPrefixed_ok 3 _ _ ha
    cases hc
    rw [ih b hb]
    simp [extraBlocks]

/-- The unpadded encoding begins with the head of the wire layout. -/
theorem builder_head (s : sessionState) (b : List Nat) (hb : s.builder = .ok b) :
    ∃ rest, b = wireLayoutHead s ++ rest := by
  unfold sessionState.builder at hb
  obtain ⟨x1, r1, h1, hr1, rfl⟩ := andThen_ok _ _ _ hb
  obtain ⟨x2, r2, h2, hr2, rfl⟩ := andThen_ok _ _ _ hr1
  obtain ⟨x3, r3, h3, hr3, rfl⟩ := andThen_ok _ _ _ hr2
  obtain ⟨x4, r4, h4, hr4, rfl⟩ := andThen_ok _ _ _ hr3
  obtain ⟨x5, r5, h5, hr5, rfl⟩ := andThen_ok _ _ _ hr4
  obtain ⟨x6, r6, h6, hr6, rfl⟩ := andThen_ok _ _ _ hr5
  obtain ⟨x7, r7, h7, hr7, rfl⟩ := andThen_ok _ _ _ hr6
  obtain ⟨x8, r8, h8, hr8, rfl⟩ := andThen_ok _ _ _ hr7
  cases h1; cases h2; cases h3; cases h4; cases h7; cases h8
  obtain ⟨sec, hsec, hseclen, rfl⟩ := addLengthPrefixed_ok 1 _ _ h5
  cases hsec
  obtain ⟨ex, hex, hexlen, rfl⟩ := addLengthPrefixed_ok 3 _ _ h6
  have hex2 := marshalExtra_ok _ _ hex
  subst hex2
  refine ⟨r8, ?_⟩
  have hl : s.secret.length % 256 = s.secret.length := Nat.mod_eq_of_lt (by simpa using hseclen)
  clear hb hr1 hr2 hr3 hr4 hr5 hr6 hr7 hr8 h5 h6 hex
  cases hC : s.isClient <;> cases hM : s.extMasterSecret <;> cases hE : s.EarlyData <;>
    simp [wireLayoutHead, AddUint16, AddUint8, addUint64, AddUint64, bigEndian, hl, hC, hM, hE]

/-- what a successful encryptTicket returns -/
theorem encryptTicket_ok_inv (P : Primitives) (p : List Nat) (key : ticketKey)
    (rest : List ticketKey) (rand t : List Nat)
    (h : (encryptTicket P p (key :: rest) rand).1 = .ok t) :
    16 ≤ rand.length ∧
    t = rand.take 16 ++ XORKeyStream P key.aesKey (rand.take 16) p ++
      P.hmacSha256 key.hmacKey (rand.take 16 ++ XORKeyStream P key.aesKey (rand.take 16) p) := by
  unfold encryptTicket at h
  by_cases hr : 16 ≤ rand.length
  · refine ⟨hr, ?_⟩
    simp only [aesBlockSize, ioReadFull_ok rand 16 hr] at h
    by_cases hk : key.aesKey.length = 16 ∨ key.aesKey.length = 24 ∨ key.aesKey.length = 32
    · simp only [aesNewCipher, if_pos hk] at h
      exact (Except.ok.inj h).symm
    · simp only [aesNewCipher, if_neg hk] at h
      cases h
  · obtain ⟨err, this⟩ := ioReadFull_short rand aesBlockSize (by unfold aesBlockSize; omega)
    simp only [this] at h
    cases h

/-- Every entry of the menu less 120 is one of eight padding lengths. -/
theorem paddedSizes_get_mem (i : Fin paddedSizes.length) :
    paddedSizes.get i - initialSize ∈ [40, 56, 72, 88, 98, 104, 120, 135] := by
  revert i
  decide

/-! ## Further facts about the stages, the builder and the loops -/

/-- what the body reads, step by step, when it succeeds -/
theorem parseBody_inv (newCert : List Nat → Except String x509.Certificate) (h : wireHeader)
    (s : List Nat) (ss : sessionState) (r : List Nat)
    (hb : parseBody newCert h s = .ok (ss, r)) :
    ∃ cert s9 Extra peer chainList s10 chains handles alpn,
      unmarshalCertificate s = some (cert, s9) ∧
      extraLoop (h.extra.length + 1) h.extra [] = .ok Extra ∧
      (h.extMasterSecret = 0 ∨ h.extMasterSecret = 1) ∧
      (h.earlyData = 0 ∨ h.earlyData = 1) ∧
      peerCertificatesLoop newCert cert.Certificate [] = .ok peer ∧
      ReadUint24LengthPrefixed s9 = some (chainList, s10) ∧
      chainListLoop newCert peer (chainList.length + 1) chainList [] peer =
        .ok (chains, handles) ∧
      (if h.earlyData = 1 then readUint8LengthPrefixed s10 else some ([], s10)) =
        some (alpn, r) ∧
      ss = { Extra := Extra, EarlyData := decide (h.earlyData = 1), version := h.version,
             isClient := false, cipherSuite := h.cipherSuite, createdAt := h.createdAt,
             secret := h.secret, extMasterSecret := decide (h.extMasterSecret = 1),
             peerCertificates := peer, activeCertHandles := handles,
             ocspResponse := cert.OCSPStaple, scts := cert.SignedCertificateTimestamps,
             verifiedChains := chains, alpnProtocol := alpn, useBy := 0, ageAdd := 0 } := by
  unfold parseBody at hb
  by_cases ht : h.typ ≠ 1 ∧ h.typ ≠ 2
  · rw [if_pos ht] at hb; cases hb
  rw [if_neg ht] at hb
  by_cases hs : h.secret.length = 0
  · rw [if_pos hs] at hb; cases hb
  rw [if_neg hs] at hb
  rcases h9 : unmarshalCertificate s with _ | ⟨cert, s9⟩
  · rw [h9] at hb; cases hb
  rw [h9] at hb
  simp only at hb
  rcases h10 : extraLoop (h.extra.length + 1) h.extra [] with err | Extra
  · rw [h10] at hb; cases hb
  rw [h10] at hb
  simp only at hb
  by_cases hm : h.extMasterSecret ≠ 0 ∧ h.extMasterSecret ≠ 1
  · rw [if_pos hm] at hb; cases hb
  rw [if_neg hm] at hb
  by_cases he : h.earlyData ≠ 0 ∧ h.earlyData ≠ 1
  · rw [if_pos he] at hb; cases hb
  rw [if_neg he] at hb
  rcases h11 : peerCertificatesLoop newCert cert.Certificate [] with err | peer
  · rw [h11] at hb; cases hb
  rw [h11] at hb
  simp only at hb
  rcases h12 : ReadUint24LengthPrefixed s9 with _ | ⟨chainList, s10⟩
  · rw [h12] at hb; cases hb
  rw [h12] at hb
  simp only at hb
  rcases h13 : chainListLoop newCert peer (chainList.length + 1) chainList [] peer with
    err | ⟨chains, handles⟩
  · rw [h13] at hb; cases hb
  rw [h13] at hb
  simp only at hb
  rcases h14 : (if h.earlyData = 1 then readUint8LengthPrefixed s10 else some ([], s10)) with
    _ | ⟨alpn, s11⟩
  · rw [h14] at hb; cases hb
  rw [h14] at hb
  simp only at hb
  have hss := (Prod.mk.inj (Except.ok.inj hb)).1
  have hr := (Prod.mk.inj (Except.ok.inj hb)).2
  subst hr
  exact ⟨cert, s9, Extra, peer, chainList, s10, chains, handles, alpn, rfl, rfl, by omega,
    by omega, h11, h12, h13, h14, hss.symm⟩

/-- the end of a client-role record that is accepted: a peer certificate, and
either nothing left before TLS 1.3 or exactly the twelve bytes of useBy and
ageAdd from TLS 1.3 on -/
theorem parseTail_client (ss : sessionState) (r : List Nat) (x : sessionState)
    (h : parseTail 2 ss r = .ok x) :
    ss.peerCertificates ≠ [] ∧
    ((ss.version < VersionTLS13 ∧ r = [] ∧ x = { ss with isClient := true }) ∨
     (VersionTLS13 ≤ ss.version ∧ r.length = 12 ∧
       x = { ss with isClient := true, useBy := beValue (r.take 8),
                     ageAdd := beValue (r.drop 8) })) := by
  unfold parseTail at h
  rw [if_neg (by simp)] at h
  by_cases hp : ss.peerCertificates.length = 0
  · rw [if_pos hp] at h; cases h
  rw [if_neg hp] at h
  refine ⟨fun hnil => hp (by rw [hnil]; rfl), ?_⟩
  by_cases hv : ss.version < VersionTLS13
  · rw [if_pos hv] at h
    by_cases he : (!cryptobyte.Empty r) = true
    · rw [if_pos he] at h; cases h
    · rw [if_neg he] at h
      have hr : r = [] := by
        cases r with
        | nil => rfl
        | cons a tl => simp [cryptobyte.Empty] at he
      exact Or.inl ⟨hv, hr, (Except.ok.inj h).symm⟩
  · rw [if_neg hv] at h
    rcases h1 : ReadUint64 r with _ | ⟨useBy, s1⟩
    · rw [h1] at h; cases h
    rw [h1] at h
    simp only at h
    rcases h2 : ReadUint32 s1 with _ | ⟨ageAdd, s2⟩
    · rw [h2] at h; cases h
    rw [h2] at h
    simp only at h
    by_cases he : (!cryptobyte.Empty s2) = true
    · rw [if_pos he] at h; cases h
    · rw [if_neg he] at h
      have hs2 : s2 = [] := by
        cases s2 with
        | nil => rfl
        | cons a tl => simp [cryptobyte.Empty] at he
      obtain ⟨a1, a2, a3⟩ := readUnsigned_some 8 r useBy s1 h1
      obtain ⟨b1, b2, b3⟩ := readUnsigned_some 4 s1 ageAdd s2 h2
      have hl : s1.length = 4 := by
        have : (s1.drop 4).length = 0 := by rw [← b3, hs2]; rfl
        rw [List.length_drop] at this
        omega
      have hlr : r.length = 12 := by
        have : s1.length = r.length - 8 := by rw [a3, List.length_drop]
        omega
      have htake : s1.take 4 = s1 := List.take_of_length_le (by omega)
      refine Or.inr ⟨by omega, hlr, ?_⟩
      rw [← Except.ok.inj h, a2, b2, htake, a3]

/-- the end of a client-role TLS 1.3 record with a peer certificate and twelve
bytes left is accepted -/
theorem parseTail_client_tls13 (ss : sessionState) (r : List Nat)
    (hp : ss.peerCertificates ≠ []) (hv : VersionTLS13 ≤ ss.version) (hr : r.length = 12) :
    parseTail 2 ss r =
      .ok { ss with isClient := true, useBy := beValue (r.take 8),
                    ageAdd := beValue (r.drop 8) } := by
  unfold parseTail
  rw [if_neg (by simp)]
  have hp2 : ¬ ss.peerCertificates.length = 0 := by
    intro h0
    exact hp (List.length_eq_zero.1 h0)
  rw [if_neg hp2, if_neg (by omega)]
  have h1 : ReadUint64 r = some (beValue (r.take 8), r.drop 8) := by
    simp [ReadUint64, readUnsigned, cryptobyte.read, hr]
  rw [h1]
  simp only
  have h2 : ReadUint32 (r.drop 8) = some (beValue (r.drop 8), []) := by
    have hl : (r.drop 8).length = 4 := by rw [List.length_drop]; omega
    have ht : (r.drop 8).take 4 = r.drop 8 := List.take_of_length_le (by omega)
    have hd : (r.drop 8).drop 4 = [] := List.drop_of_length_le (by omega)
    unfold ReadUint32 readUnsigned cryptobyte.read
    rw [if_pos (by omega), ht, hd]
  rw [h2]
  rfl

/-- the peer certificate loop makes one certificate for each entry -/
theorem peerCertificatesLoop_length (newCert : List Nat → Except String x509.Certificate) :
    ∀ (l : List (List Nat)) (acc res : List x509.Certificate),
      peerCertificatesLoop newCert l acc = .ok res → res.length = acc.length + l.length := by
  intro l
  induction l with
  | nil =>
    intro acc res h
    simp only [peerCertificatesLoop] at h
    rw [← Except.ok.inj h]
    rfl
  | cons c rest ih =>
    intro acc res h
    rw [peerCertificatesLoop] at h
    rcases hc : newCert c with err | x
    · rw [hc] at h; cases h
    · rw [hc] at h
      have := ih _ _ h
      rw [this, List.length_append, List.length_cons]
      simp
      omega

/-- what the end of the record keeps of the state: all but the role, useBy and
ageAdd -/
theorem parseTail_fields (typ : Nat) (ss : sessionState) (r : List Nat) (x : sessionState)
    (h : parseTail typ ss r = .ok x) :
    ∃ c u a, x = { ss with isClient := c, useBy := u, ageAdd := a } := by
  by_cases ht : typ = 2
  · subst ht
    obtain ⟨_, h1 | h1⟩ := parseTail_client ss r x h
    · exact ⟨true, ss.useBy, ss.ageAdd, h1.2.2⟩
    · exact ⟨true, _, _, h1.2.2⟩
  · rw [parseTail_server typ ss r ht] at h
    split at h
    · exact ⟨ss.isClient, ss.useBy, ss.ageAdd, (Except.ok.inj h).symm⟩
    · cases h

/-- a result that is no value is an error -/
theorem Except_error_of_not_ok (r : Except String sessionState) (h : ∀ x, r ≠ .ok x) :
    ∃ err, r = .error err := by
  cases r with
  | error err => exact ⟨err, rfl⟩
  | ok x => exact absurd rfl (h x)

/-- a read takes the front of the string -/
theorem read_split (n : Nat) (s v r : List Nat) (h : cryptobyte.read n s = some (v, r)) :
    v.length = n ∧ s = v ++ r := by
  obtain ⟨h1, h2, h3⟩ := read_some n s v r h
  subst h2 h3
  exact ⟨by rw [List.length_take]; omega, (List.take_append_drop n s).symm⟩

/-- an integer read takes the bytes of the integer from the front -/
theorem readUnsigned_split (n : Nat) (s : List Nat) (v : Nat) (r : List Nat)
    (h : readUnsigned n s = some (v, r)) :
    ∃ pre, pre.length = n ∧ beValue pre = v ∧ s = pre ++ r := by
  obtain ⟨h1, h2, h3⟩ := readUnsigned_some n s v r h
  subst h2 h3
  exact ⟨s.take n, by rw [List.length_take]; omega, rfl, (List.take_append_drop n s).symm⟩

/-- a length-prefixed read takes the length and then the block from the front -/
theorem readLengthPrefixed_split (n : Nat) (s v r : List Nat)
    (h : readLengthPrefixed n s = some (v, r)) :
    ∃ pre, pre.length = n ∧ beValue pre = v.length ∧ s = pre ++ (v ++ r) := by
  unfold readLengthPrefixed at h
  rcases h1 : readUnsigned n s with _ | ⟨len, s1⟩
  · rw [h1] at h; cases h
  rw [h1] at h
  simp only at h
  obtain ⟨pre, hp1, hp2, hp3⟩ := readUnsigned_split n s len s1 h1
  obtain ⟨hv, hs1⟩ := read_split len s1 v r h
  exact ⟨pre, hp1, by rw [hp2, hv], by rw [hp3, hs1]⟩

/-- the 8-byte read takes 8 bytes from the front -/
theorem readUint64_split (s : List Nat) (v : Nat) (r : List Nat)
    (h : readUint64 s = some (v, r)) : ∃ pre, pre.length = 8 ∧ s = pre ++ r := by
  obtain ⟨h1, h2⟩ := readUint64_some s v r h
  subst h2
  exact ⟨s.take 8, by rw [List.length_take]; omega, (List.take_append_drop 8 s).symm⟩

/-- the two flag bytes are the last two bytes the header reads: they stand
behind the 17 bytes of the fixed fields and length fields, the secret and the
Extra blocks -/
theorem readHeader_split (data : List Nat) (h : wireHeader) (s : List Nat)
    (hh : readHeader data = some (h, s)) :
    ∃ front, front.length = 17 + h.secret.length + h.extra.length ∧
      data = front ++ h.extMasterSecret :: h.earlyData :: s := by
  unfold readHeader at hh
  rcases h1 : ReadUint16 data with _ | ⟨version, s1⟩
  · rw [h1] at hh; cases hh
  rw [h1] at hh
  simp only at hh
  rcases h2 : ReadUint8 s1 with _ | ⟨typ, s2⟩
  · rw [h2] at hh; cases hh
  rw [h2] at hh
  simp only at hh
  rcases h3 : ReadUint16 s2 with _ | ⟨cipherSuite, s3⟩
  · rw [h3] at hh; cases hh
  rw [h3] at hh
  simp only at hh
  rcases h4 : readUint64 s3 with _ | ⟨createdAt, s4⟩
  · rw [h4] at hh; cases hh
  rw [h4] at hh
  simp only at hh
  rcases h5 : readUint8LengthPrefixed s4 with _ | ⟨secret, s5⟩
  · rw [h5] at hh; cases hh
  rw [h5] at hh
  simp only at hh
  rcases h6 : ReadUint24LengthPrefixed s5 with _ | ⟨extra, s6⟩
  · rw [h6] at hh; cases hh
  rw [h6] at hh
  simp only at hh
  rcases h7 : ReadUint8 s6 with _ | ⟨ems, s7⟩
  · rw [h7] at hh; cases hh
  rw [h7] at hh
  simp only at hh
  rcases h8 : ReadUint8 s7 with _ | ⟨ed, s8⟩
  · rw [h8] at hh; cases hh
  rw [h8] at hh
  simp only at hh
  obtain ⟨p1, l1, _, e1⟩ := readUnsigned_split 2 data version s1 h1
  have e2 := readUnsigned_one s1 typ s2 h2
  obtain ⟨p3, l3, _, e3⟩ := readUnsigned_split 2 s2 cipherSuite s3 h3
  obtain ⟨p4, l4, e4⟩ := readUint64_split s3 createdAt s4 h4
  obtain ⟨p5, l5, _, e5⟩ := readLengthPrefixed_split 1 s4 secret s5 h5
  obtain ⟨p6, l6, _, e6⟩ := readLengthPrefixed_split 3 s5 extra s6 h6
  have e7 := readUnsigned_one s6 ems s7 h7
  have e8 := readUnsigned_one s7 ed s8 h8
  cases hh
  refine ⟨p1 ++ typ :: (p3 ++ (p4 ++ (p5 ++ (secret ++ (p6 ++ extra))))), ?_, ?_⟩
  · simp only [List.length_append, List.length_cons, l1, l3, l4, l5, l6]
    omega
  · rw [e1, e2, e3, e4, e5, e6, e7, e8]
    simp

/-- a flag byte that is neither 0 nor 1 makes the body fail -/
theorem parseBody_flags (newCert : List Nat → Except String x509.Certificate) (h : wireHeader)
    (s : List Nat)
    (hf : (h.extMasterSecret ≠ 0 ∧ h.extMasterSecret ≠ 1) ∨
      (h.earlyData ≠ 0 ∧ h.earlyData ≠ 1)) :
    parseBody newCert h s = .error invalidSessionEncoding := by
  unfold parseBody
  by_cases ht : h.typ ≠ 1 ∧ h.typ ≠ 2
  · rw [if_pos ht]
  rw [if_neg ht]
  by_cases hs : h.secret.length = 0
  · rw [if_pos hs]
  rw [if_neg hs]
  rcases h9 : unmarshalCertificate s with _ | ⟨cert, s9⟩
  · rfl
  simp only
  rcases h10 : extraLoop (h.extra.length + 1) h.extra [] with err | Extra
  · simp only
    rw [extraLoop_error _ _ _ _ h10]
  simp only
  by_cases hm : h.extMasterSecret ≠ 0 ∧ h.extMasterSecret ≠ 1
  · rw [if_pos hm]
  rw [if_neg hm]
  have he : h.earlyData ≠ 0 ∧ h.earlyData ≠ 1 := by
    rcases hf with hf | hf
    · exact absurd hf hm
    · exact hf
  rw [if_pos he]

/-- a header and a body that fails: ParseSessionState fails the same way -/
theorem parseStaged_error (newCert : List Nat → Except String x509.Certificate)
    (data : List Nat) (h : wireHeader) (s : List Nat) (err : String)
    (hh : readHeader data = some (h, s)) (hb : parseBody newCert h s = .error err) :
    ParseSessionState newCert data = .error err := by
  rw [ParseSessionState_eq_parseStaged]
  unfold parseStaged
  rw [hh]
  simp only
  rw [hb]

/-- among the keys up to one that matches, a first one matches -/
theorem first_match_split (p : ticketKey → Prop) : ∀ (keys : List ticketKey) (i : Nat)
    (ki : ticketKey), keys[i]? = some ki → p ki →
    ∃ pre k post, keys = pre ++ k :: post ∧ pre.length ≤ i ∧ (∀ k2 ∈ pre, ¬ p k2) ∧ p k := by
  intro keys
  induction keys with
  | nil => intro i ki h _; simp at h
  | cons a rest ih =>
    intro i ki h hp
    by_cases ha : p a
    · exact ⟨[], a, rest, rfl, Nat.zero_le _, by simp, ha⟩
    · cases i with
      | zero =>
        simp at h
        subst h
        exact absurd hp ha
      | succ i =>
        rw [List.getElem?_cons_succ] at h
        obtain ⟨pre, k, post, he, hl, hn, hk⟩ := ih i ki h hp
        refine ⟨a :: pre, k, post, by rw [he]; rfl, by simp; omega, ?_, hk⟩
        intro k2 hk2
        rcases List.mem_cons.1 hk2 with rfl | hin
        · exact ha
        · exact hn k2 hin

/-- a piece that fails makes the builder fail -/
theorem andThen_error_right (a b : Except String (List Nat)) (h : ∃ err, b = .error err) :
    ∃ err, andThen a b = .error err := by
  obtain ⟨err, rfl⟩ := h
  cases a with
  | error e => exact ⟨e, rfl⟩
  | ok x => exact ⟨err, rfl⟩

/-- a first piece that fails makes the builder fail -/
theorem andThen_error_left (a b : Except String (List Nat)) (h : ∃ err, a = .error err) :
    ∃ err, andThen a b = .error err := by
  obtain ⟨err, rfl⟩ := h
  exact ⟨err, rfl⟩

/-- a child that fails makes the length-prefixed block fail -/
theorem addLengthPrefixed_error (n : Nat) (child : Except String (List Nat))
    (h : ∃ err, child = .error err) : ∃ err, addLengthPrefixed n child = .error err := by
  obtain ⟨err, rfl⟩ := h
  exact ⟨err, rfl⟩

/-- an empty chain makes the chain loop fail -/
theorem marshalChains_error (chains : List (List x509.Certificate)) (h : [] ∈ chains) :
    ∃ err, marshalChains chains = .error err := by
  induction chains with
  | nil => cases h
  | cons c rest ih =>
    rw [marshalChains]
    rcases List.mem_cons.1 h with hc | hin
    · subst hc
      exact andThen_error_left _ _ ⟨_, rfl⟩
    · exact andThen_error_right _ _ (ih hin)

/-- the peer certificate loop decodes the entries one for one -/
theorem peerCertificatesLoop_decoded (newCert : List Nat → Except String x509.Certificate) :
    ∀ (l : List (List Nat)) (acc res : List x509.Certificate),
      peerCertificatesLoop newCert l acc = .ok res →
      ∃ cs, decodedFrom newCert l cs ∧ res = acc ++ cs := by
  intro l
  induction l with
  | nil =>
    intro acc res h
    simp only [peerCertificatesLoop] at h
    exact ⟨[], List.Forall₂.nil, by rw [← Except.ok.inj h]; simp⟩
  | cons c rest ih =>
    intro acc res h
    rw [peerCertificatesLoop] at h
    rcases hc : newCert c with err | x
    · rw [hc] at h; cases h
    · rw [hc] at h
      obtain ⟨cs, hcs, hres⟩ := ih _ _ h
      exact ⟨x :: cs, List.Forall₂.cons hc hcs, by rw [hres]; simp⟩

/-- the inner chain loop decodes the certificates of the block one for one and
adds them to the chain and to the handles -/
theorem chainCertLoop_decoded (newCert : List Nat → Except String x509.Certificate)
    (fuel : Nat) : ∀ (certList : List Nat) (chain handles chain2 handles2 : List x509.Certificate),
      chainCertLoop newCert fuel certList chain handles = .ok (chain2, handles2) →
      ∃ raws cs, lengthPrefixedBlocks 3 raws certList ∧ decodedFrom newCert raws cs ∧
        chain2 = chain ++ cs ∧ handles2 = handles ++ cs := by
  induction fuel with
  | zero =>
    intro certList chain handles chain2 handles2 h
    simp only [chainCertLoop] at h
    cases h
  | succ fuel ih =>
    intro certList chain handles chain2 handles2 h
    rw [chainCertLoop] at h
    by_cases hE : cryptobyte.Empty certList = true
    · rw [if_pos hE] at h
      have hnil : certList = [] := by
        cases certList with
        | nil => rfl
        | cons a tl => simp [cryptobyte.Empty] at hE
      have h1 := (Prod.mk.inj (Except.ok.inj h)).1
      have h2 := (Prod.mk.inj (Except.ok.inj h)).2
      exact ⟨[], [], by rw [hnil]; rfl, List.Forall₂.nil, by rw [← h1]; simp,
        by rw [← h2]; simp⟩
    · rw [if_neg hE] at h
      rcases hr : readUint24LengthPrefixed certList with _ | ⟨cert, rest⟩
      · rw [hr] at h; cases h
      rw [hr] at h
      simp only at h
      rcases hc : newCert cert with err | c
      · rw [hc] at h; cases h
      rw [hc] at h
      simp only at h
      obtain ⟨raws, cs, hw, hd, e1, e2⟩ := ih _ _ _ _ _ h
      obtain ⟨pre, hp1, hp2, hp3⟩ := readLengthPrefixed_split 3 certList cert rest hr
      exact ⟨cert :: raws, c :: cs, ⟨pre, rest, hp1, hp2, hp3, hw⟩, List.Forall₂.cons hc hd,
        by rw [e1]; simp, by rw [e2]; simp⟩

/-- the chain loop makes one chain for each block of the chain list: the peer
leaf, then the certificates decoded from the block; the handles grow by the
decoded certificates only -/
theorem chainListLoop_decoded (newCert : List Nat → Except String x509.Certificate)
    (peer : List x509.Certificate) (fuel : Nat) :
    ∀ (chainList : List Nat) (acc : List (List x509.Certificate))
      (handles : List x509.Certificate) (chains : List (List x509.Certificate))
      (handles2 : List x509.Certificate),
      chainListLoop newCert peer fuel chainList acc handles = .ok (chains, handles2) →
      ∃ wire new, chainsOnWire chainList wire ∧
        List.Forall₂ (fun raws chain => ∃ leaf tail, peer.head? = some leaf ∧
          chain = leaf :: tail ∧ decodedFrom newCert raws tail) wire new ∧
        chains = acc ++ new ∧ handles2 = handles ++ (new.map List.tail).flatten := by
  induction fuel with
  | zero =>
    intro chainList acc handles chains handles2 h
    simp only [chainListLoop] at h
    cases h
  | succ fuel ih =>
    intro chainList acc handles chains handles2 h
    rw [chainListLoop] at h
    by_cases hE : cryptobyte.Empty chainList = true
    · rw [if_pos hE] at h
      have hnil : chainList = [] := by
        cases chainList with
        | nil => rfl
        | cons a tl => simp [cryptobyte.Empty] at hE
      have h1 := (Prod.mk.inj (Except.ok.inj h)).1
      have h2 := (Prod.mk.inj (Except.ok.inj h)).2
      exact ⟨[], [], ⟨[], by rw [hnil]; rfl, List.Forall₂.nil⟩, List.Forall₂.nil,
        by rw [← h1]; simp, by rw [← h2]; simp⟩
    · rw [if_neg hE] at h
      rcases hr : ReadUint24LengthPrefixed chainList with _ | ⟨certList, rest⟩
      · rw [hr] at h; cases h
      rw [hr] at h
      simp only at h
      cases peer with
      | nil => cases h
      | cons leaf others =>
        simp only at h
        rcases hc : chainCertLoop newCert (certList.length + 1) certList [leaf] handles with
          err | ⟨chain, hs⟩
        · rw [hc] at h; cases h
        rw [hc] at h
        simp only at h
        obtain ⟨wire, new, ⟨blocks, hb1, hb2⟩, hf, e1, e2⟩ := ih _ _ _ _ _ h
        obtain ⟨raws, cs, hw, hd, c1, c2⟩ := chainCertLoop_decoded newCert _ _ _ _ _ _ hc
        obtain ⟨pre, hp1, hp2, hp3⟩ := readLengthPrefixed_split 3 chainList certList rest hr
        refine ⟨raws :: wire, chain :: new,
          ⟨certList :: blocks, ⟨pre, rest, hp1, hp2, hp3, hb1⟩, List.Forall₂.cons hw hb2⟩,
          List.Forall₂.cons ⟨leaf, cs, rfl, by rw [c1]; rfl, hd⟩ hf, by rw [e1]; simp, ?_⟩
        rw [e2, c2, c1]
        simp

/-- a member of the second of two lists related one for one has a partner in
the first -/
theorem forall2_mem_right {α β : Type} (R : α → β → Prop) (l1 : List α) (l2 : List β)
    (h : List.Forall₂ R l1 l2) (b : β) (hb : b ∈ l2) : ∃ a, a ∈ l1 ∧ R a b := by
  induction h with
  | nil => cases hb
  | cons hab _ ih =>
    rcases List.mem_cons.1 hb with rfl | hin
    · exact ⟨_, List.mem_cons_self _ _, hab⟩
    · obtain ⟨a, ha, hr⟩ := ih hin
      exact ⟨a, List.mem_cons_of_mem _ ha, hr⟩

/-- the flag and role bytes the builder writes -/
theorem builder_pieces (s : sessionState) (b : List Nat) (hb : s.builder = .ok b) :
    ∃ sec ex certs chains alpnField tail,
      AddUint8LengthPrefixed (.ok s.secret) = .ok sec ∧
      AddUint24LengthPrefixed (marshalExtra s.Extra) = .ok ex ∧
      marshalCertificate
        { Certificate := certificatesToBytesSlice s.peerCertificates,
          OCSPStaple := s.ocspResponse,
          SignedCertificateTimestamps := s.scts } = .ok certs ∧
      AddUint24LengthPrefixed (marshalChains s.verifiedChains) = .ok chains ∧
      (if s.EarlyData then AddUint8LengthPrefixed (.ok s.alpnProtocol) else .ok []) =
        .ok alpnField ∧
      (if s.isClient then
        (if s.version ≥ VersionTLS13 then .ok (addUint64 s.useBy ++ AddUint32 s.ageAdd)
         else .ok [])
       else (.ok [] : Except String (List Nat))) = .ok tail ∧
      b = AddUint16 s.version ++ ((if s.isClient then AddUint8 2 else AddUint8 1) ++
        (AddUint16 s.cipherSuite ++ (addUint64 s.createdAt ++ (sec ++ (ex ++
        ((if s.extMasterSecret then AddUint8 1 else AddUint8 0) ++
        ((if s.EarlyData then AddUint8 1 else AddUint8 0) ++
        (certs ++ (chains ++ (alpnField ++ tail)))))))))) := by
  unfold sessionState.builder at hb
  obtain ⟨x1, r1, h1, hr1, rfl⟩ := andThen_ok _ _ _ hb
  obtain ⟨x2, r2, h2, hr2, rfl⟩ := andThen_ok _ _ _ hr1
  obtain ⟨x3, r3, h3, hr3, rfl⟩ := andThen_ok _ _ _ hr2
  obtain ⟨x4, r4, h4, hr4, rfl⟩ := andThen_ok _ _ _ hr3
  obtain ⟨x5, r5, h5, hr5, rfl⟩ := andThen_ok _ _ _ hr4
  obtain ⟨x6, r6, h6, hr6, rfl⟩ := andThen_ok _ _ _ hr5
  obtain ⟨x7, r7, h7, hr7, rfl⟩ := andThen_ok _ _ _ hr6
  obtain ⟨x8, r8, h8, hr8, rfl⟩ := andThen_ok _ _ _ hr7
  obtain ⟨x9, r9, h9, hr9, rfl⟩ := andThen_ok _ _ _ hr8
  obtain ⟨x10, r10, h10, hr10, rfl⟩ := andThen_ok _ _ _ hr9
  obtain ⟨x11, x12, h11, h12, rfl⟩ := andThen_ok _ _ _ hr10
  cases h1; cases h2; cases h3; cases h4; cases h7; cases h8
  exact ⟨x5, x6, x9, x10, x11, x12, h5, h6, h9, h10, h11, h12, rfl⟩

/-- the builder from its pieces -/
theorem builder_of_pieces (s : sessionState) (sec ex certs chains alpnField tail : List Nat)
    (h5 : AddUint8LengthPrefixed (.ok s.secret) = .ok sec)
    (h6 : AddUint24LengthPrefixed (marshalExtra s.Extra) = .ok ex)
    (h9 : marshalCertificate
        { Certificate := certificatesToBytesSlice s.peerCertificates,
          OCSPStaple := s.ocspResponse,
          SignedCertificateTimestamps := s.scts } = .ok certs)
    (h10 : AddUint24LengthPrefixed (marshalChains s.verifiedChains) = .ok chains)
    (h11 : (if s.EarlyData then AddUint8LengthPrefixed (.ok s.alpnProtocol) else .ok []) =
        .ok alpnField)
    (h12 : (if s.isClient then
        (if s.version ≥ VersionTLS13 then .ok (addUint64 s.useBy ++ AddUint32 s.ageAdd)
         else .ok [])
       else (.ok [] : Except String (List Nat))) = .ok tail) :
    s.builder =
      .ok (AddUint16 s.version ++ ((if s.isClient then AddUint8 2 else AddUint8 1) ++
        (AddUint16 s.cipherSuite ++ (addUint64 s.createdAt ++ (sec ++ (ex ++
        ((if s.extMasterSecret then AddUint8 1 else AddUint8 0) ++
        ((if s.EarlyData then AddUint8 1 else AddUint8 0) ++
        (certs ++ (chains ++ (alpnField ++ tail))))))))))) := by
  unfold sessionState.builder
  rw [h5, h6, h9, h10, h11, h12]
  rfl

/-- an integer read of the bytes in front -/
theorem readUnsigned_append (n : Nat) (pre rest : List Nat) (h : pre.length = n) :
    readUnsigned n (pre ++ rest) = some (beValue pre, rest) := by
  unfold readUnsigned
  rw [read_append_of_length n pre rest h]

/-- the 8-byte read of the 8 bytes in front -/
theorem readUint64_append (pre rest : List Nat) (h : pre.length = 8) :
    ∃ v, readUint64 (pre ++ rest) = some (v, rest) := by
  have hsplit : pre = pre.take 4 ++ pre.drop 4 := (List.take_append_drop 4 pre).symm
  have h1 : (pre.take 4).length = 4 := by rw [List.length_take]; omega
  have h2 : (pre.drop 4).length = 4 := by rw [List.length_drop]; omega
  refine ⟨beValue (pre.take 4) * 2 ^ 32 + beValue (pre.drop 4), ?_⟩
  unfold readUint64
  rw [hsplit, List.append_assoc,
    show ReadUint32 (pre.take 4 ++ (pre.drop 4 ++ rest)) =
      some (beValue (pre.take 4), pre.drop 4 ++ rest) from readUnsigned_append 4 _ _ h1]
  simp only
  rw [show ReadUint32 (pre.drop 4 ++ rest) = some (beValue (pre.drop 4), rest) from
    readUnsigned_append 4 _ _ h2]
  simp

/-- the certificate block is one 3-byte-length-prefixed block -/
theorem unmarshalCertificate_rest (s : List Nat) (c : Certificate) (r : List Nat)
    (h : unmarshalCertificate s = some (c, r)) :
    ∃ certList, ReadUint24LengthPrefixed s = some (certList, r) := by
  unfold unmarshalCertificate at h
  rcases h1 : ReadUint24LengthPrefixed s with _ | ⟨certList, s1⟩
  · rw [h1] at h; cases h
  rw [h1] at h
  simp only at h
  rcases h2 : certListLoop (certList.length + 1) certList
      { Certificate := [], OCSPStaple := none, SignedCertificateTimestamps := none } with
    _ | cert
  · rw [h2] at h; cases h
  · rw [h2] at h
    cases h
    exact ⟨certList, rfl⟩

/-- the opening fields of an unpadded encoding are read back up to the
certificate block: the role byte, the version and the early-data flag are
those of the state -/
theorem readHeader_builder (s : sessionState) (sec ex body : List Nat)
    (hv : s.version < 2 ^ 16)
    (h5 : AddUint8LengthPrefixed (.ok s.secret) = .ok sec)
    (h6 : AddUint24LengthPrefixed (marshalExtra s.Extra) = .ok ex) :
    ∃ h, readHeader (AddUint16 s.version ++ ((if s.isClient then AddUint8 2 else AddUint8 1) ++
        (AddUint16 s.cipherSuite ++ (addUint64 s.createdAt ++ (sec ++ (ex ++
        ((if s.extMasterSecret then AddUint8 1 else AddUint8 0) ++
        ((if s.EarlyData then AddUint8 1 else AddUint8 0) ++ body)))))))) = some (h, body) ∧
      h.version = s.version ∧ h.typ = (if s.isClient then 2 else 1) ∧
      h.earlyData = (if s.EarlyData then 1 else 0) := by
  obtain ⟨c5, hc5, hl5, rfl⟩ := addLengthPrefixed_ok 1 _ _ h5
  cases hc5
  obtain ⟨c6, hc6, hl6, rfl⟩ := addLengthPrefixed_ok 3 _ _ h6
  obtain ⟨createdAt, h4⟩ := readUint64_append (addUint64 s.createdAt)
    ((bigEndian 1 s.secret.length ++ s.secret) ++ ((bigEndian 3 c6.length ++ c6) ++
        ((if s.extMasterSecret then AddUint8 1 else AddUint8 0) ++
        ((if s.EarlyData then AddUint8 1 else AddUint8 0) ++ body)))) (bigEndian_length 8 _)
  refine ⟨{ version := s.version, typ := if s.isClient then 2 else 1,
            cipherSuite := beValue (AddUint16 s.cipherSuite), createdAt := createdAt,
            secret := s.secret, extra := c6,
            extMasterSecret := if s.extMasterSecret then 1 else 0,
            earlyData := if s.EarlyData then 1 else 0 }, ?_, rfl, rfl, rfl⟩
  unfold readHeader
  rw [ReadUint16_AddUint16 s.version _ (by simpa using hv)]
  simp only
  have h2 : ReadUint8 ((if s.isClient then AddUint8 2 else AddUint8 1) ++
      (AddUint16 s.cipherSuite ++ (addUint64 s.createdAt ++
        ((bigEndian 1 s.secret.length ++ s.secret) ++ ((bigEndian 3 c6.length ++ c6) ++
        ((if s.extMasterSecret then AddUint8 1 else AddUint8 0) ++
        ((if s.EarlyData then AddUint8 1 else AddUint8 0) ++ body))))))) =
      some ((if s.isClient then 2 else 1),
        AddUint16 s.cipherSuite ++ (addUint64 s.createdAt ++
        ((bigEndian 1 s.secret.length ++ s.secret) ++ ((bigEndian 3 c6.length ++ c6) ++
        ((if s.extMasterSecret then AddUint8 1 else AddUint8 0) ++
        ((if s.EarlyData then AddUint8 1 else AddUint8 0) ++ body)))))) := by
    cases s.isClient
    · exact ReadUint8_AddUint8 1 _ (by decide)
    · exact ReadUint8_AddUint8 2 _ (by decide)
  rw [h2]
  simp only
  rw [show ReadUint16 (AddUint16 s.cipherSuite ++ (addUint64 s.createdAt ++
        ((bigEndian 1 s.secret.length ++ s.secret) ++ ((bigEndian 3 c6.length ++ c6) ++
        ((if s.extMasterSecret then AddUint8 1 else AddUint8 0) ++
        ((if s.EarlyData then AddUint8 1 else AddUint8 0) ++ body)))))) =
      some (beValue (AddUint16 s.cipherSuite), _) from
    readUnsigned_append 2 _ _ (bigEndian_length 2 _)]
  simp only
  rw [h4]
  simp only
  rw [show readUint8LengthPrefixed ((bigEndian 1 s.secret.length ++ s.secret) ++
        ((bigEndian 3 c6.length ++ c6) ++
        ((if s.extMasterSecret then AddUint8 1 else AddUint8 0) ++
        ((if s.EarlyData then AddUint8 1 else AddUint8 0) ++ body)))) = some (s.secret, _) from
    readLengthPrefixed_append 1 s.secret _ hl5]
  simp only
  rw [show ReadUint24LengthPrefixed ((bigEndian 3 c6.length ++ c6) ++
        ((if s.extMasterSecret then AddUint8 1 else AddUint8 0) ++
        ((if s.EarlyData then AddUint8 1 else AddUint8 0) ++ body))) = some (c6, _) from
    readLengthPrefixed_append 3 c6 _ hl6]
  simp only
  have h7 : ReadUint8 ((if s.extMasterSecret then AddUint8 1 else AddUint8 0) ++
        ((if s.EarlyData then AddUint8 1 else AddUint8 0) ++ body)) =
      some ((if s.extMasterSecret then 1 else 0),
        (if s.EarlyData then AddUint8 1 else AddUint8 0) ++ body) := by
    cases s.extMasterSecret
    · exact ReadUint8_AddUint8 0 _ (by decide)
    · exact ReadUint8_AddUint8 1 _ (by decide)
  rw [h7]
  simp only
  have h8 : ReadUint8 ((if s.EarlyData then AddUint8 1 else AddUint8 0) ++ body) =
      some ((if s.EarlyData then 1 else 0), body) := by
    cases s.EarlyData
    · exact ReadUint8_AddUint8 0 _ (by decide)
    · exact ReadUint8_AddUint8 1 _ (by decide)
  rw [h8]

/-- in an unpadded encoding the body leaves exactly the bytes written after
the ALPN field -/
theorem parseBody_builder_rest (newCert : List Nat → Except String x509.Certificate)
    (s : sessionState) (h : wireHeader) (certs chains alpnField tail : List Nat)
    (ss : sessionState) (r : List Nat)
    (hed : h.earlyData = (if s.EarlyData then 1 else 0))
    (h9 : marshalCertificate
        { Certificate := certificatesToBytesSlice s.peerCertificates,
          OCSPStaple := s.ocspResponse,
          SignedCertificateTimestamps := s.scts } = .ok certs)
    (h10 : AddUint24LengthPrefixed (marshalChains s.verifiedChains) = .ok chains)
    (h11 : (if s.EarlyData then AddUint8LengthPrefixed (.ok s.alpnProtocol) else .ok []) =
        .ok alpnField)
    (hb : parseBody newCert h (certs ++ (chains ++ (alpnField ++ tail))) = .ok (ss, r)) :
    r = tail := by
  obtain ⟨cert, s9, Extra, peer, chainList, s10, chs, handles, alpn, hc, _, _, _, _, hl, _,
    ha, _⟩ := parseBody_inv newCert h _ ss r hb
  obtain ⟨c9, _, hl9, rfl⟩ := addLengthPrefixed_ok 3 _ _ h9
  obtain ⟨c10, _, hl10, rfl⟩ := addLengthPrefixed_ok 3 _ _ h10
  obtain ⟨certList, hcl⟩ := unmarshalCertificate_rest _ _ _ hc
  rw [show ReadUint24LengthPrefixed ((bigEndian 3 c9.length ++ c9) ++
      ((bigEndian 3 c10.length ++ c10) ++ (alpnField ++ tail))) = some (c9, _) from
    readLengthPrefixed_append 3 c9 _ hl9] at hcl
  have hs9 := (Prod.mk.inj (Option.some.inj hcl)).2
  rw [← hs9, show ReadUint24LengthPrefixed ((bigEndian 3 c10.length ++ c10) ++
      (alpnField ++ tail)) = some (c10, _) from readLengthPrefixed_append 3 c10 _ hl10] at hl
  have hs10 := (Prod.mk.inj (Option.some.inj hl)).2
  rw [← hs10, hed] at ha
  cases hE : s.EarlyData with
  | false =>
    rw [hE] at ha h11
    simp only [Bool.false_eq_true, if_false] at ha h11
    cases h11
    have := (Prod.mk.inj (Option.some.inj ha)).2
    simpa using this.symm
  | true =>
    rw [hE] at ha h11
    simp only [if_true] at ha h11
    obtain ⟨c11, hc11, hl11, rfl⟩ := addLengthPrefixed_ok 1 _ _ h11
    cases hc11
    rw [show readUint8LengthPrefixed ((bigEndian 1 s.alpnProtocol.length ++ s.alpnProtocol) ++
      tail) = some (s.alpnProtocol, tail) from readLengthPrefixed_append 1 _ _ hl11] at ha
    exact ((Prod.mk.inj (Option.some.inj ha)).2).symm

/-! ### The CTR mode byte by byte, and the length of the forged ticket -/

/-- byte `i` of the output of XORKeyStream is byte `i` of the input XOR byte
`k + i` of the keystream -/
theorem xorKeyStreamFrom_get (ks : Nat → Nat) : ∀ (l : List Nat) (k i : Nat),
    (xorKeyStreamFrom ks k l)[i]? = (l[i]?).map (fun b => b ^^^ ks (k + i)) := by
  intro l
  induction l with
  | nil => intro k i; simp [xorKeyStreamFrom]
  | cons b rest ih =>
    intro k i
    cases i with
    | zero => simp [xorKeyStreamFrom]
    | succ i =>
      simp only [xorKeyStreamFrom, List.getElem?_cons_succ]
      rw [ih (k + 1) i]
      congr 2
      funext b
      congr 2
      omega

/-- byte `i` of the ciphertext of the CTR mode is byte `i` of the plaintext
XOR byte `i` of the keystream of the key and the IV -/
theorem XORKeyStream_get (P : Primitives) (block iv src : List Nat) (i : Nat) :
    (XORKeyStream P block iv src)[i]? =
      (src[i]?).map (fun b => b ^^^ P.aesCtrKeyStream block iv i) := by
  unfold XORKeyStream
  rw [xorKeyStreamFrom_get]
  simp

/-- The state that NewObfuscatedClientSessionState forges is encoded, without
padding, in 73 bytes. -/
theorem obfuscatedServerState_builder_length (ms : List Nat) (h : ms.length = 48) :
    ∃ b, (obfuscatedServerState ms).builder = .ok b ∧ b.length = 73 := by
  have hb := builder_of_pieces (obfuscatedServerState ms) (bigEndian 1 ms.length ++ ms)
    [0, 0, 0] [0, 0, 0] [0, 0, 0] [] []
    (by simp [obfuscatedServerState, sessionState.zero, AddUint8LengthPrefixed,
      addLengthPrefixed, h])
    rfl rfl rfl rfl rfl
  refine ⟨_, hb, ?_⟩
  simp [obfuscatedServerState, sessionState.zero, AddUint16, AddUint8, addUint64, AddUint64,
    bigEndian_length, h]

/-- With the padding on, the ticket that NewObfuscatedClientSessionState returns
has one byte more than the value of the menu that was drawn, for every shared
secret and every draw: 161, 177, 193, 209, 219, 225, 241 or 256 bytes. -/
theorem forged_ticket_length (P : Primitives) (sharedSecret : List Nat) (draw : PaddingDraw)
    (rand : List Nat) (hrand : 64 ≤ rand.length) :
    ∃ cs, NewObfuscatedClientSessionState P sharedSecret true draw rand = .ok cs ∧
      cs.SessionTicket.length = paddedSizes.get draw.index + 1 ∧
      cs.SessionTicket.length ∈ [161, 177, 193, 209, 219, 225, 241, 256] ∧
      cs.SessionTicket.length ∉ paddedSizes := by
  obtain ⟨ssBytes, hB, hN⟩ := NewObfuscatedClientSessionState_ok P sharedSecret true draw rand
    hrand
  have h48 : (rand.take 48).length = 48 := by simp; omega
  have hiv : ((rand.drop 48).take 16).length = 16 := by simp; omega
  obtain ⟨b, hb, hbl⟩ := obfuscatedServerState_builder_length (rand.take 48) h48
  rw [Bytes_of_builder _ true draw b hb] at hB
  have hss : ssBytes.length = 73 + (paddedSizes.get draw.index - 120) := by
    rw [← Except.ok.inj hB, if_pos rfl, List.length_append, List.length_replicate, hbl]
    rfl
  have hlen : (((rand.drop 48).take 16 ++
      XORKeyStream P (P.ticketKeyFromBytes sharedSecret).aesKey ((rand.drop 48).take 16)
        ssBytes) ++
      P.hmacSha256 (P.ticketKeyFromBytes sharedSecret).hmacKey
        (authenticatedBytes P (P.ticketKeyFromBytes sharedSecret) ((rand.drop 48).take 16)
          ssBytes)).length = paddedSizes.get draw.index + 1 := by
    rw [List.length_append, List.length_append, hiv, XORKeyStream_length, P.hmacSha256_size, hss]
    have hge : 120 ≤ paddedSizes.get draw.index := by
      generalize draw.index = i
      revert i
      decide
    omega
  refine ⟨_, hN, hlen, ?_, ?_⟩
  · simp only at hlen ⊢
    rw [hlen]
    generalize draw.index = i
    revert i
    decide
  · simp only at hlen ⊢
    rw [hlen]
    generalize draw.index = i
    revert i
    decide

/-! ## The claims -/

/-- C1 (amended). For every valid session state `s` that is server-role, or
client-role with at least one peer certificate and encoded without the
obfuscation padding, whenever `s.Bytes()` returns an encoding,
ParseSessionState of that encoding succeeds and returns a state equal to `s`
in version, role, cipher suite, createdAt, secret, Extra, extMasterSecret,
EarlyData, certificates, OCSP staple, SCTs, verified chains, ALPN, useBy and
ageAdd; its activeCertHandles are the handles made while parsing. -/
theorem C1_roundtrip (newCert : List Nat → Except String x509.Certificate) (s : sessionState)
    (obfuscateSessionTickets : Bool) (draw : PaddingDraw) (e : List Nat)
    (hv : s.Valid newCert)
    (hrole : s.isClient = true → s.peerCertificates ≠ [] ∧ obfuscateSessionTickets = false)
    (he : s.Bytes obfuscateSessionTickets draw = .ok e) :
    ParseSessionState newCert e = .ok { s with activeCertHandles := s.parsedHandles } :=
  ParseSessionState_Bytes newCert s obfuscateSessionTickets draw e hv hrole he

/-- C1, witness: the server-role example session, padded after a failed secure
draw, and the client-role example session, not padded, parse back to
themselves. -/
theorem C1_roundtrip_witness :
    (toyServerState.Valid toyNewCert ∧
      (toyServerState.isClient = true →
        toyServerState.peerCertificates ≠ [] ∧ true = false) ∧
      ∃ e, toyServerState.Bytes true toyFallbackDraw = .ok e ∧
        ParseSessionState toyNewCert e =
          .ok { toyServerState with activeCertHandles := toyServerState.parsedHandles }) ∧
    (toyClientState.Valid toyNewCert ∧
      (toyClientState.isClient = true →
        toyClientState.peerCertificates ≠ [] ∧ false = false) ∧
      ∃ e, toyClientState.Bytes false toyDraw = .ok e ∧
        ParseSessionState toyNewCert e =
          .ok { toyClientState with activeCertHandles := toyClientState.parsedHandles }) :=
  ⟨⟨toyServerState_valid, by decide, _, rfl,
      C1_roundtrip toyNewCert toyServerState true toyFallbackDraw _ toyServerState_valid
        (by decide) rfl⟩,
    ⟨toyClientState_valid, by decide, _, rfl,
      C1_roundtrip toyNewCert toyClientState false toyDraw _ toyClientState_valid
        (by decide) rfl⟩⟩

/-- C1, counterexample: a valid client-role session without peer certificates is
encoded by Bytes, with the padding and without it, and ParseSessionState
rejects the encoding. -/
theorem C1_client_without_certificates :
    toyClientNoCertState.Valid toyNewCert ∧
    (∃ e, toyClientNoCertState.Bytes false toyDraw = .ok e ∧
      ParseSessionState toyNewCert e =
        .error "tls: no server certificates in client session") ∧
    (∃ e, toyClientNoCertState.Bytes true toyDraw = .ok e ∧
      ParseSessionState toyNewCert e =
        .error "tls: no server certificates in client session") :=
  ⟨toyClientNoCertState_valid, ⟨_, rfl, rfl⟩, ⟨_, rfl, rfl⟩⟩

/-- C2. For every plaintext `p`, every non-empty list of ticket keys (AES keys of
16 bytes) and every reader that delivers 16 bytes for the IV, encryptTicket
returns a ticket that starts with that IV and that decryptTicket, with the
same key list, turns back into exactly `p`. -/
theorem C2_decrypt_encrypt (P : Primitives) (p : List Nat) (keys : List ticketKey) (rand : List Nat)
    (hkeys : keys ≠ []) (haes : ∀ k ∈ keys, k.aesKey.length = 16)
    (hrand : 16 ≤ rand.length) :
    ∃ t, (encryptTicket P p keys rand).1 = .ok t ∧ t.take 16 = rand.take 16 ∧
      decryptTicket P t keys = some p := by
  cases keys with
  | nil => exact absurd rfl hkeys
  | cons key rest =>
    have hk : key.aesKey.length = 16 := haes key (List.mem_cons_self _ _)
    refine ⟨_, encryptTicket_fst P p key rest rand hk hrand, ?_, ?_⟩
    · rw [List.append_assoc]
      exact List.take_left' (take16_length rand hrand)
    · rw [decryptTicket_parts P _ _ _ _ (take16_length rand hrand) (P.hmacSha256_size _ _)]
      have := decryptTicketKeys_first P (rand.take 16) (XORKeyStream P key.aesKey (rand.take 16) p)
        (rand.take 16 ++ XORKeyStream P key.aesKey (rand.take 16) p)
        (P.hmacSha256 key.hmacKey (authenticatedBytes P key (rand.take 16) p)) [] key rest
        (fun _ h => absurd h (List.not_mem_nil _)) rfl hk
      rw [List.nil_append] at this
      rw [this, XORKeyStream_involutive]

/-- C2, witness: a three-byte plaintext under two keys. -/
theorem C2_decrypt_encrypt_witness :
    [toyKey1, toyKey2] ≠ [] ∧ (∀ k ∈ [toyKey1, toyKey2], k.aesKey.length = 16) ∧
    16 ≤ (List.range 20).length ∧
    ∃ t, (encryptTicket toyPrimitives [10, 20, 30] [toyKey1, toyKey2] (List.range 20)).1 = .ok t ∧
      t.take 16 = (List.range 20).take 16 ∧
      decryptTicket toyPrimitives t [toyKey1, toyKey2] = some [10, 20, 30] :=
  ⟨by decide, by decide, by decide,
    C2_decrypt_encrypt toyPrimitives [10, 20, 30] [toyKey1, toyKey2] (List.range 20)
      (by decide) (by decide) (by decide)⟩

/-- C3. When the HMAC tag of `k2` over the IV and ciphertext of the ticket differs
from that of `k1`, the ticket encrypted under `[k1]` is decrypted to the
plaintext with the key list `[k2, k1]`, and decryptTicket with `[k2]` alone
returns nil. -/
theorem C3_key_rotation (P : Primitives) (p : List Nat) (k1 k2 : ticketKey) (rand : List Nat)
    (haes1 : k1.aesKey.length = 16) (hrand : 16 ≤ rand.length)
    (hdiff : P.hmacSha256 k2.hmacKey (authenticatedBytes P k1 (rand.take 16) p) ≠
      P.hmacSha256 k1.hmacKey (authenticatedBytes P k1 (rand.take 16) p)) :
    ∃ t, (encryptTicket P p [k1] rand).1 = .ok t ∧
      decryptTicket P t [k2, k1] = some p ∧ decryptTicket P t [k2] = none := by
  refine ⟨_, encryptTicket_fst P p k1 [] rand haes1 hrand, ?_, ?_⟩
  · rw [decryptTicket_parts P _ _ _ _ (take16_length rand hrand) (P.hmacSha256_size _ _)]
    have := decryptTicketKeys_first P (rand.take 16) (XORKeyStream P k1.aesKey (rand.take 16) p)
      (rand.take 16 ++ XORKeyStream P k1.aesKey (rand.take 16) p)
      (P.hmacSha256 k1.hmacKey (authenticatedBytes P k1 (rand.take 16) p)) [k2] k1 []
      (fun k hk => by
        rcases List.mem_singleton.1 hk with rfl
        exact hdiff) rfl haes1
    rw [show [k2, k1] = [k2] ++ k1 :: [] from rfl, this, XORKeyStream_involutive]
  · rw [decryptTicket_parts P _ _ _ _ (take16_length rand hrand) (P.hmacSha256_size _ _)]
    exact decryptTicketKeys_none P _ _ _ _ _ (fun k hk => by
      rcases List.mem_singleton.1 hk with rfl
      exact hdiff)

/-- C3, witness: the two example keys. -/
theorem C3_key_rotation_witness :
    toyKey1.aesKey.length = 16 ∧ 16 ≤ (List.range 16).length ∧
    toyPrimitives.hmacSha256 toyKey2.hmacKey
        (authenticatedBytes toyPrimitives toyKey1 ((List.range 16).take 16) [10, 20, 30]) ≠
      toyPrimitives.hmacSha256 toyKey1.hmacKey
        (authenticatedBytes toyPrimitives toyKey1 ((List.range 16).take 16) [10, 20, 30]) ∧
    ∃ t, (encryptTicket toyPrimitives [10, 20, 30] [toyKey1] (List.range 16)).1 = .ok t ∧
      decryptTicket toyPrimitives t [toyKey2, toyKey1] = some [10, 20, 30] ∧
      decryptTicket toyPrimitives t [toyKey2] = none :=
  ⟨by decide, by decide, by decide,
    C3_key_rotation toyPrimitives [10, 20, 30] toyKey1 toyKey2 (List.range 16)
      (by decide) (by decide) (by decide)⟩

/-- C4. In a ticket `t` encrypted under `[k]`, flipping any bit of any of the 32
tag bytes makes decryptTicket return nil; flipping any bit of any ciphertext
byte does so too whenever HMAC under `k` gives the altered IV and ciphertext a
tag different from the one in the ticket. -/
theorem C4_tamper (P : Primitives) (p : List Nat) (k : ticketKey) (rand : List Nat)
    (haes : k.aesKey.length = 16) (hrand : 16 ≤ rand.length) (bit : Nat) :
    ∃ t, (encryptTicket P p [k] rand).1 = .ok t ∧ t.length = 16 + p.length + 32 ∧
      (∀ j, j < 32 → decryptTicket P (flipBit t (16 + p.length + j) bit) [k] = none) ∧
      (∀ j, j < p.length →
        P.hmacSha256 k.hmacKey ((flipBit t (16 + j) bit).take (16 + p.length)) ≠
          t.drop (16 + p.length) →
        decryptTicket P (flipBit t (16 + j) bit) [k] = none) := by
  have hiv := take16_length rand hrand
  have hct : (XORKeyStream P k.aesKey (rand.take 16) p).length = p.length :=
    XORKeyStream_length _ _ _ _
  have htag := P.hmacSha256_size k.hmacKey (authenticatedBytes P k (rand.take 16) p)
  have hauth : (rand.take 16 ++ XORKeyStream P k.aesKey (rand.take 16) p).length =
      16 + p.length := by
    rw [List.length_append, hiv, hct]
  refine ⟨_, encryptTicket_fst P p k [] rand haes hrand, ?_, fun j hj => ?_, fun j hj hne => ?_⟩
  · rw [List.length_append, hauth, htag]
  · rw [flipBit_append_right _ _ _ _ (by rw [hauth]; omega), hauth,
      decryptTicket_parts P _ _ _ _ hiv (by rw [flipBit_length]; exact htag)]
    apply decryptTicketKeys_none
    intro k2 hk2
    rcases List.mem_singleton.1 hk2 with rfl
    have hlt : 16 + p.length + j - (16 + p.length) < (P.hmacSha256 k2.hmacKey
        (authenticatedBytes P k2 (rand.take 16) p)).length := by rw [htag]; omega
    exact fun e => flipBit_ne _ _ bit hlt e.symm
  · have hsplit : flipBit (rand.take 16 ++ XORKeyStream P k.aesKey (rand.take 16) p ++
          P.hmacSha256 k.hmacKey (authenticatedBytes P k (rand.take 16) p)) (16 + j) bit =
        rand.take 16 ++ flipBit (XORKeyStream P k.aesKey (rand.take 16) p) j bit ++
          P.hmacSha256 k.hmacKey (authenticatedBytes P k (rand.take 16) p) := by
      rw [flipBit_append_left _ _ _ _ (by rw [hauth]; omega),
        flipBit_append_right _ _ _ _ (by rw [hiv]; omega), hiv]
      simp
    have hlen2 : (rand.take 16 ++ flipBit (XORKeyStream P k.aesKey (rand.take 16) p) j bit).length =
        16 + p.length := by
      rw [List.length_append, hiv, flipBit_length, hct]
    rw [hsplit] at hne ⊢
    rw [List.take_left' hlen2, List.drop_left' hauth] at hne
    rw [decryptTicket_parts P _ _ _ _ hiv htag]
    apply decryptTicketKeys_none
    intro k2 hk2
    rcases List.mem_singleton.1 hk2 with rfl
    exact hne

/-- C4, witness: bit 5 of the bytes of an example ticket. -/
theorem C4_tamper_witness :
    toyKey1.aesKey.length = 16 ∧ 16 ≤ (List.range 16).length ∧
    ∃ t, (encryptTicket toyPrimitives [10, 20, 30] [toyKey1] (List.range 16)).1 = .ok t ∧
      t.length = 16 + [10, 20, 30].length + 32 ∧
      (∀ j, j < 32 →
        decryptTicket toyPrimitives (flipBit t (16 + [10, 20, 30].length + j) 5) [toyKey1] = none) ∧
      (∀ j, j < [10, 20, 30].length →
        toyPrimitives.hmacSha256 toyKey1.hmacKey
            ((flipBit t (16 + j) 5).take (16 + [10, 20, 30].length)) ≠
          t.drop (16 + [10, 20, 30].length) →
        decryptTicket toyPrimitives (flipBit t (16 + j) 5) [toyKey1] = none) :=
  ⟨by decide, by decide,
    C4_tamper toyPrimitives [10, 20, 30] toyKey1 (List.range 16) (by decide) (by decide) 5⟩

/-- C5 (amended). When crypto/rand delivers the 64 bytes asked of it,
NewObfuscatedClientSessionState returns a ticket such that: for every key
list in which the key derived from the shared secret comes after keys none of
which gives the ticket's IV and ciphertext the ticket's tag, decryptTicket and
then ParseSessionState yield a server-role state with version 0x0303, cipher
suite 0xc02f and the forged master secret; and for every key list of 16-byte
AES keys, decryptTicket yields nil exactly when no key of the list gives the
ticket's IV and ciphertext the ticket's tag. -/
theorem C5_forge_acceptance (P : Primitives)
    (newCert : List Nat → Except String x509.Certificate) (sharedSecret : List Nat)
    (obfuscateSessionTickets : Bool) (draw : PaddingDraw) (rand : List Nat)
    (hrand : 64 ≤ rand.length) :
    ∃ cs,
      NewObfuscatedClientSessionState P sharedSecret obfuscateSessionTickets draw rand = .ok cs ∧
      (∀ pre post : List ticketKey,
        (∀ k ∈ pre,
          P.hmacSha256 k.hmacKey (cs.SessionTicket.take (cs.SessionTicket.length - 32)) ≠
            cs.SessionTicket.drop (cs.SessionTicket.length - 32)) →
        ∃ stateBytes st,
          decryptTicket P cs.SessionTicket (pre ++ P.ticketKeyFromBytes sharedSecret :: post) =
            some stateBytes ∧
          ParseSessionState newCert stateBytes = .ok st ∧
          st.version = 0x0303 ∧ st.cipherSuite = 0xc02f ∧ st.isClient = false ∧
          st.secret = cs.MasterSecret) ∧
      (∀ keys : List ticketKey, (∀ k ∈ keys, k.aesKey.length = 16) →
        (decryptTicket P cs.SessionTicket keys = none ↔
          ∀ k ∈ keys,
            P.hmacSha256 k.hmacKey (cs.SessionTicket.take (cs.SessionTicket.length - 32)) ≠
              cs.SessionTicket.drop (cs.SessionTicket.length - 32))) := by
  obtain ⟨ssBytes, hB, hN⟩ := NewObfuscatedClientSessionState_ok P sharedSecret
    obfuscateSessionTickets draw rand hrand
  have h48 : (rand.take 48).length = 48 := by simp; omega
  have hiv : ((rand.drop 48).take 16).length = 16 := by simp; omega
  have htag := P.hmacSha256_size (P.ticketKeyFromBytes sharedSecret).hmacKey
    (authenticatedBytes P (P.ticketKeyFromBytes sharedSecret) ((rand.drop 48).take 16) ssBytes)
  simp only [authenticatedBytes] at hN htag
  have hlen : ∀ (a m : List Nat), m.length = 32 → (a ++ m).length - 32 = a.length := by
    intro a m hm; simp [hm]
  refine ⟨_, hN, fun pre post hpre => ?_, fun keys haes => ?_⟩
  · simp only at hpre
    rw [hlen _ _ htag, List.take_left' rfl, List.drop_left' rfl] at hpre
    refine ⟨ssBytes, _, ?_, ParseSessionState_Bytes newCert _ obfuscateSessionTickets draw ssBytes
      (obfuscatedServerState_valid newCert _ h48) (fun hc => by cases hc) hB, rfl, rfl, rfl, rfl⟩
    simp only
    rw [decryptTicket_parts P _ _ _ _ hiv htag,
      decryptTicketKeys_first P _ _ _ _ pre (P.ticketKeyFromBytes sharedSecret) post hpre rfl
        (P.ticketKeyFromBytes_aesKey sharedSecret),
      XORKeyStream_involutive]
  · simp only
    rw [hlen _ _ htag, List.take_left' rfl, List.drop_left' rfl,
      decryptTicket_parts P _ _ _ _ hiv htag]
    constructor
    · intro hnone k hk hm
      obtain ⟨p, hp, _⟩ := decryptTicketKeys_some P ((rand.drop 48).take 16)
        (XORKeyStream P (P.ticketKeyFromBytes sharedSecret).aesKey ((rand.drop 48).take 16)
          ssBytes) _ _ keys haes ⟨k, hk, hm⟩
      rw [hnone] at hp
      cases hp
    · intro hall
      exact decryptTicketKeys_none P _ _ _ _ keys hall

/-- C5, witness: the forged example ticket against a key list that holds a key
with another tag before the derived one, and against key lists with and
without a key that gives the tag. -/
theorem C5_forge_acceptance_witness :
    64 ≤ (List.range 64).length ∧
    ∃ cs, NewObfuscatedClientSessionState toyPrimitives (List.range 32) true toyDraw
        (List.range 64) = .ok cs ∧
      (∃ stateBytes st,
        decryptTicket toyPrimitives cs.SessionTicket
          ([toyKey1] ++ toyPrimitives.ticketKeyFromBytes (List.range 32) :: [toyKey2]) =
            some stateBytes ∧
        ParseSessionState toyNewCert stateBytes = .ok st ∧
        st.version = 0x0303 ∧ st.cipherSuite = 0xc02f ∧ st.isClient = false ∧
        st.secret = cs.MasterSecret) ∧
      decryptTicket toyPrimitives cs.SessionTicket [toyKey1, toyKey2] = none ∧
      decryptTicket toyPrimitives cs.SessionTicket [toyKey1, toyForgedBadKey] ≠ none := by
  obtain ⟨cs, hcs, h1, h2⟩ := C5_forge_acceptance toyPrimitives toyNewCert (List.range 32) true
    toyDraw (List.range 64) (by decide)
  have hcs2 : cs =
      { SessionTicket := toyForgedTicket, Vers := 0x0303, CipherSuite := 0xc02f,
        MasterSecret := List.range 48, ServerCertificates := [], VerifiedChains := [],
        UseEMS := false } :=
    (Except.ok.inj ((show _ = Except.ok _ from rfl).symm.trans hcs)).symm
  subst hcs2
  refine ⟨by decide, _, hcs, h1 [toyKey1] [toyKey2] (by decide), ?_, ?_⟩
  · exact (h2 [toyKey1, toyKey2] (by decide)).2 (by decide)
  · intro hnone
    exact absurd ((h2 [toyKey1, toyForgedBadKey] (by decide)).1 hnone) (by decide)

/-- C5, counterexample: a key with the HMAC key of the derived key and another
AES key. The list that holds only this key excludes the derived key, and
decryptTicket returns bytes for the forged example ticket, not nil; the list
that holds this key before the derived key contains the derived key, and what
decryptTicket returns is no session state. -/
theorem C5_same_hmac_key :
    NewObfuscatedClientSessionState toyPrimitives (List.range 32) true toyDraw (List.range 64) =
      .ok { SessionTicket := toyForgedTicket, Vers := 0x0303, CipherSuite := 0xc02f,
            MasterSecret := List.range 48, ServerCertificates := [], VerifiedChains := [],
            UseEMS := false } ∧
    toyForgedBadKey.aesKey.length = 16 ∧ toyForgedBadKey.hmacKey.length = 16 ∧
    toyPrimitives.ticketKeyFromBytes (List.range 32) ∉ [toyForgedBadKey] ∧
    decryptTicket toyPrimitives toyForgedTicket [toyForgedBadKey] ≠ none ∧
    toyPrimitives.ticketKeyFromBytes (List.range 32) ∈
      [toyForgedBadKey, toyPrimitives.ticketKeyFromBytes (List.range 32)] ∧
    (∃ stateBytes,
      decryptTicket toyPrimitives toyForgedTicket
        [toyForgedBadKey, toyPrimitives.ticketKeyFromBytes (List.range 32)] = some stateBytes ∧
      ParseSessionState toyNewCert stateBytes = .error invalidSessionEncoding) ∧
    DecryptTicket toyPrimitives toyNewCert
      [toyForgedBadKey, toyPrimitives.ticketKeyFromBytes (List.range 32)] toyForgedTicket =
        .ok none :=
  ⟨rfl, by decide, by decide, by decide, by decide, by decide, ⟨_, rfl, rfl⟩, rfl⟩

/-- C6. With an empty key list encryptTicket returns the error "session ticket
keys unavailable" and no ticket, for every plaintext, and leaves the reader as
it found it: nothing is drawn. -/
theorem C6_no_keys (P : Primitives) (p rand : List Nat) :
    encryptTicket P p [] rand =
      (.error "tls: internal error: session ticket keys unavailable", rand) := rfl

/-- C7. For every key list, decryptTicket returns nil on every input shorter than
48 bytes, and it makes no HMAC evaluation. -/
theorem C7_short (P : Primitives) (encrypted : List Nat) (keys : List ticketKey)
    (h : encrypted.length < 48) :
    decryptTicket P encrypted keys = none ∧ (decryptTicketTraced P encrypted keys).2 = [] := by
  have h1 : encrypted.length < aesBlockSize + sha256Size := h
  unfold decryptTicket decryptTicketTraced
  rw [if_pos h1]
  exact ⟨rfl, rfl⟩

/-- C7, witness: an input of 47 bytes. -/
theorem C7_short_witness :
    (List.replicate 47 9).length < 48 ∧
    decryptTicket toyPrimitives (List.replicate 47 9) [toyKey1, toyKey2] = none ∧
    (decryptTicketTraced toyPrimitives (List.replicate 47 9) [toyKey1, toyKey2]).2 = [] :=
  ⟨by decide, C7_short toyPrimitives (List.replicate 47 9) [toyKey1, toyKey2] (by decide)⟩

/-- C8. On an input of at least 48 bytes and a key list with 16-byte AES keys,
decryptTicket returns nil exactly when no key of the list gives the input
without its last 32 bytes a tag equal to those last 32 bytes; it returns nil
for the empty key list; and a plaintext it returns has 48 bytes fewer than the
input. -/
theorem C8_nil_iff (P : Primitives) (encrypted : List Nat) (keys : List ticketKey)
    (hlen : 48 ≤ encrypted.length) (haes : ∀ k ∈ keys, k.aesKey.length = 16) :
    (decryptTicket P encrypted keys = none ↔
      ∀ k ∈ keys, P.hmacSha256 k.hmacKey (encrypted.take (encrypted.length - 32)) ≠
        encrypted.drop (encrypted.length - 32)) ∧
    decryptTicket P encrypted [] = none ∧
    ∀ p, decryptTicket P encrypted keys = some p → p.length = encrypted.length - 48 := by
  have hct : ((encrypted.take (encrypted.length - 32)).drop 16).length = encrypted.length - 48 := by
    simp; omega
  refine ⟨⟨fun hnone k hk hm => ?_, fun hall => ?_⟩, ?_, fun p hp => ?_⟩
  · rw [decryptTicket_of_long P encrypted keys hlen] at hnone
    obtain ⟨q, hq, _⟩ := decryptTicketKeys_some P (encrypted.take 16)
      ((encrypted.take (encrypted.length - 32)).drop 16) _ _ keys haes ⟨k, hk, hm⟩
    rw [hq] at hnone
    cases hnone
  · rw [decryptTicket_of_long P encrypted keys hlen]
    exact decryptTicketKeys_none P _ _ _ _ _ hall
  · rw [decryptTicket_of_long P encrypted [] hlen]; rfl
  · rw [decryptTicket_of_long P encrypted keys hlen] at hp
    by_cases hex : ∃ k ∈ keys, P.hmacSha256 k.hmacKey (encrypted.take (encrypted.length - 32)) =
        encrypted.drop (encrypted.length - 32)
    · obtain ⟨q, hq, hql⟩ := decryptTicketKeys_some P (encrypted.take 16)
        ((encrypted.take (encrypted.length - 32)).drop 16) _ _ keys haes hex
      rw [hq] at hp
      cases hp
      rw [hql, hct]
    · have hnone := decryptTicketKeys_none P (encrypted.take 16)
        ((encrypted.take (encrypted.length - 32)).drop 16) (encrypted.take (encrypted.length - 32))
        (encrypted.drop (encrypted.length - 32)) keys
        (fun k hk hm => hex ⟨k, hk, hm⟩)
      rw [hnone] at hp
      cases hp

/-- C8, witness: an input of 50 bytes and the two example keys. -/
theorem C8_nil_iff_witness :
    48 ≤ (List.replicate 50 9).length ∧ (∀ k ∈ [toyKey1, toyKey2], k.aesKey.length = 16) ∧
    ((decryptTicket toyPrimitives (List.replicate 50 9) [toyKey1, toyKey2] = none ↔
      ∀ k ∈ [toyKey1, toyKey2],
        toyPrimitives.hmacSha256 k.hmacKey
            ((List.replicate 50 9).take ((List.replicate 50 9).length - 32)) ≠
          (List.replicate 50 9).drop ((List.replicate 50 9).length - 32)) ∧
    decryptTicket toyPrimitives (List.replicate 50 9) [] = none ∧
    ∀ p, decryptTicket toyPrimitives (List.replicate 50 9) [toyKey1, toyKey2] = some p →
      p.length = (List.replicate 50 9).length - 48) :=
  ⟨by decide, by decide,
    C8_nil_iff toyPrimitives (List.replicate 50 9) [toyKey1, toyKey2] (by decide) (by decide)⟩

/-- C9. DecryptTicket never returns an error: it returns (nil, nil) when
decryptTicket yields nil, (nil, nil) when ParseSessionState rejects the
decrypted plaintext, and otherwise the state parsed from the decrypted
plaintext. -/
theorem C9_never_error (P : Primitives) (newCert : List Nat → Except String x509.Certificate)
    (keys : List ticketKey) (identity : List Nat) :
    (∃ r, DecryptTicket P newCert keys identity = .ok r) ∧
    (decryptTicket P identity keys = none → DecryptTicket P newCert keys identity = .ok none) ∧
    (∀ b err, decryptTicket P identity keys = some b → ParseSessionState newCert b = .error err →
      DecryptTicket P newCert keys identity = .ok none) ∧
    (∀ b s, decryptTicket P identity keys = some b → ParseSessionState newCert b = .ok s →
      DecryptTicket P newCert keys identity = .ok (some s)) := by
  refine ⟨?_, fun h => ?_, fun b err h1 h2 => ?_, fun b s h1 h2 => ?_⟩
  · cases h1 : decryptTicket P identity keys with
    | none => exact ⟨none, by simp [DecryptTicket, h1]⟩
    | some b =>
      cases h2 : ParseSessionState newCert b with
      | error e => exact ⟨none, by simp [DecryptTicket, h1, h2]⟩
      | ok s => exact ⟨some s, by simp [DecryptTicket, h1, h2]⟩
  · simp [DecryptTicket, h]
  · simp [DecryptTicket, h1, h2]
  · simp [DecryptTicket, h1, h2]

/-- C9, witness: a forged ticket whose key is not in the list, a ticket whose
plaintext does not parse, and a forged ticket whose key is in the list. -/
theorem C9_never_error_witness :
    DecryptTicket toyPrimitives toyNewCert [toyKey1] toyForgedTicket = .ok none ∧
    DecryptTicket toyPrimitives toyNewCert [toyKey1] toyUnparsableTicket = .ok none ∧
    ∃ st, DecryptTicket toyPrimitives toyNewCert
        [toyKey1, toyPrimitives.ticketKeyFromBytes (List.range 32)] toyForgedTicket =
          .ok (some st) ∧ st.version = 0x0303 ∧ st.secret = List.range 48 :=
  ⟨(C9_never_error toyPrimitives toyNewCert [toyKey1] toyForgedTicket).2.1 rfl,
    (C9_never_error toyPrimitives toyNewCert [toyKey1] toyUnparsableTicket).2.2.1 _ _ rfl rfl,
    _, (C9_never_error toyPrimitives toyNewCert
      [toyKey1, toyPrimitives.ticketKeyFromBytes (List.range 32)] toyForgedTicket).2.2.2 _ _ rfl rfl,
    rfl, rfl⟩

/-- C10. Whenever NewObfuscatedClientSessionState succeeds, the state it returns
has Vers 0x0303, CipherSuite 0xc02f, a MasterSecret of 48 bytes that are the
first 48 bytes drawn, no ServerCertificates, no VerifiedChains, UseEMS false,
and a SessionTicket that is encryptTicket, under the key derived from the
shared secret, of the Bytes of the server-role state with that version, suite
and secret. -/
theorem C10_forged_fields (P : Primitives) (sharedSecret : List Nat)
    (obfuscateSessionTickets : Bool) (draw : PaddingDraw) (rand : List Nat)
    (cs : ObfuscatedClientSessionState)
    (h : NewObfuscatedClientSessionState P sharedSecret obfuscateSessionTickets draw rand =
      .ok cs) :
    cs.Vers = 0x0303 ∧ cs.CipherSuite = 0xc02f ∧
    cs.MasterSecret.length = 48 ∧ cs.MasterSecret = rand.take 48 ∧
    cs.ServerCertificates = [] ∧ cs.VerifiedChains = [] ∧ cs.UseEMS = false ∧
    ∃ ssBytes,
      sessionState.Bytes
        { sessionState.zero with
          version := 0x0303
          isClient := false
          cipherSuite := 0xc02f
          secret := cs.MasterSecret }
        obfuscateSessionTickets draw = .ok ssBytes ∧
      (encryptTicket P ssBytes [P.ticketKeyFromBytes sharedSecret] (rand.drop 48)).1 =
        .ok cs.SessionTicket := by
  unfold NewObfuscatedClientSessionState at h
  by_cases h48 : 48 ≤ rand.length
  · simp only [masterSecretLength, ioReadFull_ok rand 48 h48] at h
    cases hB : (obfuscatedServerState (rand.take 48)).Bytes obfuscateSessionTickets draw with
    | error err => rw [hB] at h; cases h
    | ok ssBytes =>
      rw [hB] at h
      simp only at h
      cases hE : (encryptTicket P ssBytes [P.ticketKeyFromBytes sharedSecret] (rand.drop 48)).1 with
      | error err => rw [hE] at h; cases h
      | ok ticket =>
        rw [hE] at h
        cases h
        refine ⟨rfl, rfl, by simp; omega, rfl, rfl, rfl, rfl, ssBytes, hB, hE⟩
  · obtain ⟨err, this⟩ := ioReadFull_short rand masterSecretLength
      (by unfold masterSecretLength; omega)
    rw [this] at h
    cases h

/-- C10, witness: a call that succeeds. -/
theorem C10_forged_fields_witness :
    ∃ cs, NewObfuscatedClientSessionState toyPrimitives (List.range 32) true toyDraw
        (List.range 64) = .ok cs ∧
      cs.Vers = 0x0303 ∧ cs.CipherSuite = 0xc02f ∧
      cs.MasterSecret.length = 48 ∧ cs.MasterSecret = (List.range 64).take 48 ∧
      cs.ServerCertificates = [] ∧ cs.VerifiedChains = [] ∧ cs.UseEMS = false ∧
      ∃ ssBytes,
        sessionState.Bytes
          { sessionState.zero with
            version := 0x0303
            isClient := false
            cipherSuite := 0xc02f
            secret := cs.MasterSecret }
          true toyDraw = .ok ssBytes ∧
        (encryptTicket toyPrimitives ssBytes [toyPrimitives.ticketKeyFromBytes (List.range 32)]
          ((List.range 64).drop 48)).1 = .ok cs.SessionTicket :=
  ⟨_, rfl, C10_forged_fields toyPrimitives (List.range 32) true toyDraw (List.range 64) _ rfl⟩

/-- C11. Whenever Bytes returns an encoding, the encoding begins with the
version in 2 bytes big-endian, the role byte (1 for a server-role state, 2
for a client-role state), the cipher suite in 2 bytes big-endian, createdAt
in 8 bytes big-endian, one byte holding the length of the secret, the
secret, a 3-byte length followed by the Extra blocks each behind its own
3-byte length, the ext-master-secret byte and the early-data byte. -/
theorem C11_layout (s : sessionState) (obfuscateSessionTickets : Bool) (draw : PaddingDraw)
    (e : List Nat) (he : s.Bytes obfuscateSessionTickets draw = .ok e) :
    ∃ rest, e = wireLayoutHead s ++ rest := by
  obtain ⟨b, hb, rfl⟩ := Bytes_ok s obfuscateSessionTickets draw e he
  obtain ⟨rest, rfl⟩ := builder_head s b hb
  exact ⟨rest ++ _, by rw [List.append_assoc]⟩

/-- C11, witness: the head of the encoding of the server-role example session. -/
theorem C11_layout_witness :
    ∃ e, toyServerState.Bytes true toyDraw = .ok e ∧
      (∃ rest, e = wireLayoutHead toyServerState ++ rest) ∧
      wireLayoutHead toyServerState =
        [3, 4, 1, 19, 1, 0, 0, 0, 0, 101, 83, 241, 0, 3, 1, 2, 3,
          0, 0, 9, 0, 0, 2, 1, 2, 0, 0, 1, 3, 1, 1] :=
  ⟨_, rfl, C11_layout toyServerState true toyDraw _ rfl, by decide⟩

/-- C12. A ticket that encryptTicket returns for a plaintext `p` and a key list
that starts with `key` is the 16 bytes drawn for the IV, then `p` XOR the
AES-CTR keystream of the AES key of `key` and that IV, byte `i` of the
plaintext with byte `i` of the keystream, then the HMAC-SHA256 tag, under the
HMAC key of `key`, of the 16 + len(p) bytes before it; it has
16 + len(p) + 32 bytes, and the keys after the first have no part in the
result. -/
theorem C12_ticket_layout (P : Primitives) (p : List Nat) (key : ticketKey)
    (rest : List ticketKey) (rand t : List Nat)
    (h : (encryptTicket P p (key :: rest) rand).1 = .ok t) :
    t = rand.take 16 ++ XORKeyStream P key.aesKey (rand.take 16) p ++
      P.hmacSha256 key.hmacKey (rand.take 16 ++ XORKeyStream P key.aesKey (rand.take 16) p) ∧
    (rand.take 16).length = 16 ∧
    (XORKeyStream P key.aesKey (rand.take 16) p).length = p.length ∧
    (P.hmacSha256 key.hmacKey
      (rand.take 16 ++ XORKeyStream P key.aesKey (rand.take 16) p)).length = 32 ∧
    t.length = 16 + p.length + 32 ∧
    (∀ others, encryptTicket P p (key :: others) rand = encryptTicket P p (key :: rest) rand) ∧
    t.take 16 = rand.take 16 ∧
    (∀ i, i < p.length →
      t[16 + i]? = (p[i]?).map (fun b => b ^^^ P.aesCtrKeyStream key.aesKey (rand.take 16) i)) ∧
    t.drop (16 + p.length) = P.hmacSha256 key.hmacKey (t.take (16 + p.length)) := by
  obtain ⟨hr, ht⟩ := encryptTicket_ok_inv P p key rest rand t h
  have h16 := take16_length rand hr
  have hx := XORKeyStream_length P key.aesKey (rand.take 16) p
  have hpre : (rand.take 16 ++ XORKeyStream P key.aesKey (rand.take 16) p).length =
      16 + p.length := by rw [List.length_append, h16, hx]
  refine ⟨ht, h16, hx, P.hmacSha256_size _ _, ?_, fun _ => rfl, ?_, fun i hi => ?_, ?_⟩
  · rw [ht, List.length_append, List.length_append, h16, XORKeyStream_length, P.hmacSha256_size]
  · rw [ht, List.append_assoc]
    exact List.take_left' h16
  · rw [ht, List.append_assoc,
      List.getElem?_append_right (by rw [h16]; omega), h16,
      show 16 + i - 16 = i by omega,
      List.getElem?_append_left (by rw [hx]; exact hi)]
    exact XORKeyStream_get P _ _ _ i
  · rw [ht, List.take_left' hpre, List.drop_left' hpre]

/-- C12, witness: the plaintext 10, 20, 30 under two keys with the IV
0, 1, ..., 15: the keystream of the first key starts 136, 137, 138 and the
ciphertext is 130, 157, 148. -/
theorem C12_ticket_layout_witness :
    ∃ t, (encryptTicket toyPrimitives [10, 20, 30] [toyKey1, toyKey2] (List.range 20)).1 = .ok t ∧
      t = (List.range 20).take 16 ++
          XORKeyStream toyPrimitives toyKey1.aesKey ((List.range 20).take 16) [10, 20, 30] ++
          toyPrimitives.hmacSha256 toyKey1.hmacKey ((List.range 20).take 16 ++
            XORKeyStream toyPrimitives toyKey1.aesKey ((List.range 20).take 16) [10, 20, 30]) ∧
      t.length = 16 + [10, 20, 30].length + 32 ∧
      (∀ i, i < [10, 20, 30].length →
        t[16 + i]? = ([10, 20, 30][i]?).map
          (fun b => b ^^^ toyPrimitives.aesCtrKeyStream toyKey1.aesKey ((List.range 20).take 16) i)) ∧
      (List.range 3).map (toyPrimitives.aesCtrKeyStream toyKey1.aesKey ((List.range 20).take 16)) =
        [136, 137, 138] ∧
      (t.drop 16).take 3 = [130, 157, 148] :=
  ⟨_, rfl,
    (C12_ticket_layout toyPrimitives [10, 20, 30] toyKey1 [toyKey2] (List.range 20) _ rfl).1,
    (C12_ticket_layout toyPrimitives [10, 20, 30] toyKey1 [toyKey2] (List.range 20) _
      rfl).2.2.2.2.1,
    (C12_ticket_layout toyPrimitives [10, 20, 30] toyKey1 [toyKey2] (List.range 20) _
      rfl).2.2.2.2.2.2.2.1,
    by decide, by decide⟩

/-- C13. With obfuscation enabled, whenever Bytes returns an encoding, that
encoding is the unpadded encoding (what Bytes returns with obfuscation
disabled) followed by paddedSizes[i] - 120 zero bytes, where i, the outcome
of the secure draw or else of the fallback, is an index of the menu 160,
176, 192, 208, 218, 224, 240, 255; the padding has 40, 56, 72, 88, 98, 104,
120 or 135 bytes. -/
theorem C13_padding (s : sessionState) (draw : PaddingDraw) (e : List Nat)
    (he : s.Bytes true draw = .ok e) :
    ∃ bytes, s.Bytes false draw = .ok bytes ∧
      e = bytes ++ List.replicate (paddedSizes.get draw.index - 120) 0 ∧
      draw.index.val < 8 ∧
      paddedSizes = [160, 176, 192, 208, 218, 224, 240, 255] ∧
      paddedSizes.get draw.index - 120 ∈ [40, 56, 72, 88, 98, 104, 120, 135] ∧
      (draw.index = draw.randInt.getD draw.mathRandIntn) := by
  obtain ⟨b, hb, rfl⟩ := Bytes_ok s true draw e he
  refine ⟨b, ?_, rfl, draw.index.isLt, rfl, paddedSizes_get_mem _, ?_⟩
  · rw [Bytes_of_builder s false draw b hb]; simp
  · unfold PaddingDraw.index
    cases draw.randInt <;> rfl

/-- C13, witness: the server-role example session when the secure draw fails. -/
theorem C13_padding_witness :
    ∃ e, toyServerState.Bytes true toyFallbackDraw = .ok e ∧
      ∃ bytes, toyServerState.Bytes false toyFallbackDraw = .ok bytes ∧
        e = bytes ++ List.replicate (paddedSizes.get toyFallbackDraw.index - 120) 0 ∧
        toyFallbackDraw.index.val < 8 ∧
        paddedSizes = [160, 176, 192, 208, 218, 224, 240, 255] ∧
        paddedSizes.get toyFallbackDraw.index - 120 ∈ [40, 56, 72, 88, 98, 104, 120, 135] ∧
        (toyFallbackDraw.index = toyFallbackDraw.randInt.getD toyFallbackDraw.mathRandIntn) :=
  ⟨_, rfl, C13_padding toyServerState toyFallbackDraw _ rfl⟩

/-- C14, the forged state evaluated: the state that
NewObfuscatedClientSessionState forges is encoded, with obfuscation enabled
and the index 3 drawn, in 161 bytes, the 73 bytes of the state and 208 - 120
bytes of padding, and its ticket has 209 bytes; neither is a value of the
menu, and 208 is the value drawn. -/
theorem C14_forged_lengths :
    (∃ e, (obfuscatedServerState (List.range 48)).Bytes true toyDraw = .ok e ∧
      e.length = 161 ∧ e.length ∉ [160, 176, 192, 208, 218, 224, 240, 255]) ∧
    (∃ bytes, (obfuscatedServerState (List.range 48)).Bytes false toyDraw = .ok bytes ∧
      bytes.length = 73) ∧
    paddedSizes.get toyDraw.index = 208 ∧
    NewObfuscatedClientSessionState toyPrimitives (List.range 32) true toyDraw (List.range 64) =
      .ok { SessionTicket := toyForgedTicket, Vers := 0x0303, CipherSuite := 0xc02f,
            MasterSecret := List.range 48, ServerCertificates := [], VerifiedChains := [],
            UseEMS := false } ∧
    toyForgedTicket.length = 209 ∧
    toyForgedTicket.length ∉ [160, 176, 192, 208, 218, 224, 240, 255] :=
  ⟨⟨_, rfl, by decide, by decide⟩, ⟨_, rfl, by decide⟩, by decide, rfl, by decide, by decide⟩

/-- C15 (amended). With obfuscation enabled, a ticket issued by EncryptTicket,
and likewise a ticket issued by NewObfuscatedClientSessionState, is the IV
(16 bytes), then the ciphertext of the encoded state followed by the zero
padding, then the tag (32 bytes): the padding is added to the plaintext
before it is encrypted, so that the ticket holds a keystream byte for each
padding byte, and the last 32 bytes of the ticket are the HMAC tag of all the
bytes before them. -/
theorem C15_padding_inside (P : Primitives) (draw : PaddingDraw) :
    (∀ (key : ticketKey) (others : List ticketKey) (ss : sessionState) (rand t : List Nat),
      (EncryptTicket P (key :: others) ss true draw rand).1 = .ok t →
      ∃ bytes, ss.Bytes false draw = .ok bytes ∧
        t = rand.take 16 ++
            XORKeyStream P key.aesKey (rand.take 16)
              (bytes ++ List.replicate (paddedSizes.get draw.index - 120) 0) ++
            P.hmacSha256 key.hmacKey (t.take (t.length - 32)) ∧
        t.drop (t.length - 32) = P.hmacSha256 key.hmacKey (t.take (t.length - 32)) ∧
        (∀ j, j < paddedSizes.get draw.index - 120 →
          t[16 + bytes.length + j]? =
            some (P.aesCtrKeyStream key.aesKey (rand.take 16) (bytes.length + j)))) ∧
    (∀ (sharedSecret rand : List Nat) (cs : ObfuscatedClientSessionState),
      NewObfuscatedClientSessionState P sharedSecret true draw rand = .ok cs →
      ∃ bytes, (obfuscatedServerState cs.MasterSecret).Bytes false draw = .ok bytes ∧
        cs.SessionTicket = (rand.drop 48).take 16 ++
            XORKeyStream P (P.ticketKeyFromBytes sharedSecret).aesKey ((rand.drop 48).take 16)
              (bytes ++ List.replicate (paddedSizes.get draw.index - 120) 0) ++
            P.hmacSha256 (P.ticketKeyFromBytes sharedSecret).hmacKey
              (cs.SessionTicket.take (cs.SessionTicket.length - 32)) ∧
        cs.SessionTicket.drop (cs.SessionTicket.length - 32) =
          P.hmacSha256 (P.ticketKeyFromBytes sharedSecret).hmacKey
            (cs.SessionTicket.take (cs.SessionTicket.length - 32)) ∧
        (∀ j, j < paddedSizes.get draw.index - 120 →
          cs.SessionTicket[16 + bytes.length + j]? =
            some (P.aesCtrKeyStream (P.ticketKeyFromBytes sharedSecret).aesKey
              ((rand.drop 48).take 16) (bytes.length + j)))) := by
  have key_fact : ∀ (k : ticketKey) (o : List ticketKey) (s : sessionState)
      (r u e : List Nat),
      s.Bytes true draw = .ok e → (encryptTicket P e (k :: o) r).1 = .ok u →
      ∃ bytes, s.Bytes false draw = .ok bytes ∧
        u = r.take 16 ++
            XORKeyStream P k.aesKey (r.take 16)
              (bytes ++ List.replicate (paddedSizes.get draw.index - 120) 0) ++
            P.hmacSha256 k.hmacKey (u.take (u.length - 32)) ∧
        u.drop (u.length - 32) = P.hmacSha256 k.hmacKey (u.take (u.length - 32)) ∧
        (∀ j, j < paddedSizes.get draw.index - 120 →
          u[16 + bytes.length + j]? =
            some (P.aesCtrKeyStream k.aesKey (r.take 16) (bytes.length + j))) := by
    intro k o s r u e he ho
    obtain ⟨b, hb, rfl⟩ := Bytes_ok s true draw e he
    obtain ⟨hr16, rfl⟩ := encryptTicket_ok_inv P _ k o r u ho
    have h16 := take16_length r hr16
    have hl : ∀ a : List Nat, (a ++ P.hmacSha256 k.hmacKey a).length - 32 = a.length := by
      intro a; rw [List.length_append, P.hmacSha256_size]; omega
    refine ⟨b, ?_, ?_, ?_, fun j hj => ?_⟩
    · rw [Bytes_of_builder s false draw b hb]; simp
    · rw [hl, List.take_left' rfl]; rfl
    · rw [hl, List.take_left' rfl, List.drop_left' rfl]
    · have hpad : (b ++ if true = true then
          List.replicate (paddedSizes.get draw.index - initialSize) 0 else [])[b.length + j]? =
          some 0 := by
        rw [if_pos rfl, List.getElem?_append_right (by omega)]
        simp only [Nat.add_sub_cancel_left]
        rw [List.getElem?_replicate]
        exact if_pos hj
      rw [List.append_assoc, List.getElem?_append_right (by rw [h16]; omega), h16,
        show 16 + b.length + j - 16 = b.length + j by omega,
        List.getElem?_append_left (by
          rw [XORKeyStream_length, if_pos rfl, List.length_append, List.length_replicate]
          exact Nat.add_lt_add_left hj _),
        XORKeyStream_get, hpad]
      simp
  constructor
  · intro key others ss rand t ht
    unfold EncryptTicket at ht
    cases hB : ss.Bytes true draw with
    | error err => rw [hB] at ht; cases ht
    | ok e =>
      rw [hB] at ht
      exact key_fact key others ss rand t e hB ht
  · intro sharedSecret rand cs hcs
    unfold NewObfuscatedClientSessionState at hcs
    by_cases h48 : 48 ≤ rand.length
    · simp only [masterSecretLength, ioReadFull_ok rand 48 h48] at hcs
      cases hB : (obfuscatedServerState (rand.take 48)).Bytes true draw with
      | error err => rw [hB] at hcs; cases hcs
      | ok e =>
        rw [hB] at hcs
        simp only at hcs
        cases hE : (encryptTicket P e [P.ticketKeyFromBytes sharedSecret] (rand.drop 48)).1 with
        | error err => rw [hE] at hcs; cases hcs
        | ok ticket =>
          rw [hE] at hcs
          cases hcs
          exact key_fact _ [] _ _ _ e hB hE
    · obtain ⟨err, this⟩ := ioReadFull_short rand masterSecretLength
        (by unfold masterSecretLength; omega)
      rw [this] at hcs
      cases hcs

/-- C15, witness: EncryptTicket on a reader that delivers 63 bytes, with which
NewObfuscatedClientSessionState fails, and NewObfuscatedClientSessionState on
a reader that delivers 64 bytes. -/
theorem C15_padding_inside_witness :
    (∃ t,
      (EncryptTicket toyPrimitives [toyKey1, toyKey2] toyServerState true toyDraw
        (List.range 63)).1 = .ok t ∧
      NewObfuscatedClientSessionState toyPrimitives (List.range 32) true toyDraw
        (List.range 63) = .error "unexpected EOF" ∧
      t.length = 230 ∧
      t.drop (t.length - 32) =
        toyPrimitives.hmacSha256 toyKey1.hmacKey (t.take (t.length - 32)) ∧
      t[16 + 94 + 87]? =
        some (toyPrimitives.aesCtrKeyStream toyKey1.aesKey ((List.range 63).take 16) (94 + 87))) ∧
    (∃ cs,
      NewObfuscatedClientSessionState toyPrimitives (List.range 32) true toyDraw
        (List.range 64) = .ok cs ∧
      cs.SessionTicket.drop (cs.SessionTicket.length - 32) =
        toyPrimitives.hmacSha256 (toyPrimitives.ticketKeyFromBytes (List.range 32)).hmacKey
          (cs.SessionTicket.take (cs.SessionTicket.length - 32))) := by
  have h1 := (C15_padding_inside toyPrimitives toyDraw).1 toyKey1 [toyKey2] toyServerState
    (List.range 63) _ rfl
  have h2 := (C15_padding_inside toyPrimitives toyDraw).2 (List.range 32) (List.range 64) _ rfl
  obtain ⟨bytes, hb, _, h1b, h1c⟩ := h1
  obtain ⟨_, _, _, h2b, _⟩ := h2
  have hbytes : bytes = toyServerEncoding :=
    (Except.ok.inj ((show toyServerState.Bytes false toyDraw = .ok toyServerEncoding from
      rfl).symm.trans hb)).symm
  subst hbytes
  exact ⟨⟨_, rfl, rfl, by decide, h1b, h1c 87 (by decide)⟩, ⟨_, rfl, h2b⟩⟩

/-- C15, counterexample: the forged example ticket has 209 bytes and was padded
with 88 bytes, yet its last 88 bytes are not the zero padding and its last
byte is not zero: its last 32 bytes are the HMAC tag of the 177 bytes before
them. -/
theorem C15_forged_ticket_ends_with_tag :
    NewObfuscatedClientSessionState toyPrimitives (List.range 32) true toyDraw (List.range 64) =
      .ok { SessionTicket := toyForgedTicket, Vers := 0x0303, CipherSuite := 0xc02f,
            MasterSecret := List.range 48, ServerCertificates := [], VerifiedChains := [],
            UseEMS := false } ∧
    toyForgedTicket.length = 209 ∧
    paddedSizes.get toyDraw.index - 120 = 88 ∧
    allZeros (toyForgedTicket.drop (209 - 88)) = false ∧
    toyForgedTicket.getLast? ≠ some 0 ∧
    toyForgedTicket.drop (209 - 32) =
      toyPrimitives.hmacSha256 (toyPrimitives.ticketKeyFromBytes (List.range 32)).hmacKey
        (toyForgedTicket.take (209 - 32)) :=
  ⟨rfl, by decide, by decide, by decide, by decide, by decide⟩

/-- C16. For every byte string `e` that ParseSessionState accepts and every byte
string `t` with a non-zero byte, ParseSessionState rejects `e` followed by
`t`, whatever the role of the record. -/
theorem C16_nonzero_trailing (newCert : List Nat → Except String x509.Certificate)
    (e t : List Nat) (x : sessionState) (he : ParseSessionState newCert e = .ok x)
    (ht : ∃ b ∈ t, b ≠ 0) :
    ParseSessionState newCert (e ++ t) = .error invalidSessionEncoding := by
  obtain ⟨h, s, ss, r, hh, hb, htail⟩ := parseStaged_ok newCert e x he
  rw [parseStaged_of newCert (e ++ t) h (s ++ t) ss (r ++ t) (readHeader_frame e h s t hh)
    (parseBody_frame newCert h s ss r t hb)]
  exact parseTail_trailing h.typ ss r t x htail ht

/-- C16, witness: the encodings of the server-role and of the client-role
example sessions, followed by the bytes 0 and 7. -/
theorem C16_nonzero_trailing_witness :
    (ParseSessionState toyNewCert toyServerEncoding = .ok toyServerParsed ∧
      (∃ b ∈ [0, 7], b ≠ 0) ∧
      ParseSessionState toyNewCert (toyServerEncoding ++ [0, 7]) =
        .error invalidSessionEncoding) ∧
    (ParseSessionState toyNewCert toyClientEncoding = .ok toyClientParsed ∧
      (∃ b ∈ [0, 7], b ≠ 0) ∧
      ParseSessionState toyNewCert (toyClientEncoding ++ [0, 7]) =
        .error invalidSessionEncoding) :=
  ⟨⟨rfl, ⟨7, by decide, by decide⟩,
      C16_nonzero_trailing toyNewCert toyServerEncoding [0, 7] toyServerParsed rfl
        ⟨7, by decide, by decide⟩⟩,
    ⟨rfl, ⟨7, by decide, by decide⟩,
      C16_nonzero_trailing toyNewCert toyClientEncoding [0, 7] toyClientParsed rfl
        ⟨7, by decide, by decide⟩⟩⟩

/-- C17 (amended). For every server-role input (role byte 1) whose structural
fields parse, leaving the bytes `rest` after the last field consumed,
ParseSessionState rejects the input if and only if some byte of `rest` is
non-zero; when they are all zero it returns the structurally decoded state,
and zero bytes added after the input do not change the result. -/
theorem C17_server_padding (newCert : List Nat → Except String x509.Certificate)
    (data : List Nat) (h : wireHeader) (s : List Nat) (ss : sessionState) (rest : List Nat)
    (hh : readHeader data = some (h, s)) (hb : parseBody newCert h s = .ok (ss, rest))
    (hserver : h.typ = 1) :
    ((∃ err, ParseSessionState newCert data = .error err) ↔ ∃ b ∈ rest, b ≠ 0) ∧
    ((∀ b ∈ rest, b = 0) → ParseSessionState newCert data = .ok ss) ∧
    (∀ zeros, (∀ b ∈ zeros, b = 0) →
      ParseSessionState newCert (data ++ zeros) = ParseSessionState newCert data) := by
  have hty : h.typ ≠ 2 := by omega
  have hP := parseStaged_of newCert data h s ss rest hh hb
  rw [parseTail_server h.typ ss rest hty] at hP
  refine ⟨⟨fun ⟨err, herr⟩ => ?_, fun hnz => ?_⟩, fun hz => ?_, fun zeros hzeros => ?_⟩
  · by_cases hz : allZeros rest = true
    · rw [hP, if_pos hz] at herr; cases herr
    · by_contra hcon
      apply hz
      rw [allZeros_eq_true_iff]
      intro b hbm
      by_contra hb0
      exact hcon ⟨b, hbm, hb0⟩
  · have hz : ¬ allZeros rest = true := by
      rw [allZeros_eq_true_iff]
      obtain ⟨b, hbm, hb0⟩ := hnz
      exact fun hall => hb0 (hall b hbm)
    exact ⟨_, by rw [hP, if_neg hz]⟩
  · rw [hP, if_pos ((allZeros_eq_true_iff rest).2 hz)]
  · rw [parseStaged_of newCert (data ++ zeros) h (s ++ zeros) ss (rest ++ zeros)
      (readHeader_frame data h s zeros hh) (parseBody_frame newCert h s ss rest zeros hb),
      parseTail_server h.typ ss _ hty, hP, allZeros_append,
      (allZeros_eq_true_iff zeros).2 hzeros, Bool.and_true]

/-- C17, witness: the encoding of the server-role example session followed by 88
zero bytes. -/
theorem C17_server_padding_witness :
    readHeader (toyServerEncoding ++ List.replicate 88 0) =
      some (toyServerHeader, toyServerEncoding.drop 31 ++ List.replicate 88 0) ∧
    parseBody toyNewCert toyServerHeader (toyServerEncoding.drop 31 ++ List.replicate 88 0) =
      .ok (toyServerParsed, List.replicate 88 0) ∧
    toyServerHeader.typ = 1 ∧
    ParseSessionState toyNewCert (toyServerEncoding ++ List.replicate 88 0) =
      .ok toyServerParsed ∧
    ParseSessionState toyNewCert (toyServerEncoding ++ List.replicate 88 0 ++ [0, 0, 0]) =
      ParseSessionState toyNewCert (toyServerEncoding ++ List.replicate 88 0) := by
  have hh : readHeader (toyServerEncoding ++ List.replicate 88 0) =
      some (toyServerHeader, toyServerEncoding.drop 31 ++ List.replicate 88 0) := rfl
  have hb : parseBody toyNewCert toyServerHeader
      (toyServerEncoding.drop 31 ++ List.replicate 88 0) =
        .ok (toyServerParsed, List.replicate 88 0) := rfl
  exact ⟨hh, hb, rfl,
    (C17_server_padding toyNewCert _ _ _ _ _ hh hb rfl).2.1 (by decide),
    (C17_server_padding toyNewCert _ _ _ _ _ hh hb rfl).2.2 [0, 0, 0] (by decide)⟩

/-- C17, counterexample: the encoding of the client-role example session is
accepted; followed by one zero byte it is rejected, although the only byte
left after the last field is zero. -/
theorem C17_client_zero_byte_rejected :
    toyClientState.Bytes false toyDraw = .ok toyClientEncoding ∧
    ParseSessionState toyNewCert toyClientEncoding = .ok toyClientParsed ∧
    toyClientParsed.isClient = true ∧ (∀ b ∈ [0], b = 0) ∧
    ParseSessionState toyNewCert (toyClientEncoding ++ [0]) = .error invalidSessionEncoding :=
  ⟨rfl, rfl, rfl, by decide, rfl⟩

/-- C18. ParseSessionState rejects every input whose third byte, the role tag,
is neither 1 nor 2; and a state it returns is client-role exactly when that
byte is 2. -/
theorem C18_role_byte (newCert : List Nat → Except String x509.Certificate) (data : List Nat) :
    (∀ b, data[2]? = some b → b ≠ 1 → b ≠ 2 →
      ParseSessionState newCert data = .error invalidSessionEncoding) ∧
    (∀ x, ParseSessionState newCert data = .ok x →
      ∃ b, data[2]? = some b ∧ (x.isClient = true ↔ b = 2)) := by
  constructor
  · intro b hb h1 h2
    rw [ParseSessionState_eq_parseStaged]
    unfold parseStaged
    rcases hh : readHeader data with _ | ⟨h, s⟩
    · rfl
    · have hty := (readHeader_bytes data h s hh).1
      rw [hb] at hty
      cases hty
      simp only
      have : parseBody newCert h s = .error invalidSessionEncoding := by
        unfold parseBody
        rw [if_pos ⟨h1, h2⟩]
      rw [this]
  · intro x hx
    obtain ⟨h, s, ss, r, hh, hb, htail⟩ := parseStaged_ok newCert data x hx
    refine ⟨h.typ, (readHeader_bytes data h s hh).1, ?_⟩
    have h1 := (parseTail_ok h.typ ss r x htail).2
    have h2 := (parseBody_ok newCert h s ss r hb).2.2.2.1
    rw [h1, h2]
    simp

/-- C18, witness: a record with role byte 3, and the encoding of the client-role
example session. -/
theorem C18_role_byte_witness :
    ParseSessionState toyNewCert
      [3, 3, 3, 192, 47, 0, 0, 0, 0, 0, 0, 0, 0, 1, 9, 0, 0, 0, 0, 0, 0, 0, 0, 0, 0, 0] =
        .error invalidSessionEncoding ∧
    ParseSessionState toyNewCert toyClientEncoding = .ok toyClientParsed ∧
    ∃ b, toyClientEncoding[2]? = some b ∧ (toyClientParsed.isClient = true ↔ b = 2) :=
  ⟨(C18_role_byte toyNewCert
      [3, 3, 3, 192, 47, 0, 0, 0, 0, 0, 0, 0, 0, 1, 9, 0, 0, 0, 0, 0, 0, 0, 0, 0, 0, 0]).1
      3 rfl (by decide) (by decide),
    rfl, (C18_role_byte toyNewCert toyClientEncoding).2 toyClientParsed rfl⟩

/-- C19. ParseSessionState rejects every input whose secret length byte (the
fourteenth byte) is 0; and on an input made of bytes, every state it returns
has a secret of 1 to 255 bytes. -/
theorem C19_secret_length (newCert : List Nat → Except String x509.Certificate)
    (data : List Nat) :
    (data[13]? = some 0 → ParseSessionState newCert data = .error invalidSessionEncoding) ∧
    (∀ x, ParseSessionState newCert data = .ok x → (∀ b ∈ data, b < 256) →
      1 ≤ x.secret.length ∧ x.secret.length ≤ 255) := by
  constructor
  · intro h0
    rw [ParseSessionState_eq_parseStaged]
    unfold parseStaged
    rcases hh : readHeader data with _ | ⟨h, s⟩
    · rfl
    · have hlen := (readHeader_bytes data h s hh).2
      rw [h0] at hlen
      have hl : h.secret.length = 0 := (Option.some.inj hlen).symm
      simp only
      have : parseBody newCert h s = .error invalidSessionEncoding := by
        unfold parseBody
        by_cases ht : h.typ ≠ 1 ∧ h.typ ≠ 2
        · rw [if_pos ht]
        · rw [if_neg ht, if_pos hl]
      rw [this]
  · intro x hx hbytes
    obtain ⟨h, s, ss, r, hh, hb, htail⟩ := parseStaged_ok newCert data x hx
    have h1 := (parseTail_ok h.typ ss r x htail).1
    obtain ⟨_, hne, hsec, _, _⟩ := parseBody_ok newCert h s ss r hb
    have hlen := (readHeader_bytes data h s hh).2
    have hlt : h.secret.length < 256 := hbytes _ (List.getElem?_mem hlen)
    rw [h1, hsec]
    omega

/-- C19, witness: a record with an empty secret, and the encoding of the server-
role example session. -/
theorem C19_secret_length_witness :
    ParseSessionState toyNewCert
      [3, 3, 1, 192, 47, 0, 0, 0, 0, 0, 0, 0, 0, 0, 0, 0, 0, 0, 0, 0, 0, 0, 0, 0, 0] =
        .error invalidSessionEncoding ∧
    ParseSessionState toyNewCert toyServerEncoding = .ok toyServerParsed ∧
    (∀ b ∈ toyServerEncoding, b < 256) ∧
    1 ≤ toyServerParsed.secret.length ∧ toyServerParsed.secret.length ≤ 255 :=
  ⟨(C19_secret_length toyNewCert
      [3, 3, 1, 192, 47, 0, 0, 0, 0, 0, 0, 0, 0, 0, 0, 0, 0, 0, 0, 0, 0, 0, 0, 0, 0]).1 rfl,
    rfl, by decide,
    (C19_secret_length toyNewCert toyServerEncoding).2 toyServerParsed rfl (by decide)⟩

/-- C20. ParseSessionState rejects every input whose opening fields parse, whose
certificate block holds no certificate and whose verified-chains list is not
empty, whatever the chain entries hold. -/
theorem C20_chain_without_certificate (newCert : List Nat → Except String x509.Certificate)
    (data : List Nat) (h : wireHeader) (s : List Nat) (cert : Certificate)
    (s9 chainList s10 : List Nat)
    (hh : readHeader data = some (h, s))
    (hc : unmarshalCertificate s = some (cert, s9))
    (hnone : cert.Certificate = [])
    (hl : ReadUint24LengthPrefixed s9 = some (chainList, s10))
    (hne : chainList ≠ []) :
    ParseSessionState newCert data = .error invalidSessionEncoding := by
  rw [ParseSessionState_eq_parseStaged]
  unfold parseStaged
  rw [hh]
  simp only
  have : parseBody newCert h s = .error invalidSessionEncoding := by
    unfold parseBody
    rw [hc]
    simp only
    rw [hnone, hl]
    by_cases ht : h.typ ≠ 1 ∧ h.typ ≠ 2
    · rw [if_pos ht]
    rw [if_neg ht]
    by_cases hs : h.secret.length = 0
    · rw [if_pos hs]
    rw [if_neg hs]
    rcases h10 : extraLoop (h.extra.length + 1) h.extra [] with err | Extra
    · rw [extraLoop_error _ _ _ _ h10]
    simp only
    by_cases hm : h.extMasterSecret ≠ 0 ∧ h.extMasterSecret ≠ 1
    · rw [if_pos hm]
    rw [if_neg hm]
    by_cases he : h.earlyData ≠ 0 ∧ h.earlyData ≠ 1
    · rw [if_pos he]
    rw [if_neg he]
    simp only [peerCertificatesLoop]
    rw [chainListLoop_no_peer newCert _ chainList [] [] hne]
  rw [this]

/-- C20, witness: a server-role record without certificates whose verified-
chains list holds one empty chain. -/
theorem C20_chain_without_certificate_witness :
    readHeader [3, 3, 1, 192, 47, 0, 0, 0, 0, 0, 0, 0, 0, 1, 9, 0, 0, 0, 0, 0,
        0, 0, 0, 0, 0, 3, 0, 0, 0] =
      some ({ version := 771, typ := 1, cipherSuite := 49199, createdAt := 0, secret := [9],
              extra := [], extMasterSecret := 0, earlyData := 0 },
            [0, 0, 0, 0, 0, 3, 0, 0, 0]) ∧
    unmarshalCertificate [0, 0, 0, 0, 0, 3, 0, 0, 0] =
      some ({ Certificate := [], OCSPStaple := none, SignedCertificateTimestamps := none },
            [0, 0, 3, 0, 0, 0]) ∧
    ReadUint24LengthPrefixed [0, 0, 3, 0, 0, 0] = some ([0, 0, 0], []) ∧
    [0, 0, 0] ≠ ([] : List Nat) ∧
    ParseSessionState toyNewCert
      [3, 3, 1, 192, 47, 0, 0, 0, 0, 0, 0, 0, 0, 1, 9, 0, 0, 0, 0, 0,
        0, 0, 0, 0, 0, 3, 0, 0, 0] = .error invalidSessionEncoding :=
  ⟨rfl, rfl, rfl, by decide,
    C20_chain_without_certificate toyNewCert
      [3, 3, 1, 192, 47, 0, 0, 0, 0, 0, 0, 0, 0, 1, 9, 0, 0, 0, 0, 0,
        0, 0, 0, 0, 0, 3, 0, 0, 0]
      { version := 771, typ := 1, cipherSuite := 49199, createdAt := 0, secret := [9],
        extra := [], extMasterSecret := 0, earlyData := 0 }
      [0, 0, 0, 0, 0, 3, 0, 0, 0]
      { Certificate := [], OCSPStaple := none, SignedCertificateTimestamps := none }
      [0, 0, 3, 0, 0, 0] [0, 0, 0] [] rfl rfl rfl rfl (by decide)⟩

/-- C21. For every client-role input (role byte 2) with version at least
TLS 1.3 (0x0304): a state that ParseSessionState returns is decoded from an
input in which exactly twelve bytes follow the preceding fields, useBy being
the big-endian value of the first eight and ageAdd that of the last four;
when the preceding fields parse and another number of bytes follows them,
ParseSessionState fails; and when they parse with a peer certificate and
twelve bytes follow, it succeeds. -/
theorem C21_client_tls13_tail (newCert : List Nat → Except String x509.Certificate)
    (data : List Nat) (h : wireHeader) (s : List Nat)
    (hh : readHeader data = some (h, s)) (hclient : h.typ = 2)
    (hversion : VersionTLS13 ≤ h.version) :
    (∀ x, ParseSessionState newCert data = .ok x →
      ∃ ss rest, parseBody newCert h s = .ok (ss, rest) ∧ rest.length = 12 ∧
        x.useBy = beValue (rest.take 8) ∧ x.ageAdd = beValue (rest.drop 8)) ∧
    (∀ ss rest, parseBody newCert h s = .ok (ss, rest) → rest.length ≠ 12 →
      ∃ err, ParseSessionState newCert data = .error err) ∧
    (∀ ss rest, parseBody newCert h s = .ok (ss, rest) → ss.peerCertificates ≠ [] →
      rest.length = 12 →
      ParseSessionState newCert data =
        .ok { ss with isClient := true, useBy := beValue (rest.take 8),
                      ageAdd := beValue (rest.drop 8) }) := by
  have key : ∀ ss rest x, parseBody newCert h s = .ok (ss, rest) →
      ParseSessionState newCert data = .ok x →
      rest.length = 12 ∧ x.useBy = beValue (rest.take 8) ∧ x.ageAdd = beValue (rest.drop 8) := by
    intro ss rest x hb hx
    rw [parseStaged_of newCert data h s ss rest hh hb, hclient] at hx
    have hv := (parseBody_ok newCert h s ss rest hb).2.2.2.2
    obtain ⟨_, h1 | h1⟩ := parseTail_client ss rest x hx
    · have := h1.1
      omega
    · obtain ⟨_, h2, h3⟩ := h1
      rw [h3]
      exact ⟨h2, rfl, rfl⟩
  refine ⟨fun x hx => ?_, fun ss rest hb hne => ?_, fun ss rest hb hp hlen => ?_⟩
  · obtain ⟨h2, s2, ss, r, hh2, hb, _⟩ := parseStaged_ok newCert data x hx
    rw [hh] at hh2
    cases hh2
    exact ⟨ss, r, hb, key ss r x hb hx⟩
  · exact Except_error_of_not_ok _ (fun x hx => hne (key ss rest x hb hx).1)
  · rw [parseStaged_of newCert data h s ss rest hh hb, hclient]
    exact parseTail_client_tls13 ss rest hp
      (by rw [(parseBody_ok newCert h s ss rest hb).2.2.2.2]; exact hversion) hlen

/-- C21, witness: the encoding of the client-role example session, in which the
twelve bytes 0, 0, 0, 0, 101, 83, 244, 232, 7, 91, 205, 21 follow the verified
chains, and the same input without its last byte. -/
theorem C21_client_tls13_tail_witness :
    (readHeader toyClientEncoding = some (toyClientHeader, toyClientEncoding.drop 23) ∧
      toyClientHeader.typ = 2 ∧ VersionTLS13 ≤ toyClientHeader.version ∧
      parseBody toyNewCert toyClientHeader (toyClientEncoding.drop 23) =
        .ok (toyClientBody, [0, 0, 0, 0, 101, 83, 244, 232, 7, 91, 205, 21]) ∧
      ParseSessionState toyNewCert toyClientEncoding =
        .ok { toyClientBody with
              isClient := true
              useBy := beValue ([0, 0, 0, 0, 101, 83, 244, 232, 7, 91, 205, 21].take 8)
              ageAdd := beValue ([0, 0, 0, 0, 101, 83, 244, 232, 7, 91, 205, 21].drop 8) }) ∧
    (readHeader (toyClientEncoding.take 56) =
        some (toyClientHeader, (toyClientEncoding.take 56).drop 23) ∧
      parseBody toyNewCert toyClientHeader ((toyClientEncoding.take 56).drop 23) =
        .ok (toyClientBody, [0, 0, 0, 0, 101, 83, 244, 232, 7, 91, 205]) ∧
      ∃ err, ParseSessionState toyNewCert (toyClientEncoding.take 56) = .error err) := by
  have hh : readHeader toyClientEncoding =
      some (toyClientHeader, toyClientEncoding.drop 23) := rfl
  have hb : parseBody toyNewCert toyClientHeader (toyClientEncoding.drop 23) =
      .ok (toyClientBody, [0, 0, 0, 0, 101, 83, 244, 232, 7, 91, 205, 21]) := rfl
  have hh2 : readHeader (toyClientEncoding.take 56) =
      some (toyClientHeader, (toyClientEncoding.take 56).drop 23) := rfl
  have hb2 : parseBody toyNewCert toyClientHeader ((toyClientEncoding.take 56).drop 23) =
      .ok (toyClientBody, [0, 0, 0, 0, 101, 83, 244, 232, 7, 91, 205]) := rfl
  exact ⟨⟨hh, rfl, by decide, hb,
      (C21_client_tls13_tail toyNewCert _ _ _ hh rfl (by decide)).2.2 _ _ hb (by decide) rfl⟩,
    ⟨hh2, hb2,
      (C21_client_tls13_tail toyNewCert _ _ _ hh2 rfl (by decide)).2.1 _ _ hb2 (by decide)⟩⟩

/-- C22. In the unpadded encoding produced by Bytes, everything before the ALPN
field is the same whatever alpnProtocol, useBy and ageAdd are; the ALPN field,
a 1-byte length and the protocol bytes, follows exactly when EarlyData is
true, and the 12 bytes of useBy and ageAdd follow exactly when the state is
client-role with version at least 0x0304. Hence the output of Bytes does not
depend on alpnProtocol when EarlyData is false, nor on useBy and ageAdd for a
server-role or pre-TLS-1.3 state. -/
theorem C22_optional_fields (s : sessionState) (draw : PaddingDraw) (e : List Nat)
    (he : s.Bytes false draw = .ok e) :
    (∃ pre, ∀ alpn useBy ageAdd, (s.EarlyData = true → alpn.length < 256) →
      ({ s with alpnProtocol := alpn, useBy := useBy, ageAdd := ageAdd } : sessionState).Bytes
          false draw =
        .ok (pre ++ (if s.EarlyData = true then bigEndian 1 alpn.length ++ alpn else []) ++
          (if s.isClient = true ∧ VersionTLS13 ≤ s.version then
            bigEndian 8 useBy ++ bigEndian 4 ageAdd else []))) ∧
    (s.EarlyData = false → ∀ alpn obf draw2,
      ({ s with alpnProtocol := alpn } : sessionState).Bytes obf draw2 = s.Bytes obf draw2) ∧
    ((s.isClient = false ∨ s.version < VersionTLS13) → ∀ useBy ageAdd obf draw2,
      ({ s with useBy := useBy, ageAdd := ageAdd } : sessionState).Bytes obf draw2 =
        s.Bytes obf draw2) := by
  refine ⟨?_, fun hE alpn obf draw2 => ?_, fun hT useBy ageAdd obf draw2 => ?_⟩
  · obtain ⟨b, hb, _⟩ := Bytes_ok s false draw e he
    obtain ⟨sec, ex, certs, chains, alpnField, tail, h5, h6, h9, h10, _, _, _⟩ :=
      builder_pieces s b hb
    refine ⟨AddUint16 s.version ++ ((if s.isClient then AddUint8 2 else AddUint8 1) ++
        (AddUint16 s.cipherSuite ++ (addUint64 s.createdAt ++ (sec ++ (ex ++
        ((if s.extMasterSecret then AddUint8 1 else AddUint8 0) ++
        ((if s.EarlyData then AddUint8 1 else AddUint8 0) ++
        (certs ++ chains)))))))), fun alpn useBy ageAdd hlen => ?_⟩
    have hA : (if s.EarlyData then AddUint8LengthPrefixed (.ok alpn) else .ok []) =
        (.ok (if s.EarlyData = true then bigEndian 1 alpn.length ++ alpn else []) :
          Except String (List Nat)) := by
      cases hE : s.EarlyData with
      | false => simp
      | true =>
        have := hlen hE
        simp [AddUint8LengthPrefixed, addLengthPrefixed, this]
    have hT : (if s.isClient then
        (if s.version ≥ VersionTLS13 then .ok (addUint64 useBy ++ AddUint32 ageAdd)
         else .ok [])
       else (.ok [] : Except String (List Nat))) =
        .ok (if s.isClient = true ∧ VersionTLS13 ≤ s.version then
            bigEndian 8 useBy ++ bigEndian 4 ageAdd else []) := by
      cases hC : s.isClient with
      | false => simp
      | true =>
        by_cases hv : VersionTLS13 ≤ s.version
        · simp [hv, addUint64, AddUint64, AddUint32]
        · simp [hv]
    have hb2 := builder_of_pieces
      ({ s with alpnProtocol := alpn, useBy := useBy, ageAdd := ageAdd } : sessionState)
      sec ex certs chains _ _ h5 h6 h9 h10 hA hT
    rw [Bytes_of_builder _ false draw _ hb2]
    simp
  · unfold sessionState.Bytes sessionState.builder
    simp [hE]
  · unfold sessionState.Bytes sessionState.builder
    rcases hT with hT | hT
    · simp [hT]
    · have hv : ¬ s.version ≥ VersionTLS13 := by omega
      simp [hv]

/-- C22, witness: changing alpnProtocol of the client-role example session,
which has no early data, or useBy and ageAdd of the server-role example
session, does not change the output of Bytes; the encoding of the client-role
example session ends with the 12 bytes of its useBy and ageAdd. -/
theorem C22_optional_fields_witness :
    (toyClientState.Bytes false toyDraw = .ok toyClientEncoding ∧
      toyClientState.EarlyData = false ∧
      ({ toyClientState with alpnProtocol := [104, 50] } : sessionState).Bytes true toyDraw =
        toyClientState.Bytes true toyDraw ∧
      ∃ pre, ∀ alpn useBy ageAdd, (toyClientState.EarlyData = true → alpn.length < 256) →
        ({ toyClientState with alpnProtocol := alpn, useBy := useBy, ageAdd := ageAdd } :
            sessionState).Bytes false toyDraw =
          .ok (pre ++
            (if toyClientState.EarlyData = true then bigEndian 1 alpn.length ++ alpn else []) ++
            (if toyClientState.isClient = true ∧ VersionTLS13 ≤ toyClientState.version then
              bigEndian 8 useBy ++ bigEndian 4 ageAdd else []))) ∧
    (toyServerState.Bytes false toyDraw = .ok toyServerEncoding ∧
      (toyServerState.isClient = false ∨ toyServerState.version < VersionTLS13) ∧
      ({ toyServerState with useBy := 7, ageAdd := 9 } : sessionState).Bytes true toyDraw =
        toyServerState.Bytes true toyDraw) :=
  ⟨⟨rfl, rfl,
      (C22_optional_fields toyClientState toyDraw toyClientEncoding rfl).2.1 rfl [104, 50] true
        toyDraw,
      (C22_optional_fields toyClientState toyDraw toyClientEncoding rfl).1⟩,
    ⟨rfl, Or.inl rfl,
      (C22_optional_fields toyServerState toyDraw toyServerEncoding rfl).2.2 (Or.inl rfl) 7 9
        true toyDraw⟩⟩

/-- C23. In every state that ParseSessionState returns, the peer certificates
are decoded from the certificates of the certificate block, one for one; every
verified chain is non-empty, its first element is peerCertificates[0] itself
and the rest of it is decoded from the certificates listed for that chain on
the wire, in order; and the handles are those of the peer certificates and of
the certificates after the first of each chain, so that no certificate is
parsed again for the leaf of a chain. -/
theorem C23_chain_leaf (newCert : List Nat → Except String x509.Certificate)
    (data : List Nat) (x : sessionState) (hx : ParseSessionState newCert data = .ok x) :
    (∀ chain ∈ x.verifiedChains, ∃ leaf tail,
      x.peerCertificates.head? = some leaf ∧ chain = leaf :: tail) ∧
    (∃ h s cert s9 chainList s10 wire,
      readHeader data = some (h, s) ∧ unmarshalCertificate s = some (cert, s9) ∧
      ReadUint24LengthPrefixed s9 = some (chainList, s10) ∧
      decodedFrom newCert cert.Certificate x.peerCertificates ∧
      chainsOnWire chainList wire ∧
      List.Forall₂ (fun raws chain => decodedFrom newCert raws chain.tail) wire
        x.verifiedChains) ∧
    x.activeCertHandles = x.peerCertificates ++ (x.verifiedChains.map List.tail).flatten := by
  obtain ⟨h, s, ss, r, hh, hb, htail⟩ := parseStaged_ok newCert data x hx
  obtain ⟨cert, s9, Extra, peer, chainList, s10, chains, handles, alpn, hc, _, _, _, hp, hl, hcl,
    _, hss⟩ := parseBody_inv newCert h s ss r hb
  obtain ⟨c, u, a, hxs⟩ := parseTail_fields h.typ ss r x htail
  obtain ⟨wire, new, hw, hf, e1, e2⟩ := chainListLoop_decoded newCert peer _ _ _ _ _ _ hcl
  obtain ⟨cs, hcs, hpeer⟩ := peerCertificatesLoop_decoded newCert _ _ _ hp
  simp only [List.nil_append] at e1 hpeer
  subst e1 hpeer
  have hxp : x.peerCertificates = peer := by rw [hxs, hss]
  have hxc : x.verifiedChains = chains := by rw [hxs, hss]
  have hxh : x.activeCertHandles = handles := by rw [hxs, hss]
  rw [hxp, hxc, hxh]
  refine ⟨?_, ⟨h, s, cert, s9, chainList, s10, wire, hh, hc, hl, hcs, hw, ?_⟩, e2⟩
  · intro chain hchain
    obtain ⟨raws, _, leaf, tail, h1, h2, _⟩ := forall2_mem_right _ _ _ hf chain hchain
    exact ⟨leaf, tail, h1, h2⟩
  · refine List.Forall₂.imp ?_ hf
    intro raws chain ⟨leaf, tail, _, h2, h3⟩
    rw [h2]
    exact h3

/-- C23, witness: the server-role example session as decoded from its encoding:
both chains start with the first peer certificate, and four handles are made
for the two peer certificates and the two further certificates of the first
chain. -/
theorem C23_chain_leaf_witness :
    ParseSessionState toyNewCert toyServerEncoding = .ok toyServerParsed ∧
    (∀ chain ∈ toyServerParsed.verifiedChains, ∃ leaf tail,
      toyServerParsed.peerCertificates.head? = some leaf ∧ chain = leaf :: tail) ∧
    toyServerParsed.activeCertHandles =
      toyServerParsed.peerCertificates ++ (toyServerParsed.verifiedChains.map List.tail).flatten ∧
    toyServerParsed.verifiedChains =
      [[{ Raw := [48, 1, 2] }, { Raw := [48, 9] }, { Raw := [48, 11] }], [{ Raw := [48, 1, 2] }]] ∧
    toyServerParsed.activeCertHandles.length = 4 :=
  ⟨rfl, (C23_chain_leaf toyNewCert toyServerEncoding toyServerParsed rfl).1,
    (C23_chain_leaf toyNewCert toyServerEncoding toyServerParsed rfl).2.2, rfl, rfl⟩

/-- C24. Whenever the randomness source delivers fewer than the 16 bytes of
the IV, encryptTicket returns the error of the read and no ticket, for every
plaintext and every non-empty key list; and in every ticket that
encryptTicket returns, the IV is the first 16 bytes the source delivered. -/
theorem C24_iv_failure (P : Primitives) (state : List Nat) (ticketKeys : List ticketKey)
    (rand : List Nat) (hkeys : ticketKeys ≠ []) :
    (rand.length < aesBlockSize →
      ∃ err, (ioReadFull rand aesBlockSize).1 = .error err ∧
        (encryptTicket P state ticketKeys rand).1 = .error err) ∧
    (∀ t, (encryptTicket P state ticketKeys rand).1 = .ok t →
      aesBlockSize ≤ rand.length ∧ t.take aesBlockSize = rand.take aesBlockSize) := by
  cases ticketKeys with
  | nil => exact absurd rfl hkeys
  | cons key rest =>
    constructor
    · intro hlt
      obtain ⟨err, hr⟩ := ioReadFull_short rand aesBlockSize hlt
      refine ⟨err, by rw [hr], ?_⟩
      unfold encryptTicket
      simp only [hr]
    · intro t ht
      obtain ⟨h16, rfl⟩ := encryptTicket_ok_inv P state key rest rand t ht
      refine ⟨h16, ?_⟩
      have hl : (rand.take 16).length = 16 := take16_length rand h16
      rw [List.append_assoc]
      exact List.take_left' hl

/-- C24, witness: a source that delivers 15 bytes, for which encryptTicket
returns the error of the read, and a source that delivers the bytes
0, 1, ..., 15, which are the IV of the ticket. -/
theorem C24_iv_failure_witness :
    ([toyKey1, toyKey2] ≠ [] ∧ (List.range 15).length < aesBlockSize ∧
      (∃ err, (ioReadFull (List.range 15) aesBlockSize).1 = .error err ∧
        (encryptTicket toyPrimitives [1, 2, 3] [toyKey1, toyKey2] (List.range 15)).1 =
          .error err) ∧
      (encryptTicket toyPrimitives [1, 2, 3] [toyKey1, toyKey2] (List.range 15)).1 =
        .error "unexpected EOF") ∧
    ([toyKey1] ≠ [] ∧
      (encryptTicket toyPrimitives [1, 2, 3] [toyKey1] (List.range 16)).1 =
        .ok toyUnparsableTicket ∧
      aesBlockSize ≤ (List.range 16).length ∧
      toyUnparsableTicket.take aesBlockSize = (List.range 16).take aesBlockSize) :=
  ⟨⟨by decide, by decide,
      (C24_iv_failure toyPrimitives [1, 2, 3] [toyKey1, toyKey2] (List.range 15)
        (by decide)).1 (by decide), rfl⟩,
    ⟨by decide, rfl,
      (C24_iv_failure toyPrimitives [1, 2, 3] [toyKey1] (List.range 16)
        (by decide)).2 toyUnparsableTicket rfl⟩⟩

/-- C25 (amended). decryptTicket tries the keys in list order and decrypts
with the first key whose HMAC tag matches. When the key at position `i`
matches the trailing tag, the plaintext is the ciphertext XOR the AES-CTR
keystream of the first matching key, which stands at a position up to `i`;
when no key before `i` matches, it is the keystream of key `i`, and for a
key at a later position `j` that matches as well it is not the keystream of
key `j`, unless the two give the same bytes. -/
theorem C25_first_match (P : Primitives) (encrypted : List Nat) (ticketKeys : List ticketKey)
    (i : Nat) (ki : ticketKey)
    (hlen : aesBlockSize + sha256Size ≤ encrypted.length)
    (haes : ∀ k ∈ ticketKeys, k.aesKey.length = 16)
    (hki : ticketKeys[i]? = some ki)
    (hmi : P.hmacSha256 ki.hmacKey (encrypted.take (encrypted.length - sha256Size)) =
      encrypted.drop (encrypted.length - sha256Size)) :
    (∃ m k, m ≤ i ∧ ticketKeys[m]? = some k ∧
      P.hmacSha256 k.hmacKey (encrypted.take (encrypted.length - sha256Size)) =
        encrypted.drop (encrypted.length - sha256Size) ∧
      (∀ m2 k2, m2 < m → ticketKeys[m2]? = some k2 →
        P.hmacSha256 k2.hmacKey (encrypted.take (encrypted.length - sha256Size)) ≠
          encrypted.drop (encrypted.length - sha256Size)) ∧
      decryptTicket P encrypted ticketKeys =
        some (XORKeyStream P k.aesKey (encrypted.take aesBlockSize)
          ((encrypted.take (encrypted.length - sha256Size)).drop aesBlockSize))) ∧
    ((∀ m2 k2, m2 < i → ticketKeys[m2]? = some k2 →
        P.hmacSha256 k2.hmacKey (encrypted.take (encrypted.length - sha256Size)) ≠
          encrypted.drop (encrypted.length - sha256Size)) →
      decryptTicket P encrypted ticketKeys =
        some (XORKeyStream P ki.aesKey (encrypted.take aesBlockSize)
          ((encrypted.take (encrypted.length - sha256Size)).drop aesBlockSize)) ∧
      ∀ j kj, i < j → ticketKeys[j]? = some kj →
        P.hmacSha256 kj.hmacKey (encrypted.take (encrypted.length - sha256Size)) =
          encrypted.drop (encrypted.length - sha256Size) →
        XORKeyStream P kj.aesKey (encrypted.take aesBlockSize)
            ((encrypted.take (encrypted.length - sha256Size)).drop aesBlockSize) ≠
          XORKeyStream P ki.aesKey (encrypted.take aesBlockSize)
            ((encrypted.take (encrypted.length - sha256Size)).drop aesBlockSize) →
        decryptTicket P encrypted ticketKeys ≠
          some (XORKeyStream P kj.aesKey (encrypted.take aesBlockSize)
            ((encrypted.take (encrypted.length - sha256Size)).drop aesBlockSize))) := by
  have first : ∃ m k, m ≤ i ∧ ticketKeys[m]? = some k ∧
      P.hmacSha256 k.hmacKey (encrypted.take (encrypted.length - sha256Size)) =
        encrypted.drop (encrypted.length - sha256Size) ∧
      (∀ m2 k2, m2 < m → ticketKeys[m2]? = some k2 →
        P.hmacSha256 k2.hmacKey (encrypted.take (encrypted.length - sha256Size)) ≠
          encrypted.drop (encrypted.length - sha256Size)) ∧
      decryptTicket P encrypted ticketKeys =
        some (XORKeyStream P k.aesKey (encrypted.take aesBlockSize)
          ((encrypted.take (encrypted.length - sha256Size)).drop aesBlockSize)) := by
    obtain ⟨pre, k, post, he, hl, hn, hk⟩ :=
      first_match_split
        (fun k => P.hmacSha256 k.hmacKey (encrypted.take (encrypted.length - sha256Size)) =
          encrypted.drop (encrypted.length - sha256Size)) ticketKeys i ki hki hmi
    have hget : ticketKeys[pre.length]? = some k := by
      rw [he, List.getElem?_append_right (le_refl _)]
      simp
    refine ⟨pre.length, k, hl, hget, hk, ?_, ?_⟩
    · intro m2 k2 hm2 hk2
      apply hn k2
      rw [he, List.getElem?_append_left hm2] at hk2
      exact List.getElem?_mem hk2
    · have h48 : 48 ≤ encrypted.length := by
        simp only [aesBlockSize, sha256Size] at hlen
        exact hlen
      rw [decryptTicket_of_long P encrypted ticketKeys h48, he]
      exact decryptTicketKeys_first P _ _ _ _ pre k post hn hk
        (haes k (by rw [he]; simp))
  refine ⟨first, fun hfirst => ?_⟩
  obtain ⟨m, k, hmi2, hget, hk, _, hres⟩ := first
  have hm : m = i := by
    by_contra hne
    exact hfirst m k (by omega) hget hk
  subst hm
  rw [hki] at hget
  cases hget
  refine ⟨hres, fun j kj _ _ _ hne hcon => ?_⟩
  rw [hres] at hcon
  exact hne (Option.some.inj hcon).symm

/-- C25, witness: the ticket of the plaintext 1, 2, 3 under the first example
key, decrypted with the second, the first and the third example key in this
order: the tags of the first and of the third key match, the plaintext is
that of the first key, and the keystream of the third key gives other
bytes. -/
theorem C25_first_match_witness :
    aesBlockSize + sha256Size ≤ toyUnparsableTicket.length ∧
    (∀ k ∈ [toyKey2, toyKey1, toyKey3], k.aesKey.length = 16) ∧
    [toyKey2, toyKey1, toyKey3][1]? = some toyKey1 ∧
    [toyKey2, toyKey1, toyKey3][2]? = some toyKey3 ∧
    toyPrimitives.hmacSha256 toyKey1.hmacKey
        (toyUnparsableTicket.take (toyUnparsableTicket.length - sha256Size)) =
      toyUnparsableTicket.drop (toyUnparsableTicket.length - sha256Size) ∧
    toyPrimitives.hmacSha256 toyKey3.hmacKey
        (toyUnparsableTicket.take (toyUnparsableTicket.length - sha256Size)) =
      toyUnparsableTicket.drop (toyUnparsableTicket.length - sha256Size) ∧
    XORKeyStream toyPrimitives toyKey1.aesKey (toyUnparsableTicket.take aesBlockSize)
        ((toyUnparsableTicket.take (toyUnparsableTicket.length - sha256Size)).drop
          aesBlockSize) = [1, 2, 3] ∧
    decryptTicket toyPrimitives toyUnparsableTicket [toyKey2, toyKey1, toyKey3] =
      some (XORKeyStream toyPrimitives toyKey1.aesKey (toyUnparsableTicket.take aesBlockSize)
        ((toyUnparsableTicket.take (toyUnparsableTicket.length - sha256Size)).drop
          aesBlockSize)) ∧
    decryptTicket toyPrimitives toyUnparsableTicket [toyKey2, toyKey1, toyKey3] ≠
      some (XORKeyStream toyPrimitives toyKey3.aesKey (toyUnparsableTicket.take aesBlockSize)
        ((toyUnparsableTicket.take (toyUnparsableTicket.length - sha256Size)).drop
          aesBlockSize)) := by
  have hfirst : ∀ m2 k2, m2 < 1 → [toyKey2, toyKey1, toyKey3][m2]? = some k2 →
      toyPrimitives.hmacSha256 k2.hmacKey
          (toyUnparsableTicket.take (toyUnparsableTicket.length - sha256Size)) ≠
        toyUnparsableTicket.drop (toyUnparsableTicket.length - sha256Size) := by
    intro m2 k2 hm2 hk2
    have h0 : m2 = 0 := by omega
    subst h0
    cases hk2
    decide
  have h := (C25_first_match toyPrimitives toyUnparsableTicket [toyKey2, toyKey1, toyKey3] 1
    toyKey1 (by decide) (by decide) rfl rfl).2 hfirst
  exact ⟨by decide, by decide, rfl, rfl, rfl, rfl, rfl, h.1,
    h.2 2 toyKey3 (by decide) rfl rfl (by decide)⟩

/-- C25, counterexample: the ticket of the plaintext 1, 2, 3 under the first
example key, decrypted with the third, the first and the third example key in
this order. The keys at the positions 1 and 2 both match the tag, but so does
the key at position 0, and the plaintext returned is 65, 66, 67, from the
keystream of the key at position 0, which is also the key at position 2; the
keystream of the key at position 1 gives 1, 2, 3. -/
theorem C25_earlier_key_wins :
    [toyKey3, toyKey1, toyKey3][1]? = some toyKey1 ∧
    [toyKey3, toyKey1, toyKey3][2]? = some toyKey3 ∧
    toyPrimitives.hmacSha256 toyKey1.hmacKey
        (toyUnparsableTicket.take (toyUnparsableTicket.length - sha256Size)) =
      toyUnparsableTicket.drop (toyUnparsableTicket.length - sha256Size) ∧
    toyPrimitives.hmacSha256 toyKey3.hmacKey
        (toyUnparsableTicket.take (toyUnparsableTicket.length - sha256Size)) =
      toyUnparsableTicket.drop (toyUnparsableTicket.length - sha256Size) ∧
    XORKeyStream toyPrimitives toyKey1.aesKey (toyUnparsableTicket.take aesBlockSize)
        ((toyUnparsableTicket.take (toyUnparsableTicket.length - sha256Size)).drop
          aesBlockSize) = [1, 2, 3] ∧
    XORKeyStream toyPrimitives toyKey3.aesKey (toyUnparsableTicket.take aesBlockSize)
        ((toyUnparsableTicket.take (toyUnparsableTicket.length - sha256Size)).drop
          aesBlockSize) = [65, 66, 67] ∧
    decryptTicket toyPrimitives toyUnparsableTicket [toyKey3, toyKey1, toyKey3] =
      some [65, 66, 67] ∧
    decryptTicket toyPrimitives toyUnparsableTicket [toyKey3, toyKey1, toyKey3] ≠
      some (XORKeyStream toyPrimitives toyKey1.aesKey (toyUnparsableTicket.take aesBlockSize)
        ((toyUnparsableTicket.take (toyUnparsableTicket.length - sha256Size)).drop
          aesBlockSize)) :=
  ⟨rfl, rfl, rfl, rfl, rfl, rfl, rfl, by decide⟩

/-- C26. For every session state, with a version that fits its 16 bits, whose
unpadded encoding `e` is produced without error, ParseSessionState rejects
every strict prefix `p` of `e`. -/
theorem C26_strict_prefix (newCert : List Nat → Except String x509.Certificate)
    (s : sessionState) (draw : PaddingDraw) (e p t : List Nat)
    (hversion : s.version < 2 ^ 16)
    (he : s.Bytes false draw = .ok e) (hp : e = p ++ t) (ht : t ≠ []) :
    ∃ err, ParseSessionState newCert p = .error err := by
  apply Except_error_of_not_ok
  intro x hx
  obtain ⟨b, hb, hbe⟩ := Bytes_ok s false draw e he
  simp only [Bool.false_eq_true, if_false, List.append_nil] at hbe
  subst hbe
  obtain ⟨sec, ex, certs, chains, alpnField, tail, h5, h6, h9, h10, h11, h12, hform⟩ :=
    builder_pieces s e hb
  obtain ⟨hdr, hread, hver, htyp, hed⟩ :=
    readHeader_builder s sec ex (certs ++ (chains ++ (alpnField ++ tail))) hversion h5 h6
  rw [← hform, hp] at hread
  obtain ⟨h, s1, ss, r, hh, hbody, htail⟩ := parseStaged_ok newCert p x hx
  have hh2 := readHeader_frame p h s1 t hh
  rw [hread] at hh2
  have hhdr := (Prod.mk.inj (Option.some.inj hh2)).1
  have hs1 := (Prod.mk.inj (Option.some.inj hh2)).2
  subst hhdr
  have hbody2 := parseBody_frame newCert hdr s1 ss r t hbody
  rw [← hs1] at hbody2
  have hrt : r ++ t = tail :=
    parseBody_builder_rest newCert s hdr certs chains alpnField tail ss (r ++ t) hed h9 h10 h11
      hbody2
  have hssv : ss.version = s.version := by
    rw [(parseBody_ok newCert hdr s1 ss r hbody).2.2.2.2, hver]
  cases hC : s.isClient with
  | false =>
    rw [hC] at h12
    simp only [Bool.false_eq_true, if_false] at h12
    cases h12
    exact ht (List.append_eq_nil.1 hrt).2
  | true =>
    rw [hC] at h12 htyp
    simp only [if_true] at h12 htyp
    rw [htyp] at htail
    obtain ⟨_, h1 | h1⟩ := parseTail_client ss r x htail
    · have hv : ¬ s.version ≥ VersionTLS13 := by
        have := h1.1
        omega
      rw [if_neg hv] at h12
      cases h12
      exact ht (List.append_eq_nil.1 hrt).2
    · have hv : s.version ≥ VersionTLS13 := by
        have := h1.1
        omega
      rw [if_pos hv] at h12
      cases h12
      have hlen := congrArg List.length hrt
      rw [List.length_append, List.length_append, h1.2.1] at hlen
      simp only [addUint64, AddUint64, AddUint32, bigEndian_length] at hlen
      have : t.length = 0 := by omega
      exact ht (List.length_eq_zero.1 this)

/-- C26, witness: the encoding of the server-role example session without its
last byte, and the encoding of the client-role example session cut in the
middle of the certificate block. -/
theorem C26_strict_prefix_witness :
    (toyServerState.version < 2 ^ 16 ∧
      toyServerState.Bytes false toyDraw = .ok toyServerEncoding ∧
      toyServerEncoding = toyServerEncoding.take 93 ++ [50] ∧ [50] ≠ [] ∧
      (∃ err, ParseSessionState toyNewCert (toyServerEncoding.take 93) = .error err) ∧
      ParseSessionState toyNewCert (toyServerEncoding.take 93) =
        .error invalidSessionEncoding) ∧
    (toyClientState.version < 2 ^ 16 ∧
      toyClientState.Bytes false toyDraw = .ok toyClientEncoding ∧
      toyClientEncoding = toyClientEncoding.take 30 ++ toyClientEncoding.drop 30 ∧
      toyClientEncoding.drop 30 ≠ [] ∧
      ∃ err, ParseSessionState toyNewCert (toyClientEncoding.take 30) = .error err) :=
  ⟨⟨by decide, rfl, rfl, by decide,
      C26_strict_prefix toyNewCert toyServerState toyDraw toyServerEncoding
        (toyServerEncoding.take 93) [50] (by decide) rfl rfl (by decide), rfl⟩,
    ⟨by decide, rfl, rfl, by decide,
      C26_strict_prefix toyNewCert toyClientState toyDraw toyClientEncoding
        (toyClientEncoding.take 30) (toyClientEncoding.drop 30) (by decide) rfl rfl
        (by decide)⟩⟩

/-- C27. Bytes returns an error, and so no encoding, whenever some verified
chain of the state is empty, whatever the other fields, with the padding on or
off and for every draw. -/
theorem C27_empty_chain (s : sessionState) (obfuscateSessionTickets : Bool) (draw : PaddingDraw)
    (h : [] ∈ s.verifiedChains) :
    ∃ err, s.Bytes obfuscateSessionTickets draw = .error err := by
  have hb : ∃ err, s.builder = .error err := by
    unfold sessionState.builder
    refine andThen_error_right _ _ (andThen_error_right _ _ (andThen_error_right _ _
      (andThen_error_right _ _ (andThen_error_right _ _ (andThen_error_right _ _
      (andThen_error_right _ _ (andThen_error_right _ _ (andThen_error_right _ _
      (andThen_error_left _ _ ?_)))))))))
    exact addLengthPrefixed_error 3 _ (marshalChains_error _ h)
  obtain ⟨err, hb⟩ := hb
  exact ⟨err, by unfold sessionState.Bytes; rw [hb]⟩

/-- C27, witness: the server-role example session with an empty third chain,
for which Bytes returns the error of an empty verified chain; without that
chain Bytes returns the encoding. -/
theorem C27_empty_chain_witness :
    [] ∈ toyEmptyChainState.verifiedChains ∧
    (∃ err, toyEmptyChainState.Bytes true toyDraw = .error err) ∧
    toyEmptyChainState.Bytes true toyDraw =
      .error "tls: internal error: empty verified chain" ∧
    toyServerState.Bytes false toyDraw = .ok toyServerEncoding :=
  ⟨by decide, C27_empty_chain toyEmptyChainState true toyDraw (by decide), rfl, rfl⟩

/-- C28. In every input whose opening fields can be read, the
ext-master-secret flag and the early-data flag are the two bytes behind the
Extra blocks; ParseSessionState fails on the input when one of them is
neither 0 nor 1, and in a state it returns extMasterSecret and EarlyData are
true exactly when the respective byte is 1. -/
theorem C28_flag_bytes (newCert : List Nat → Except String x509.Certificate)
    (data : List Nat) (h : wireHeader) (s : List Nat)
    (hh : readHeader data = some (h, s)) :
    (data[17 + h.secret.length + h.extra.length]? = some h.extMasterSecret ∧
      data[18 + h.secret.length + h.extra.length]? = some h.earlyData) ∧
    ((h.extMasterSecret ≠ 0 ∧ h.extMasterSecret ≠ 1) ∨
      (h.earlyData ≠ 0 ∧ h.earlyData ≠ 1) →
        ParseSessionState newCert data = .error invalidSessionEncoding) ∧
    (∀ x, ParseSessionState newCert data = .ok x →
      (x.extMasterSecret = true ↔ h.extMasterSecret = 1) ∧
      (x.EarlyData = true ↔ h.earlyData = 1)) := by
  refine ⟨?_, fun hf => parseStaged_error newCert data h s _ hh (parseBody_flags newCert h s hf),
    fun x hx => ?_⟩
  · obtain ⟨front, hl, hd⟩ := readHeader_split data h s hh
    rw [hd, ← hl]
    constructor
    · rw [List.getElem?_append_right (le_refl _)]
      simp
    · rw [show 18 + h.secret.length + h.extra.length = front.length + 1 by omega,
        List.getElem?_append_right (by omega)]
      simp
  · obtain ⟨h2, s2, ss, r, hh2, hb, htail⟩ := parseStaged_ok newCert data x hx
    rw [hh] at hh2
    cases hh2
    obtain ⟨cert, s9, Extra, peer, chainList, s10, chains, handles, alpn, _, _, _, _, _, _, _, _,
      hss⟩ := parseBody_inv newCert h s ss r hb
    obtain ⟨c, u, a, hxs⟩ := parseTail_fields h.typ ss r x htail
    rw [hxs, hss]
    simp

/-- C28, witness: the encoding of the server-role example session, whose flag
bytes at the offsets 29 and 30 are both 1, and the same input with the
early-data flag set to 2. -/
theorem C28_flag_bytes_witness :
    (readHeader toyServerEncoding = some (toyServerHeader, toyServerEncoding.drop 31) ∧
      toyServerEncoding[29]? = some 1 ∧ toyServerEncoding[30]? = some 1 ∧
      ParseSessionState toyNewCert toyServerEncoding = .ok toyServerParsed ∧
      (toyServerParsed.extMasterSecret = true ↔ toyServerHeader.extMasterSecret = 1) ∧
      (toyServerParsed.EarlyData = true ↔ toyServerHeader.earlyData = 1)) ∧
    (readHeader (toyServerEncoding.set 30 2) =
        some ({ toyServerHeader with earlyData := 2 }, toyServerEncoding.drop 31) ∧
      ParseSessionState toyNewCert (toyServerEncoding.set 30 2) =
        .error invalidSessionEncoding) := by
  have hh : readHeader toyServerEncoding =
      some (toyServerHeader, toyServerEncoding.drop 31) := rfl
  have hh2 : readHeader (toyServerEncoding.set 30 2) =
      some ({ toyServerHeader with earlyData := 2 }, toyServerEncoding.drop 31) := rfl
  exact ⟨⟨hh, rfl, rfl, rfl,
      (C28_flag_bytes toyNewCert _ _ _ hh).2.2 toyServerParsed rfl⟩,
    ⟨hh2, (C28_flag_bytes toyNewCert _ _ _ hh2).2.1 (Or.inr (by decide))⟩⟩

/-- C30. ParseSessionState rejects every client-role input (role byte 2) whose
certificate block holds no certificate; when every field of such an input is
well formed, the error is that of a client session without server
certificates; and every client-role state it returns has a peer
certificate. -/
theorem C30_client_needs_certificate (newCert : List Nat → Except String x509.Certificate)
    (data : List Nat) :
    (∀ h s cert r, readHeader data = some (h, s) → h.typ = 2 →
      unmarshalCertificate s = some (cert, r) → cert.Certificate = [] →
      ∃ err, ParseSessionState newCert data = .error err) ∧
    (∀ h s ss rest, readHeader data = some (h, s) → h.typ = 2 →
      parseBody newCert h s = .ok (ss, rest) → ss.peerCertificates = [] →
      ParseSessionState newCert data = .error "tls: no server certificates in client session") ∧
    (∀ x, ParseSessionState newCert data = .ok x → x.isClient = true →
      x.peerCertificates ≠ []) := by
  refine ⟨fun h s cert r hh hty hc hnil => ?_, fun h s ss rest hh hty hb hnil => ?_,
    fun x hx hcl => ?_⟩
  · apply Except_error_of_not_ok
    intro x hx
    obtain ⟨h2, s2, ss, r2, hh2, hb, htail⟩ := parseStaged_ok newCert data x hx
    rw [hh] at hh2
    cases hh2
    obtain ⟨cert2, s9, Extra, peer, chainList, s10, chains, handles, alpn, hc2, _, _, _, hp, _, _,
      _, hss⟩ := parseBody_inv newCert h s ss r2 hb
    rw [hc] at hc2
    cases hc2
    have hlen := peerCertificatesLoop_length newCert _ _ _ hp
    rw [hnil] at hlen
    rw [hty] at htail
    apply (parseTail_client ss r2 x htail).1
    rw [hss]
    exact List.length_eq_zero.1 hlen
  · rw [parseStaged_of newCert data h s ss rest hh hb, hty]
    unfold parseTail
    rw [if_neg (by simp), if_pos (by rw [hnil]; rfl)]
  · obtain ⟨h, s, ss, r, hh, hb, htail⟩ := parseStaged_ok newCert data x hx
    have hty : h.typ = 2 := by
      have h1 := (parseTail_ok h.typ ss r x htail).2.1 hcl
      rcases h1 with h1 | h1
      · exact h1
      · rw [(parseBody_ok newCert h s ss r hb).2.2.2.1] at h1
        cases h1
    rw [hty] at htail
    obtain ⟨hp, _⟩ := parseTail_client ss r x htail
    obtain ⟨c, u, a, hxs⟩ := parseTail_fields 2 ss r x htail
    rw [hxs]
    exact hp

/-- C30, witness: the encoding of a client-role TLS 1.2 session without peer
certificates, every field of which is well formed, is rejected; the
client-role example session, which is accepted, has a peer certificate. -/
theorem C30_client_needs_certificate_witness :
    (toyClientNoCertState.Bytes false toyDraw = .ok toyClientNoCertEncoding ∧
      readHeader toyClientNoCertEncoding =
        some (toyClientNoCertHeader, [0, 0, 0, 0, 0, 0]) ∧
      toyClientNoCertHeader.typ = 2 ∧
      parseBody toyNewCert toyClientNoCertHeader [0, 0, 0, 0, 0, 0] =
        .ok ({ toyClientNoCertState with isClient := false }, []) ∧
      ParseSessionState toyNewCert toyClientNoCertEncoding =
        .error "tls: no server certificates in client session") ∧
    (ParseSessionState toyNewCert toyClientEncoding = .ok toyClientParsed ∧
      toyClientParsed.isClient = true ∧ toyClientParsed.peerCertificates ≠ []) := by
  have hh : readHeader toyClientNoCertEncoding =
      some (toyClientNoCertHeader, [0, 0, 0, 0, 0, 0]) := rfl
  have hb : parseBody toyNewCert toyClientNoCertHeader [0, 0, 0, 0, 0, 0] =
      .ok ({ toyClientNoCertState with isClient := false }, []) := rfl
  exact ⟨⟨rfl, hh, rfl, hb,
      (C30_client_needs_certificate toyNewCert toyClientNoCertEncoding).2.1 _ _ _ _ hh rfl hb rfl⟩,
    ⟨rfl, rfl,
      (C30_client_needs_certificate toyNewCert toyClientEncoding).2.2 toyClientParsed rfl rfl⟩⟩

end tls

/-! # NonblockingIO.Write -/

namespace tun

/-- The loop of Write keeps `n` at most `t` as long as every operation that
completes reports at most the `t - n` bytes still to be written; so a return
without an error returns `t`. -/
theorem writeLoop_nil (t : Nat) : ∀ (rounds : List SystemCalls) (n : Nat)
    (p : List Nat) (nio : NonblockingIO) (_ : n ≤ t)
    (_ : withinRemaining (t - n) rounds = true) (m : Nat) (nio2 : NonblockingIO),
    writeLoop t rounds n p nio = some ((m, none), nio2) → m = t := by
  intro rounds
  induction rounds with
  | nil =>
    intro n p nio hle _ m nio2 h
    rw [writeLoop] at h
    by_cases hn : n < t
    · rw [if_pos hn] at h; cases h
    · rw [if_neg hn] at h
      cases h
      omega
  | cons calls rounds ih =>
    intro n p nio hle hb m nio2 h
    rw [writeLoop] at h
    rw [withinRemaining] at hb
    by_cases hn : n < t
    · rw [if_pos hn] at h
      simp only at h
      rcases hw : calls.writeFileErr with _ | err
      · rw [hw] at h
        simp only at h
        have hc : calls.completed = some calls.writeFileDone := by
          simp [SystemCalls.completed, hw]
        rw [hc] at hb
        simp only [Bool.and_eq_true, decide_eq_true_eq] at hb
        by_cases hn2 : n + calls.writeFileDone < t
        · rw [if_pos hn2] at h
          refine ih _ _ _ (by omega) ?_ m nio2 h
          rw [show t - (n + calls.writeFileDone) = t - n - calls.writeFileDone by omega]
          exact hb.2
        · rw [if_neg hn2] at h
          cases h
      · rw [hw] at h
        simp only at h
        by_cases he : err ≠ ERROR_IO_PENDING
        · rw [if_pos he] at h; cases h
        · rw [if_neg he] at h
          have he2 : err = ERROR_IO_PENDING := by
            by_contra hne
            exact he hne
          rcases hwt : calls.waitErr with _ | err2
          · rw [hwt] at h
            simp only at h
            by_cases hi : (calls.signalledEventIndex + 2 ^ 32 - WAIT_OBJECT_0) % 2 ^ 32 = 0
            · rw [if_pos hi] at h; cases h
            · rw [if_neg hi] at h
              rcases ho : calls.overlappedErr with _ | err3
              · rw [ho] at h
                simp only at h
                have hc : calls.completed = some calls.overlappedDone := by
                  simp only [SystemCalls.completed, hw]
                  rw [if_pos ⟨he2, hwt, hi, ho⟩]
                rw [hc] at hb
                simp only [Bool.and_eq_true, decide_eq_true_eq] at hb
                refine ih _ _ _ (by omega) ?_ m nio2 h
                rw [show t - (n + calls.overlappedDone) = t - n - calls.overlappedDone by omega]
                exact hb.2
              · rw [ho] at h
                simp only at h
                have hc : calls.completed = none := by
                  simp only [SystemCalls.completed, hw]
                  rw [if_neg (by rw [ho]; simp)]
                rw [hc] at hb
                by_cases hp : err3 = ERROR_IO_PENDING
                · rw [if_pos hp] at h
                  exact ih _ _ _ hle hb m nio2 h
                · rw [if_neg hp] at h; cases h
          · rw [hwt] at h; cases h
    · rw [if_neg hn] at h
      cases h
      omega

/-- A round whose overlapped operation reports more bytes than are still to be
written makes Write return a count above `len(p)` with a nil error. -/
theorem Write_overfull :
    withinRemaining [1, 2, 3, 4, 5].length [overlappedRound 7] = false ∧
    NonblockingIO.Write toyNio [1, 2, 3, 4, 5] [overlappedRound 7] =
      some ((7, none), { closed := 0, writeOverlapped := { Offset := 7 } }) := ⟨rfl, rfl⟩

/-- C29. For every buffer `p` and every sequence of results of the overlapped
write calls in which each operation that completes reports at most the number
of bytes still to be written: whenever NonblockingIO.Write returns a nil
error, the count it returns is `len(p)`; a count below `len(p)` comes with an
error. -/
theorem C29_write_count (nio : NonblockingIO) (p : List Nat) (rounds : List SystemCalls)
    (hbound : withinRemaining p.length rounds = true)
    (n : Nat) (err : Option TracedError) (nio2 : NonblockingIO)
    (h : NonblockingIO.Write nio p rounds = some ((n, err), nio2)) :
    (err = none → n = p.length) ∧ (n < p.length → err ≠ none) := by
  have key : err = none → n = p.length := by
    intro he
    subst he
    unfold NonblockingIO.Write at h
    by_cases hc : nio.closed ≠ 0
    · rw [if_pos hc] at h; cases h
    · rw [if_neg hc] at h
      exact writeLoop_nil p.length rounds 0 p nio (by omega) hbound n nio2 h
  exact ⟨key, fun hlt he => by have := key he; omega⟩

/-- C29, witness: five bytes written in four rounds, two by an overlapped
operation, none while the operation is pending, one at once and the last two
by an overlapped operation, with a nil error and the count 5; and a write
that fails in its second round, with the count 2 and an error. -/
theorem C29_write_count_witness :
    (withinRemaining [1, 2, 3, 4, 5].length
        [overlappedRound 2, pendingRound, synchronousRound 1, overlappedRound 2] = true ∧
      NonblockingIO.Write toyNio [1, 2, 3, 4, 5]
          [overlappedRound 2, pendingRound, synchronousRound 1, overlappedRound 2] =
        some ((5, none), { closed := 0, writeOverlapped := { Offset := 4 } }) ∧
      ((none : Option TracedError) = none → 5 = [1, 2, 3, 4, 5].length)) ∧
    (withinRemaining [1, 2, 3, 4, 5].length [overlappedRound 2, failedRound] = true ∧
      NonblockingIO.Write toyNio [1, 2, 3, 4, 5] [overlappedRound 2, failedRound] =
        some ((2, some (.Trace 5)), { closed := 0, writeOverlapped := { Offset := 2 } }) ∧
      (2 < [1, 2, 3, 4, 5].length → some (TracedError.Trace 5) ≠ none)) :=
  ⟨⟨rfl, rfl,
      (C29_write_count toyNio [1, 2, 3, 4, 5]
        [overlappedRound 2, pendingRound, synchronousRound 1, overlappedRound 2] rfl 5 none
        { closed := 0, writeOverlapped := { Offset := 4 } } rfl).1⟩,
    ⟨rfl, rfl,
      (C29_write_count toyNio [1, 2, 3, 4, 5] [overlappedRound 2, failedRound] rfl 2
        (some (.Trace 5)) { closed := 0, writeOverlapped := { Offset := 2 } } rfl).2⟩⟩

end tun
